import Mathlib

/-!
Verification development for the stream_resp repository: a shallow embedding of
src/resp.rs (the RESP value model) and src/parser.rs (the streaming RESP
decoder), together with theorems about the properties claimed for them.

Modelling conventions:
* wire bytes are `Nat` values (each 0..255 on the wire);
* Rust `i64` is `Int` together with explicit range checks that mirror the
  checked arithmetic used by the source (`checked_mul`, `checked_add`,
  `checked_sub` never wrap; the `as usize` casts are modelled with explicit
  `% 2^64` where the source could wrap);
* Rust `String` / `Cow<str>` payloads are byte lists (`List Nat`), with the
  UTF-8 validation and lossy-decoding helpers of the Rust standard library
  modelled below;
* `BytesMut` is a byte list plus an explicit capacity field; `with_capacity`
  allocates exactly the requested capacity, `split_off(pos)` keeps
  `cap - pos`, and `reserve`/`extend_from_slice` grow to at least the length
  required (the minimal growth consistent with the `BytesMut` contract).
-/

def i64Max : Int := 9223372036854775807

def i64Min : Int := -9223372036854775808

/-- UTF-8 continuation byte test (0x80..=0xBF). -/
def utf8Cont (b : Nat) : Bool := 128 ≤ b && b ≤ 191

/-- Lead-byte classification for the UTF-8 state machine: 0 = ASCII (or
resting state), 1/2/3 = that many generic continuation bytes expected,
4 = after 0xE0 (second byte A0..BF), 5 = after 0xED (80..9F),
6 = after 0xF0 (90..BF), 7 = after 0xF4 (80..8F), 8 = invalid lead. -/
def utf8LeadClass (b : Nat) : Nat :=
  if b < 128 then 0
  else if 194 ≤ b && b ≤ 223 then 1
  else if b == 224 then 4
  else if (225 ≤ b && b ≤ 236) || (238 ≤ b && b ≤ 239) then 2
  else if b == 237 then 5
  else if b == 240 then 6
  else if 241 ≤ b && b ≤ 243 then 3
  else if b == 244 then 7
  else 8

/-- Acceptable next byte in a mid-sequence state. -/
def utf8ContOk (state b : Nat) : Bool :=
  if state == 1 || state == 2 || state == 3 then utf8Cont b
  else if state == 4 then 160 ≤ b && b ≤ 191
  else if state == 5 then 128 ≤ b && b ≤ 159
  else if state == 6 then 144 ≤ b && b ≤ 191
  else if state == 7 then 128 ≤ b && b ≤ 143
  else false

/-- Successor state after a good continuation byte. -/
def utf8Next (state : Nat) : Nat :=
  if state == 1 then 0
  else if state == 2 then 1
  else if state == 3 then 2
  else if state == 4 then 1
  else if state == 5 then 1
  else if state == 6 then 2
  else if state == 7 then 2
  else 8

/-- UTF-8 validity from a given state (shortest forms only, no surrogates,
max U+10FFFF — the checks of Rust `str::from_utf8`). -/
def utf8ValidSt : Nat → List Nat → Bool
  | 0, [] => true
  | _ + 1, [] => false
  | 0, b :: rest =>
    if b < 128 then utf8ValidSt 0 rest
    else if utf8LeadClass b == 8 then false
    else utf8ValidSt (utf8LeadClass b) rest
  | s + 1, b :: rest => utf8ContOk (s + 1) b && utf8ValidSt (utf8Next (s + 1)) rest

/-- Model of Rust `str::from_utf8(bytes).is_ok()`. -/
def utf8Valid (l : List Nat) : Bool := utf8ValidSt 0 l

/-- The three UTF-8 bytes of U+FFFD, the replacement character emitted by
`String::from_utf8_lossy` for each maximal invalid subpart. -/
def utf8Repl : List Nat := [239, 191, 189]

/-- Lossy UTF-8 decoding from a given state: `pending` holds the bytes of the
current partially-validated sequence.  A byte that cannot continue the
sequence replaces the pending maximal subpart with U+FFFD and is reprocessed
as a lead byte (Rust's substitution-of-maximal-subparts).  On valid input the
bytes pass through unchanged. -/
def utf8LossySt : Nat → List Nat → List Nat → List Nat
  | 0, _, [] => []
  | _ + 1, _, [] => utf8Repl
  | 0, _, b :: rest =>
    if b < 128 then b :: utf8LossySt 0 [] rest
    else if utf8LeadClass b == 8 then utf8Repl ++ utf8LossySt 0 [] rest
    else utf8LossySt (utf8LeadClass b) [b] rest
  | s + 1, pending, b :: rest =>
    if utf8ContOk (s + 1) b then
      if utf8Next (s + 1) == 0 then (pending ++ [b]) ++ utf8LossySt 0 [] rest
      else utf8LossySt (utf8Next (s + 1)) (pending ++ [b]) rest
    else
      utf8Repl ++
        (if b < 128 then b :: utf8LossySt 0 [] rest
         else if utf8LeadClass b == 8 then utf8Repl ++ utf8LossySt 0 [] rest
         else utf8LossySt (utf8LeadClass b) [b] rest)

/-- Model of Rust `String::from_utf8_lossy(bytes).into_owned()` as a byte
transformation. -/
def utf8Lossy (l : List Nat) : List Nat := utf8LossySt 0 [] l

/-- Canonical decimal digits (least significant first) of a natural number;
empty for 0.  Helper for modelling Rust `format!` of integers. -/
def natDigitsRev (n : Nat) : List Nat :=
  if h : n = 0 then [] else (n % 10 + 48) :: natDigitsRev (n / 10)
decreasing_by exact Nat.div_lt_self (Nat.pos_of_ne_zero h) (by omega)

/-- Model of Rust `format!` output for a `usize`/nonnegative value: canonical
decimal digit bytes, most significant first, with "0" for zero. -/
def natDecimal (n : Nat) : List Nat :=
  if n = 0 then [48] else (natDigitsRev n).reverse

/-- Model of Rust `format!` output for an `i64` value: optional minus sign
followed by the canonical decimal digits of the absolute value. -/
def intDecimal (i : Int) : List Nat :=
  if i < 0 then 45 :: natDecimal i.natAbs else natDecimal i.natAbs

/-- The RESP line terminator `\r\n`. -/
def crlf : List Nat := [13, 10]

/-- The `RespValue` enum of src/resp.rs.  Text payloads (`Cow<str>`) are byte
lists; `Double` keeps Lean's 64-bit float for the Rust `f64`. -/
inductive RespValue where
  | SimpleString (s : List Nat)
  | Error (s : List Nat)
  | Integer (i : Int)
  | BulkString (s : Option (List Nat))
  | Array (xs : Option (List RespValue))
  | Null
  | Boolean (b : Bool)
  | Double (d : Float)
  | BigNumber (s : List Nat)
  | BulkError (s : Option (List Nat))
  | VerbatimString (s : Option (List Nat))
  | Map (pairs : Option (List (RespValue × RespValue)))
  | Set (xs : Option (List RespValue))
  | Push (xs : Option (List RespValue))

/-- Stand-in for Rust's `Display` formatting of an `f64`.  Lean's `toString`
on `Float` does not reduce in the kernel and may differ from Rust's text form;
no claim below depends on the bytes produced for a `Double`, and the
round-trip theorem's well-formedness predicate excludes `Double` exactly
because float formatting is outside the scope of this embedding. -/
def fmtF64 (d : Float) : List Nat := (toString d).data.map Char.toNat

/-- `RespValue::as_bytes` of src/resp.rs: the canonical RESP encoder.
`s.len()` on a Rust `str` is its byte length, which is the list length here. -/
def RespValue.as_bytes : RespValue → List Nat
  | .SimpleString s => 43 :: (s ++ crlf)
  | .Error e => 45 :: (e ++ crlf)
  | .Integer i => 58 :: (intDecimal i ++ crlf)
  | .BulkString (some s) => 36 :: (natDecimal s.length ++ crlf ++ s ++ crlf)
  | .BulkString none => [36, 45, 49, 13, 10]
  | .Array (some arr) =>
      42 :: (natDecimal arr.length ++ crlf ++
        (arr.attach.map (fun x => RespValue.as_bytes x.1)).flatten)
  | .Array none => [42, 45, 49, 13, 10]
  | .Null => [95, 13, 10]
  | .Boolean b => [35, if b then 116 else 102, 13, 10]
  | .Double d => 44 :: (fmtF64 d ++ crlf)
  | .BigNumber n => 40 :: (n ++ crlf)
  | .BulkError (some e) => 33 :: (e ++ crlf)
  | .BulkError none => [33, 45, 49, 13, 10]
  | .VerbatimString (some s) => 61 :: (s ++ crlf)
  | .VerbatimString none => [61, 45, 49, 13, 10]
  | .Map (some m) =>
      37 :: (natDecimal m.length ++ crlf ++
        (m.attach.map (fun kv =>
          match kv with
          | ⟨(k1, v1), _⟩ => RespValue.as_bytes k1 ++ RespValue.as_bytes v1)).flatten)
  | .Map none => [37, 45, 49, 13, 10]
  | .Set (some s) =>
      126 :: (natDecimal s.length ++ crlf ++
        (s.attach.map (fun x => RespValue.as_bytes x.1)).flatten)
  | .Set none => [126, 45, 49, 13, 10]
  | .Push (some p) =>
      62 :: (natDecimal p.length ++ crlf ++
        (p.attach.map (fun x => RespValue.as_bytes x.1)).flatten)
  | .Push none => [62, 45, 49, 13, 10]
termination_by v => sizeOf v
decreasing_by
  all_goals simp_wf
  all_goals first
  | (have h1 := List.sizeOf_lt_of_mem x.2; omega)
  | (rename_i hkv'
     have h1 := List.sizeOf_lt_of_mem hkv'
     simp at h1
     omega)

/-- The `PartialEq` implementation for `RespValue` in src/resp.rs: structural,
variant by variant; `Double` compares with `f64` equality (IEEE `==`). -/
def respEq : RespValue → RespValue → Bool
  | .SimpleString a, .SimpleString b => a == b
  | .Error a, .Error b => a == b
  | .Integer a, .Integer b => a == b
  | .BulkString a, .BulkString b => a == b
  | .Array (some a), .Array (some b) =>
      a.length == b.length &&
        (a.zip b).attach.all (fun p =>
          match p with
          | ⟨(x1, x2), _⟩ => respEq x1 x2)
  | .Array none, .Array none => true
  | .Null, .Null => true
  | .Boolean a, .Boolean b => a == b
  | .Double a, .Double b => a == b
  | .BigNumber a, .BigNumber b => a == b
  | .BulkError a, .BulkError b => a == b
  | .VerbatimString a, .VerbatimString b => a == b
  | .Map (some a), .Map (some b) =>
      a.length == b.length &&
        (a.zip b).attach.all (fun p =>
          match p with
          | ⟨((k1, v1), (k2, v2)), _⟩ => respEq k1 k2 && respEq v1 v2)
  | .Map none, .Map none => true
  | .Set (some a), .Set (some b) =>
      a.length == b.length &&
        (a.zip b).attach.all (fun p =>
          match p with
          | ⟨(x1, x2), _⟩ => respEq x1 x2)
  | .Set none, .Set none => true
  | .Push (some a), .Push (some b) =>
      a.length == b.length &&
        (a.zip b).attach.all (fun p =>
          match p with
          | ⟨(x1, x2), _⟩ => respEq x1 x2)
  | .Push none, .Push none => true
  | _, _ => false
termination_by a b => sizeOf a
decreasing_by
  all_goals simp_wf
  all_goals rename_i hmem'
  all_goals have hm := List.of_mem_zip hmem'
  all_goals have h1 := List.sizeOf_lt_of_mem hm.1
  all_goals first
  | omega
  | (simp at h1; omega)

/-- `RespValue::is_none` of src/resp.rs (exposed by the spec as
`is_empty_or_null`). -/
def RespValue.is_none : RespValue → Bool
  | .SimpleString _ => false
  | .Error _ => false
  | .Integer _ => false
  | .BulkString v => v.isNone || v.elim false (fun s => s.isEmpty)
  | .Array v => v.isNone || v.elim false (fun arr => arr.isEmpty)
  | .Null => true
  | .Boolean _ => false
  | .Double _ => false
  | .BigNumber _ => false
  | .VerbatimString t => t.isNone || t.elim false (fun s => s.isEmpty)
  | .Map v => v.isNone || v.elim false (fun m => m.isEmpty)
  | .Set v => v.isNone || v.elim false (fun s => s.isEmpty)
  | .Push d => d.isNone || d.elim false (fun s => s.isEmpty)
  | .BulkError _ => false

/-- The `ParseError` enum of src/parser.rs.  `InvalidFormat` carries the
static message of the source. -/
inductive ParseError where
  | InvalidFormat (msg : String)
  | InvalidLength
  | UnexpectedEof
  | Overflow
  | NotEnoughData
  | InvalidDepth
  | InvalidUtf8
deriving DecidableEq

/-- The `ParseState` enum of src/parser.rs.  Type markers (`type_char`) are
byte values; positions are buffer indexes. -/
inductive ParseState where
  | Index (pos : Nat)
  | ReadingLength (pos : Nat) (value : Int) (negative : Bool) (type_char : Nat)
  | ReadingBulkString (start_pos : Nat) (remaining : Nat)
  | ReadingSimpleString (pos : Nat)
  | ReadingError (pos : Nat)
  | ReadingInteger (pos : Nat)
  | ReadingArray (pos : Nat) (total : Nat) (current : Nat)
      (elements : List RespValue) (original_type_char : Nat)
  | Error (e : ParseError)
  | Complete (v : Option (RespValue × Nat))

/-- The `Parser` struct of src/parser.rs.  `cap` is the capacity of the
`BytesMut` buffer (observable through `read_buf`'s compaction logic).
The nested stack is kept top-first: the head of `nested_stack` is the top of
the Rust `Vec` (its last element). -/
structure Parser where
  buffer : List Nat
  cap : Nat
  state : ParseState
  max_length : Nat
  max_depth : Nat
  nested_stack : List ParseState

def MAX_ITERATIONS : Nat := 1024

def CRLF_LEN : Nat := 2

def DEFAULT_BUFFER_INIT_SIZE : Nat := 4096

/-- `Parser::new`: empty buffer with the default 4 KiB capacity, `Index` state
at position 0, empty nested stack. -/
def Parser.new (max_depth max_length : Nat) : Parser :=
  { buffer := [], cap := DEFAULT_BUFFER_INIT_SIZE, state := .Index 0,
    max_length := max_length, max_depth := max_depth, nested_stack := [] }

/-- Scanner behind `Parser::find_crlf`: index of the first `\r` immediately
followed by `\n`, at or after the window start.  The source computes the same
position with a recursive `memchr` loop over lone `\r` bytes. -/
def find_crlf_aux : List Nat → Nat → Option Nat
  | b :: c :: rest, i =>
    if b == 13 && c == 10 then some i else find_crlf_aux (c :: rest) (i + 1)
  | _, _ => none

/-- `Parser::find_crlf(start)`. -/
def find_crlf (buffer : List Nat) (start : Nat) : Option Nat :=
  find_crlf_aux (buffer.drop start) start

/-- The slice `&buffer[a..b]` of the source, as a byte list. -/
def bslice (buffer : List Nat) (a b : Nat) : List Nat :=
  (buffer.drop a).take (b - a)

/-- The validity scan for big numbers in `handle_index` (`(` branch): every
byte a digit, except that position 0 may be `-`. -/
def big_number_valid (bytes : List Nat) : Bool :=
  bytes.enum.all (fun p => (48 ≤ p.2 && p.2 ≤ 57) || (p.1 == 0 && p.2 == 45))

/-- Value of a digit-byte string, most significant first (helper for the atoi
model). -/
def natVal (ds : List Nat) : Nat := ds.foldl (fun a d => a * 10 + (d - 48)) 0

/-- Signed accumulation of digit bytes, the value computed by the integer
and length digit loops of the parser. -/
def intValFrom (acc : Int) (ds : List Nat) : Int :=
  ds.foldl (fun x d => x * 10 + ((d : Int) - 48)) acc

/-- Model of the `atoi` crate's `atoi::<i64>`: the whole slice must be an
optionally `+`/`-` signed nonempty digit string; the checked accumulation
returns `none` on anything else or on 64-bit overflow. -/
def atoi_i64 (bytes : List Nat) : Option Int :=
  match bytes with
  | [] => none
  | b :: rest =>
    let neg : Bool := b == 45
    let ds := if b == 45 || b == 43 then rest else bytes
    if ds.isEmpty then none
    else if !ds.all (fun d => 48 ≤ d && d ≤ 57) then none
    else if neg then
      if (natVal ds : Int) ≤ 9223372036854775808 then some (-(natVal ds : Int)) else none
    else
      if (natVal ds : Int) ≤ i64Max then some (natVal ds : Int) else none

/-- Model of Rust `str::parse::<f64>` far enough for the decoder's `,` branch:
special forms and decimal/scientific notation.  `Float` operations do not
reduce in the kernel and no claim exercises a `Double`, so only the accepted
shape matters here. -/
def parse_f64 (bytes : List Nat) : Option Float :=
  let isDigit : Nat → Bool := fun d => 48 ≤ d && d ≤ 57
  let core : List Nat → Option Float := fun ds =>
    if ds == [105, 110, 102] || ds == [105, 110, 102, 105, 110, 105, 116, 121] then
      some (1.0 / 0.0)
    else if ds == [110, 97, 110] then some (0.0 / 0.0)
    else
      let intPart := ds.takeWhile isDigit
      let rest1 := ds.dropWhile isDigit
      let fracPart := if rest1.head? == some 46 then (rest1.drop 1).takeWhile isDigit else []
      let rest2 := if rest1.head? == some 46 then (rest1.drop 1).dropWhile isDigit else rest1
      let hasExp := rest2.head? == some 101 || rest2.head? == some 69
      let expNeg := hasExp && (rest2.drop 1).head? == some 45
      let expDigits :=
        if hasExp then
          (if (rest2.drop 1).head? == some 45 || (rest2.drop 1).head? == some 43
            then (rest2.drop 2) else (rest2.drop 1))
        else []
      let rest3 := if hasExp then expDigits.dropWhile isDigit else rest2
      if intPart.isEmpty && fracPart.isEmpty then none
      else if hasExp && expDigits.isEmpty then none
      else if hasExp && !(expDigits.all isDigit) then none
      else if !rest3.isEmpty then none
      else
        let mantissa := natVal (intPart ++ fracPart)
        let e10 : Int := (if expNeg then -(natVal expDigits : Int) else (natVal expDigits : Int))
          - fracPart.length
        if 0 ≤ e10 then
          some (Float.ofScientific (mantissa * 10 ^ e10.toNat) false 0)
        else some (Float.ofScientific mantissa true e10.natAbs)
  match bytes with
  | 45 :: rest => (core rest).map (fun f => 0.0 - f)
  | 43 :: rest => core rest
  | _ => core bytes

/-- Byte lookup `buffer[i]` (0 outside bounds; the handlers only read inside
bounds they have checked). -/
def bget (l : List Nat) (i : Nat) : Nat := l.getD i 0

/-- `Parser::handle_index`: dispatch on the type marker at `index`. -/
def handle_index (buffer : List Nat) (index : Nat) : ParseState :=
  if index ≥ buffer.length then .Error .UnexpectedEof
  else
    match bget buffer index with
    | 43 => .ReadingSimpleString (index + 1)
    | 45 => .ReadingError (index + 1)
    | 58 => .ReadingInteger (index + 1)
    | 36 => .ReadingLength (index + 1) 0 false 36
    | 42 => .ReadingLength (index + 1) 0 false 42
    | 37 => .ReadingLength (index + 1) 0 false 37
    | 126 => .ReadingLength (index + 1) 0 false 126
    | 62 => .ReadingLength (index + 1) 0 false 62
    | 95 =>
      if index + 2 < buffer.length && bget buffer (index + 1) == 13
          && bget buffer (index + 2) == 10 then
        .Complete (some (.Null, index + 3))
      else .Error .UnexpectedEof
    | 35 =>
      if index + 2 < buffer.length && bget buffer (index + 2) == 13
          && index + 3 < buffer.length && bget buffer (index + 3) == 10 then
        match bget buffer (index + 1) with
        | 116 => .Complete (some (.Boolean true, index + 4))
        | 102 => .Complete (some (.Boolean false, index + 4))
        | _ => .Error (.InvalidFormat "Invalid boolean value")
      else .Error .UnexpectedEof
    | 44 =>
      match find_crlf buffer (index + 1) with
      | some end_pos =>
        let bytes := bslice buffer (index + 1) end_pos
        if utf8Valid bytes then
          match parse_f64 bytes with
          | some value => .Complete (some (.Double value, end_pos + CRLF_LEN))
          | none => .Error (.InvalidFormat "Invalid double value")
        else .Error .InvalidUtf8
      | none => .Error .UnexpectedEof
    | 40 =>
      match find_crlf buffer (index + 1) with
      | some end_pos =>
        let bytes := bslice buffer (index + 1) end_pos
        if !big_number_valid bytes then
          .Error (.InvalidFormat "Invalid big number format")
        else if utf8Valid bytes then .Complete (some (.BigNumber bytes, end_pos + CRLF_LEN))
        else .Error .InvalidUtf8
      | none => .Error .UnexpectedEof
    | 33 =>
      match find_crlf buffer (index + 1) with
      | some end_pos =>
        let bytes := bslice buffer (index + 1) end_pos
        if bytes == [45, 49] then .Complete (some (.BulkError none, end_pos + CRLF_LEN))
        else if utf8Valid bytes then
          .Complete (some (.BulkError (some bytes), end_pos + CRLF_LEN))
        else .Error .InvalidUtf8
      | none => .Error .UnexpectedEof
    | 61 =>
      match find_crlf buffer (index + 1) with
      | some end_pos =>
        let bytes := bslice buffer (index + 1) end_pos
        if bytes == [45, 49] then .Complete (some (.VerbatimString none, end_pos + CRLF_LEN))
        else if utf8Valid bytes then
          .Complete (some (.VerbatimString (some bytes), end_pos + CRLF_LEN))
        else .Error .InvalidUtf8
      | none => .Error .UnexpectedEof
    | 13 =>
      if index + 1 < buffer.length && bget buffer (index + 1) == 10 then
        .Index (index + 2)
      else .Error (.InvalidFormat "Expected \\n after \\r")
    | _ => .Error (.InvalidFormat "Invalid type marker")

/-- `Parser::handle_length`: one byte of a length/count prefix, or its CRLF
terminator.  The checked i64 arithmetic of the source is modelled with
explicit range tests; `value as usize` and `(value * 2) as usize` follow the
two's-complement cast (`% 2^64`). -/
def handle_length (buffer : List Nat) (pos : Nat) (value : Int) (negative : Bool)
    (type_char : Nat) : ParseState :=
  if pos < buffer.length then
    let b := bget buffer pos
    if 48 ≤ b && b ≤ 57 then
      let v1 := value * 10
      if v1 < i64Min || i64Max < v1 then .Error .Overflow
      else
        let v2 := if negative then v1 - ((b : Int) - 48) else v1 + ((b : Int) - 48)
        if v2 < i64Min || i64Max < v2 then .Error .Overflow
        else .ReadingLength (pos + 1) v2 negative type_char
    else if b == 45 then .ReadingLength (pos + 1) value true type_char
    else if b == 13 then
      if pos + 1 < buffer.length && bget buffer (pos + 1) == 10 then
        let next_pos := pos + CRLF_LEN
        if type_char == 36 then
          if value < 0 then .Complete (some (.BulkString none, next_pos))
          else if value == 0 then
            if next_pos + CRLF_LEN ≤ buffer.length
                && bget buffer next_pos == 13 && bget buffer (next_pos + 1) == 10 then
              .Complete (some (.BulkString (some []), next_pos + CRLF_LEN))
            else .Error .UnexpectedEof
          else .ReadingBulkString next_pos value.toNat
        else if type_char == 42 || type_char == 37 || type_char == 126 || type_char == 62 then
          if value < 0 then
            let null_value : RespValue :=
              if type_char == 42 then .Array none
              else if type_char == 37 then .Map none
              else if type_char == 126 then .Set none
              else .Push none
            .Complete (some (null_value, next_pos))
          else if value == 0 then
            let empty_value : RespValue :=
              if type_char == 42 then .Array (some [])
              else if type_char == 37 then .Map (some [])
              else if type_char == 126 then .Set (some [])
              else .Push (some [])
            .Complete (some (empty_value, next_pos))
          else
            let total_elements : Nat :=
              if type_char == 37 then ((value * 2).emod 18446744073709551616).toNat
              else value.toNat
            .ReadingArray next_pos total_elements 0 [] type_char
        else if type_char == 58 then .Complete (some (.Integer value, next_pos))
        else .Error (.InvalidFormat "Invalid length type")
      else .Error (.InvalidFormat "Expected \\n after \\r")
    else .Error (.InvalidFormat "Invalid character in length")
  else .Error .UnexpectedEof

/-- `Parser::handle_bulk_string`. -/
def handle_bulk_string (buffer : List Nat) (max_length : Nat) (start_pos remaining : Nat) :
    ParseState :=
  if remaining == 0 then
    .Error (.InvalidFormat "Unexpected zero remaining in handle_bulk_string")
  else if remaining ≥ max_length then .Error .InvalidLength
  else if buffer.length < start_pos + remaining + CRLF_LEN then .Error .NotEnoughData
  else if !(bget buffer (start_pos + remaining) == 13)
      || !(bget buffer (start_pos + remaining + 1) == 10) then
    .Error (.InvalidFormat "Missing CRLF terminator")
  else
    let string_slice := bslice buffer start_pos (start_pos + remaining)
    if string_slice.all (fun b => b < 128) then
      .Complete (some (.BulkString (some string_slice), start_pos + remaining + CRLF_LEN))
    else if utf8Valid string_slice then
      .Complete (some (.BulkString (some string_slice), start_pos + remaining + CRLF_LEN))
    else .Error .InvalidUtf8

/-- `Parser::handle_simple_string`: line to CRLF, reject embedded CR/LF,
lossy-decode. -/
def handle_simple_string (buffer : List Nat) (pos : Nat) : ParseState :=
  match find_crlf buffer pos with
  | some end_pos =>
    let bytes := bslice buffer pos end_pos
    if bytes.any (fun b => b == 13 || b == 10) then
      .Error (.InvalidFormat "Simple string cannot contain CR or LF")
    else .Complete (some (.SimpleString (utf8Lossy bytes), end_pos + CRLF_LEN))
  | none => .Error .UnexpectedEof

/-- `Parser::handle_error`: line to CRLF, lossy-decode, no CR/LF validation. -/
def handle_error (buffer : List Nat) (pos : Nat) : ParseState :=
  match find_crlf buffer pos with
  | some end_pos =>
    let bytes := bslice buffer pos end_pos
    .Complete (some (.Error (utf8Lossy bytes), end_pos + CRLF_LEN))
  | none => .Error .UnexpectedEof

/-- The digit loop of `Parser::handle_integer`'s small-integer fast path.
The overflow guard compares against `(i64::MAX - digit) / 10` with Rust's
truncating division. -/
def integer_fast_loop : Int → List Nat → Except ParseError Int
  | acc, [] => .ok acc
  | acc, b :: rest =>
    if !(48 ≤ b && b ≤ 57) then .error (.InvalidFormat "Invalid character in integer")
    else if acc > (i64Max - ((b : Int) - 48)).tdiv 10 then .error .Overflow
    else integer_fast_loop (acc * 10 + ((b : Int) - 48)) rest

/-- `Parser::handle_integer`, with the `explicit-positive-sign` cargo feature
disabled (the default build): a leading `+` is rejected outright.  Lines of at
most 19 bytes take the fast path; longer lines fall back to `atoi`.
`i64::MAX.wrapping_add(1)` in the negative fix-up is the literal `i64::MIN`. -/
def handle_integer (buffer : List Nat) (pos : Nat) : ParseState :=
  match find_crlf buffer pos with
  | some end_pos =>
    let bytes := bslice buffer pos end_pos
    let explicit_plus := bytes.head? == some 43
    if explicit_plus then
      .Error (.InvalidFormat
        "Explicit '+' sign in integer not supported (use 'explicit-positive-sign' feature)")
    else if bytes.length ≤ 19 then
      let negative := bytes.head? == some 45
      let start := if negative then 1 else 0
      if start ≥ bytes.length && (negative || explicit_plus) then
        .Error (.InvalidFormat "Invalid integer format after sign")
      else
        match integer_fast_loop 0 (bytes.drop start) with
        | .error e => .Error e
        | .ok value =>
          let value := if negative then (if value == i64Min then i64Min else -value) else value
          .Complete (some (.Integer value, end_pos + CRLF_LEN))
    else
      match atoi_i64 bytes with
      | some value =>
        if explicit_plus then
          .Error (.InvalidFormat "Internal error: explicit '+' parsed unexpectedly")
        else .Complete (some (.Integer value, end_pos + CRLF_LEN))
      | none => .Error (.InvalidFormat "Invalid integer format (atoi failed)")
  | none => .Error .UnexpectedEof

/-- `Parser::handle_array`: either ready for the next element, or push the
in-progress frame and parse the next element.  Returns the next state and the
updated nested stack (head = top). -/
def handle_array (nested_stack : List ParseState) (pos total current : Nat)
    (elements : List RespValue) (original_type_char : Nat) :
    ParseState × List ParseState :=
  if current ≥ total then (.Index pos, nested_stack)
  else (.Index pos,
    .ReadingArray pos total current elements original_type_char :: nested_stack)

/-- `Parser::clear_buffer(pos)`: reset state to `Index pos` and clear the
nested stack (the byte buffer itself is kept). -/
def clear_buffer (p : Parser) (pos : Nat) : Parser :=
  { p with state := .Index pos, nested_stack := [] }

/-- The key-value pairing of completed Map elements in `try_parse`
(`while let (Some(key), Some(val)) = (iter.next(), iter.next())`); an odd
leftover element is dropped. -/
def pair_up : List RespValue → List (RespValue × RespValue)
  | k :: v :: rest => (k, v) :: pair_up rest
  | _ => []

/-- Construction of the completed aggregate from a popped frame in
`try_parse`. -/
def build_completed (type_char : Nat) (elements : List RespValue) : RespValue :=
  if type_char == 37 then .Map (some (pair_up elements))
  else if type_char == 126 then .Set (some elements)
  else if type_char == 62 then .Push (some elements)
  else .Array (some elements)

/-- State dispatch of the `try_parse` loop body: the `match current_state`
block.  Only `ReadingArray` touches the nested stack. -/
def dispatch (p : Parser) : ParseState × List ParseState :=
  match p.state with
  | .Index pos => (handle_index p.buffer pos, p.nested_stack)
  | .ReadingArray pos total current elements tc =>
      handle_array p.nested_stack pos total current elements tc
  | .ReadingLength pos value negative tc =>
      (handle_length p.buffer pos value negative tc, p.nested_stack)
  | .ReadingBulkString start_pos remaining =>
      (handle_bulk_string p.buffer p.max_length start_pos remaining, p.nested_stack)
  | .ReadingSimpleString pos => (handle_simple_string p.buffer pos, p.nested_stack)
  | .ReadingError pos => (handle_error p.buffer pos, p.nested_stack)
  | .ReadingInteger pos => (handle_integer p.buffer pos, p.nested_stack)
  | .Error e => (.Error e, p.nested_stack)
  | .Complete v => (.Complete v, p.nested_stack)

/-- Handling of `ParseState::Complete(Some((value, pos)))` in the `try_parse`
loop: fold the value into the top `ReadingArray` frame, or return it.
`Sum.inl` is a `return` from the loop, `Sum.inr` a `continue` with the updated
parser. -/
def complete_step (p : Parser) (v : RespValue) (pos : Nat) :
    (Except ParseError (Option RespValue) × Parser) ⊕ Parser :=
  match p.nested_stack with
  | .ReadingArray fpos total current elements tc :: rest =>
    let elements' := elements ++ [v]
    let current' := current + 1
    if current' < total then
      .inr { p with
        nested_stack := .ReadingArray fpos total current' elements' tc :: rest,
        state := .Index pos }
    else
      let completed := build_completed tc elements'
      if rest.isEmpty then
        .inl (.ok (some completed), clear_buffer { p with nested_stack := rest } pos)
      else
        .inr { p with nested_stack := rest, state := .Complete (some (completed, pos)) }
  | [] => .inl (.ok (some v), clear_buffer p pos)
  | _ :: _ => .inl (.error (.InvalidFormat "Unexpected completion state"), p)

/-- One iteration of the `try_parse` loop after the iteration-count check:
depth check, state dispatch, and the `match next_state` block.  `Sum.inl` is a
`return`, `Sum.inr` a `continue`. -/
def parse_step (p : Parser) : (Except ParseError (Option RespValue) × Parser) ⊕ Parser :=
  if p.nested_stack.length > p.max_depth then .inl (.error .InvalidDepth, p)
  else
    let d := dispatch p
    let p1 : Parser := { p with nested_stack := d.2 }
    match d.1 with
    | .Complete (some (v, pos)) => complete_step p1 v pos
    | .Complete none =>
      if p1.nested_stack.isEmpty then .inl (.ok none, { p1 with state := .Index 0 })
      else .inl (.error (.InvalidFormat "Unexpected None completion in nested structure"), p1)
    | .Error e => .inl (.error e, p1)
    | s => .inr { p1 with state := s }

/-- The bounded `try_parse` loop: `fuel` counts the remaining iterations; the
Rust loop increments `iterations` and fails once it exceeds `MAX_ITERATIONS`,
which is the `fuel = 0` case here. -/
def try_parse_aux : Nat → Parser → Except ParseError (Option RespValue) × Parser
  | 0, p => (.error (.InvalidFormat "Maximum parsing iterations exceeded"), p)
  | n + 1, p =>
    match parse_step p with
    | .inl r => r
    | .inr q => try_parse_aux n q

/-- `Parser::try_parse`, returning the result together with the parser as
mutated by the call. -/
def try_parse (p : Parser) : Except ParseError (Option RespValue) × Parser :=
  try_parse_aux MAX_ITERATIONS p

/-- `Parser::read_buf`: the sliding-window compaction, the clear-when-too-
small branch, and the final `extend_from_slice`, with the `BytesMut` capacity
tracked explicitly (`split_off(pos)` keeps `cap - pos`; `reserve` and
`extend_from_slice` grow to at least the required capacity). -/
def read_buf (p : Parser) (buf : List Nat) : Parser :=
  let p1 :=
    if p.buffer.length > 0 && p.cap < p.buffer.length + buf.length then
      match p.state with
      | .Index pos =>
        if pos > 0 then
          { p with buffer := p.buffer.drop pos, cap := p.cap - pos, state := .Index 0 }
        else p
      | _ => p
    else p
  let p2 :=
    if p1.cap < buf.length then
      { p1 with buffer := [], cap := max p1.cap (buf.length + DEFAULT_BUFFER_INIT_SIZE) }
    else p1
  { p2 with
    buffer := p2.buffer ++ buf,
    cap := if p2.buffer.length + buf.length ≤ p2.cap then p2.cap
           else p2.buffer.length + buf.length }

/-- Iterating `parse_step` at most `n` times, independently of
`try_parse_aux`: `Sum.inl` is the settled return value, `Sum.inr` the parser
still mid-parse after `n` transitions. -/
def run_steps : Nat → Parser → (Except ParseError (Option RespValue) × Parser) ⊕ Parser
  | 0, p => .inr p
  | n + 1, p =>
    match parse_step p with
    | .inl r => .inl r
    | .inr q => run_steps n q

/-- Bytes of an ASCII string literal, for readable concrete inputs. -/
def strBytes (s : String) : List Nat := s.data.map Char.toNat

/-- ASCII digit test. -/
def isDigitB (b : Nat) : Bool := 48 ≤ b && b ≤ 57

/-- No CR and no LF byte anywhere. -/
def noCRLF (s : List Nat) : Bool := s.all (fun b => !(b == 13) && !(b == 10))

/-- No adjacent `\r\n` pair inside the list (single CR or LF bytes allowed):
the condition under which a scan for CRLF runs past the whole list. -/
def no_crlf_pair : List Nat → Bool
  | b :: c :: rest => !(b == 13 && c == 10) && no_crlf_pair (c :: rest)
  | _ => true

/-- The predicate claim C8 ascribes to `is_empty_or_null`, written from the
claim's words: true exactly for Null, the null form of a nullable variant
(BulkString, Array, Map, Set, Push, BulkError, VerbatimString with payload
absent), and present-empty aggregates or strings. -/
def claimedEmptyOrNull : RespValue → Bool
  | .Null => true
  | .BulkString none => true
  | .BulkString (some s) => s.isEmpty
  | .Array none => true
  | .Array (some xs) => xs.isEmpty
  | .Map none => true
  | .Map (some m) => m.isEmpty
  | .Set none => true
  | .Set (some xs) => xs.isEmpty
  | .Push none => true
  | .Push (some xs) => xs.isEmpty
  | .BulkError none => true
  | .BulkError (some s) => s.isEmpty
  | .VerbatimString none => true
  | .VerbatimString (some s) => s.isEmpty
  | _ => false

/-- The amended C8 predicate: as claimed, except that `BulkError` always maps
to false (the source returns false for every `BulkError`, null or not). -/
def amendedEmptyOrNull : RespValue → Bool
  | .BulkError _ => false
  | .Null => true
  | .BulkString none => true
  | .BulkString (some s) => s.isEmpty
  | .Array none => true
  | .Array (some xs) => xs.isEmpty
  | .Map none => true
  | .Map (some m) => m.isEmpty
  | .Set none => true
  | .Set (some xs) => xs.isEmpty
  | .Push none => true
  | .Push (some xs) => xs.isEmpty
  | .VerbatimString none => true
  | .VerbatimString (some s) => s.isEmpty
  | _ => false

/-- Well-formedness domain of the (amended) round-trip claim C1, relative to
the decoder's `max_length` L: text payloads are valid UTF-8; SimpleString and
Error contain no CR/LF; Integer fits i64; bulk payloads are shorter than L;
BigNumber is an optional minus then digits; BulkError/VerbatimString text has
no CR/LF and is not the literal "-1" (which the decoder reads back as the
null form); aggregate counts are bounded so length arithmetic fits i64;
Double is excluded (float text formatting is outside this embedding). -/
def wfv (L : Nat) : RespValue → Bool
  | .SimpleString s => noCRLF s && utf8Valid s
  | .Error s => noCRLF s && utf8Valid s
  | .Integer i => decide (i64Min ≤ i) && decide (i ≤ i64Max)
  | .BulkString none => true
  | .BulkString (some s) =>
      utf8Valid s && decide (s.length < L) && decide (s.length ≤ 4611686018427387904)
  | .Array none => true
  | .Array (some xs) =>
      decide (xs.length ≤ 4611686018427387904) &&
        xs.attach.all (fun x =>
          match x with
          | ⟨e, _⟩ => wfv L e)
  | .Null => true
  | .Boolean _ => true
  | .Double _ => false
  | .BigNumber s => big_number_valid s
  | .BulkError none => true
  | .BulkError (some s) => utf8Valid s && noCRLF s && !(s == [45, 49])
  | .VerbatimString none => true
  | .VerbatimString (some s) => utf8Valid s && noCRLF s && !(s == [45, 49])
  | .Map none => true
  | .Map (some m) =>
      decide (m.length ≤ 2305843009213693952) &&
        m.attach.all (fun kv =>
          match kv with
          | ⟨(k, v), _⟩ => wfv L k && wfv L v)
  | .Set none => true
  | .Set (some xs) =>
      decide (xs.length ≤ 4611686018427387904) &&
        xs.attach.all (fun x =>
          match x with
          | ⟨e, _⟩ => wfv L e)
  | .Push none => true
  | .Push (some xs) =>
      decide (xs.length ≤ 4611686018427387904) &&
        xs.attach.all (fun x =>
          match x with
          | ⟨e, _⟩ => wfv L e)
termination_by v => sizeOf v
decreasing_by
  all_goals simp_wf
  all_goals rename_i hmem'
  all_goals have h1 := List.sizeOf_lt_of_mem hmem'
  all_goals first
  | omega
  | (simp at h1; omega)

/-- Number of `try_parse` loop iterations consumed from `Index` at the start
of a value's encoding until the iteration that folds its `Complete` state
(exclusive), for well-formed values.  Used for the exact fuel bookkeeping of
the round-trip proof. -/
def costv : RespValue → Nat
  | .SimpleString _ => 1
  | .Error _ => 1
  | .Integer _ => 1
  | .Null => 0
  | .Boolean _ => 0
  | .Double _ => 0
  | .BigNumber _ => 0
  | .BulkError _ => 0
  | .VerbatimString _ => 0
  | .BulkString none => 3
  | .BulkString (some s) => if s.isEmpty then 2 else (natDecimal s.length).length + 2
  | .Array none => 3
  | .Array (some xs) =>
      if xs.isEmpty then 2
      else (natDecimal xs.length).length + 3 +
        (xs.attach.map (fun x =>
          match x with
          | ⟨e, _⟩ => costv e + 1)).sum
  | .Map none => 3
  | .Map (some m) =>
      if m.isEmpty then 2
      else (natDecimal m.length).length + 3 +
        (m.attach.map (fun kv =>
          match kv with
          | ⟨(k, v), _⟩ => costv k + costv v + 2)).sum
  | .Set none => 3
  | .Set (some xs) =>
      if xs.isEmpty then 2
      else (natDecimal xs.length).length + 3 +
        (xs.attach.map (fun x =>
          match x with
          | ⟨e, _⟩ => costv e + 1)).sum
  | .Push none => 3
  | .Push (some xs) =>
      if xs.isEmpty then 2
      else (natDecimal xs.length).length + 3 +
        (xs.attach.map (fun x =>
          match x with
          | ⟨e, _⟩ => costv e + 1)).sum
termination_by v => sizeOf v
decreasing_by
  all_goals simp_wf
  all_goals rename_i hmem'
  all_goals have h1 := List.sizeOf_lt_of_mem hmem'
  all_goals first
  | omega
  | (simp at h1; omega)

/-- Nesting depth a value's parse adds to the frame stack: nonempty
aggregates push one frame around their elements. -/
def depthv : RespValue → Nat
  | .Array (some xs) =>
      if xs.isEmpty then 0
      else 1 + (xs.attach.map (fun x =>
        match x with
        | ⟨e, _⟩ => depthv e)).foldl max 0
  | .Map (some m) =>
      if m.isEmpty then 0
      else 1 + (m.attach.map (fun kv =>
        match kv with
        | ⟨(k, v), _⟩ => max (depthv k) (depthv v))).foldl max 0
  | .Set (some xs) =>
      if xs.isEmpty then 0
      else 1 + (xs.attach.map (fun x =>
        match x with
        | ⟨e, _⟩ => depthv e)).foldl max 0
  | .Push (some xs) =>
      if xs.isEmpty then 0
      else 1 + (xs.attach.map (fun x =>
        match x with
        | ⟨e, _⟩ => depthv e)).foldl max 0
  | _ => 0
termination_by v => sizeOf v
decreasing_by
  all_goals simp_wf
  all_goals rename_i hmem'
  all_goals have h1 := List.sizeOf_lt_of_mem hmem'
  all_goals first
  | omega
  | (simp at h1; omega)

/-- Every frame on the nested stack is a `ReadingArray` frame — the invariant
every run of the `try_parse` loop maintains (`nested_stack` only ever receives
frames pushed by `handle_array`). -/
def stackOK : List ParseState → Bool
  | [] => true
  | .ReadingArray _ _ _ _ _ :: rest => stackOK rest
  | _ => false

/-- Loop iterations consumed by a list of aggregate elements: each element
costs its own parse plus the iteration that folds it into the frame. -/
def costList (es : List RespValue) : Nat := (es.map (fun e => costv e + 1)).sum

/-- Concatenated encodings of a list of values (the body of an aggregate's
encoding). -/
def encList (es : List RespValue) : List Nat := (es.map RespValue.as_bytes).flatten

/-- A map's pairs flattened to the key/value element sequence the parser
actually reads. -/
def flatPairs : List (RespValue × RespValue) → List RespValue
  | [] => []
  | (k, v) :: rest => k :: v :: flatPairs rest

/-- The parse-correctness induction statement for a single value: starting at
`Index` on the first byte of `v`'s encoding (any prefix `A`, suffix `B`, any
well-formed `ReadingArray` stack within the depth budget), exactly `costv v`
iterations later the loop is in the position of a parser whose state is
`Complete (v, end-of-encoding)`. -/
def ValueRun (v : RespValue) : Prop :=
  ∀ (L : Nat) (A B : List Nat) (S : List ParseState) (c D n : Nat),
    wfv L v = true → stackOK S = true → S.length + depthv v ≤ D →
    try_parse_aux (n + 1 + costv v)
      (⟨A ++ (v.as_bytes ++ B), c, .Index A.length, L, D, S⟩ : Parser)
      = try_parse_aux (n + 1)
        (⟨A ++ (v.as_bytes ++ B), c,
          .Complete (some (v, A.length + v.as_bytes.length)), L, D, S⟩ : Parser)

/-- C10: feeding exactly `:\r\n` (integer marker, empty line, no sign, no
digits) and calling `try_parse` returns `Ok(Some(Integer(0)))` rather than an
error: the integer fast path accepts an empty digit string when no sign is
present. -/
theorem c10_empty_integer_parses_as_zero :
    (try_parse (read_buf (Parser.new 100 1000) (strBytes ":\r\n"))).1
      = .ok (some (.Integer 0)) := rfl

/-- C7: feeding `*-1\r\n` then `$-1\r\n` then `_\r\n` and calling `try_parse`
three times yields `Ok(Some(Array(null)))`, `Ok(Some(BulkString(null)))`,
`Ok(Some(Null))` in order; the three values are pairwise structurally unequal
under the source's `PartialEq`, and each null aggregate is returned as a
value, not as the `Ok(None)` outcome. -/
theorem c7_null_forms_distinct :
    (try_parse (read_buf (read_buf (read_buf (Parser.new 100 1000)
      (strBytes "*-1\r\n")) (strBytes "$-1\r\n")) (strBytes "_\r\n"))).1
      = .ok (some (.Array none)) ∧
    (try_parse (try_parse (read_buf (read_buf (read_buf (Parser.new 100 1000)
      (strBytes "*-1\r\n")) (strBytes "$-1\r\n")) (strBytes "_\r\n"))).2).1
      = .ok (some (.BulkString none)) ∧
    (try_parse (try_parse (try_parse (read_buf (read_buf (read_buf (Parser.new 100 1000)
      (strBytes "*-1\r\n")) (strBytes "$-1\r\n")) (strBytes "_\r\n"))).2).2).1
      = .ok (some .Null) ∧
    respEq (.Array none) (.BulkString none) = false ∧
    respEq (.Array none) .Null = false ∧
    respEq (.BulkString none) .Null = false :=
  ⟨rfl, rfl, rfl, by simp [respEq], by simp [respEq], by simp [respEq]⟩

/-- C8 counterexample: `is_none` returns false for `BulkError(None)`, but the
claim's predicate (true for the null form of every nullable variant,
BulkError included) demands true there, so the claimed equivalence fails at
`BulkError(None)`. -/
theorem c8_counterexample :
    RespValue.is_none (.BulkError none) = false ∧
    claimedEmptyOrNull (.BulkError none) = true :=
  ⟨rfl, rfl⟩

/-- C8 amended: `is_none` returns true exactly for Null, the null or
present-empty forms of BulkString, Array, Map, Set, Push and VerbatimString —
with `BulkError` always mapped to false — and false for everything else. -/
theorem c8_is_none_amended_characterization :
    ∀ v, RespValue.is_none v = amendedEmptyOrNull v := by
  intro v
  cases v <;>
    first
    | rfl
    | (rename_i o
       cases o <;> rfl)

/-- C2 (code bug in `read_buf`): a fresh parser holds 4096 bytes of capacity;
after feeding the three unconsumed bytes `+OK`, feeding a 4097-byte chunk
makes `read_buf` clear the buffer (`self.buffer.clear()` in the
capacity-too-small branch), so the resulting buffer is exactly the new chunk
and the three unconsumed bytes have been dropped — the spec requires that
`feed` never drops unconsumed bytes. -/
theorem c2_read_buf_drops_unconsumed_bytes :
    (read_buf (Parser.new 10 1024) (strBytes "+OK")).buffer = [43, 79, 75] ∧
    (read_buf (read_buf (Parser.new 10 1024) (strBytes "+OK"))
        (List.replicate 4097 32)).buffer = List.replicate 4097 32 := by
  constructor
  · rfl
  · have h1 : read_buf (Parser.new 10 1024) (strBytes "+OK") =
        (⟨[43, 79, 75], 4096, .Index 0, 1024, 10, []⟩ : Parser) := by rfl
    have key : ∀ big : List Nat, big.length = 4097 →
        (read_buf (⟨[43, 79, 75], 4096, .Index 0, 1024, 10, []⟩ : Parser) big).buffer
          = big := by
      intro big hlen
      rw [read_buf]
      simp [hlen]
    rw [h1]
    exact key _ (List.length_replicate 4097 32)

/-- C1 counterexample: the well-formed value `VerbatimString(Some("-1"))`
(whose text has no CR or LF) encodes to `=-1\r\n`, which a fresh decoder
reads back as `VerbatimString(None)` — not structurally equal to the
original, so the unrestricted round-trip claim fails. -/
theorem c1_counterexample :
    (try_parse (read_buf (Parser.new 100 1000)
        (RespValue.as_bytes (.VerbatimString (some [45, 49]))))).1
      = .ok (some (.VerbatimString none)) ∧
    respEq (.VerbatimString none) (.VerbatimString (some [45, 49])) = false ∧
    RespValue.VerbatimString none ≠ .VerbatimString (some [45, 49]) := by
  have henc : RespValue.as_bytes (.VerbatimString (some [45, 49])) = [61, 45, 49, 13, 10] := by
    simp [RespValue.as_bytes, crlf]
  refine ⟨?_, by simp [respEq], by simp⟩
  rw [henc]
  rfl

/-- C4 counterexample: with `max_length = 5`, the header `$5` — where 5 is
not strictly greater than `max_length` — still raises `InvalidLength`
(`LengthExceeded`), because `handle_bulk_string` rejects
`remaining >= max_length`; so "N strictly greater than max_length (and only
then)" fails at N = max_length. -/
theorem c4_counterexample :
    (try_parse (read_buf (Parser.new 100 5) (strBytes "$5\r\nhello\r\n"))).1
      = .error .InvalidLength ∧ ¬ (5 > 5) :=
  ⟨rfl, by decide⟩

/-- C5 counterexample: the input `-Invalid\rData\r\n` has marker `-` and an
embedded CR before the terminator, yet the decoder accepts it and returns an
`Error` value whose text contains the CR byte — it is not rejected with
`InvalidFormat`. -/
theorem c5_counterexample :
    (try_parse (read_buf (Parser.new 100 1000) (strBytes "-Invalid\rData\r\n"))).1
      = .ok (some (.Error (strBytes "Invalid\rData"))) ∧
    (strBytes "Invalid\rData").any (fun b => b == 13 || b == 10) = true :=
  ⟨rfl, by decide⟩

/-- C6 counterexample: `:` followed by 40 digits and CRLF overflows 64 bits,
but the line is longer than the 19-byte fast path, so `handle_integer` falls
back to `atoi`, which fails, and `try_parse` returns
`InvalidFormat("Invalid integer format (atoi failed)")` — not `Overflow`. -/
theorem c6_counterexample :
    (try_parse (read_buf (Parser.new 100 1000)
        (58 :: (List.replicate 40 57 ++ crlf)))).1
      = .error (.InvalidFormat "Invalid integer format (atoi failed)") ∧
    (Except.error (ParseError.InvalidFormat "Invalid integer format (atoi failed)")
        : Except ParseError (Option RespValue)) ≠ .error .Overflow :=
  ⟨rfl, by simp⟩

/-- The bounded loop equals iterating `parse_step` with the same fuel,
returning the protocol-limit error when no return happens within the fuel. -/
theorem try_parse_aux_eq_run_steps : ∀ (n : Nat) (p : Parser),
    try_parse_aux n p =
      match run_steps n p with
      | .inl r => r
      | .inr q => (.error (.InvalidFormat "Maximum parsing iterations exceeded"), q) := by
  intro n
  induction n with
  | zero => intro p; rfl
  | succ m ih =>
    intro p
    simp only [try_parse_aux, run_steps]
    cases parse_step p with
    | inl r => rfl
    | inr q => exact ih q

/-- C9: a single `try_parse` call performs at most `MAX_ITERATIONS` (1024)
state transitions of `parse_step`: either the loop settles within the ceiling
and `try_parse` returns exactly that result, or after `MAX_ITERATIONS`
transitions it is still mid-parse and `try_parse` returns the
iterations-exceeded `InvalidFormat` error instead of looping further — so
`try_parse` always terminates with bounded work. -/
theorem c9_bounded_work (p : Parser) :
    (∃ n, n ≤ MAX_ITERATIONS ∧ ∃ r, run_steps n p = .inl r ∧ try_parse p = r) ∨
    (∃ q, run_steps MAX_ITERATIONS p = .inr q ∧
      try_parse p = (.error (.InvalidFormat "Maximum parsing iterations exceeded"), q)) := by
  have h := try_parse_aux_eq_run_steps MAX_ITERATIONS p
  cases hr : run_steps MAX_ITERATIONS p with
  | inl r =>
    left
    refine ⟨MAX_ITERATIONS, le_refl _, r, hr, ?_⟩
    rw [try_parse, h, hr]
  | inr q =>
    right
    refine ⟨q, rfl, ?_⟩
    rw [try_parse, h, hr]

/-- `handle_array` always continues with `Index`; in particular the dispatch
of any state never produces an `Error` while also changing the stack. -/
theorem dispatch_error_stack (p : Parser) (e : ParseError)
    (h : (dispatch p).1 = .Error e) : (dispatch p).2 = p.nested_stack := by
  unfold dispatch at *
  cases hs : p.state <;> simp [hs] at h ⊢
  rename_i pos total current elements tc
  unfold handle_array at h
  split at h <;> simp_all

/-- If one `parse_step` returns an incomplete-input error, the returned
parser is unchanged and stepping it again returns the same error: the
erroring dispatch is a pure function of the unchanged state and buffer. -/
theorem parse_step_error_incomplete (p q : Parser) (e : ParseError)
    (h : parse_step p = .inl (.error e, q))
    (he : e = .UnexpectedEof ∨ e = .NotEnoughData) :
    q = p ∧ parse_step q = .inl (.error e, q) := by
  have hnd : e ≠ .InvalidDepth := by rcases he with h' | h' <;> simp [h']
  have hnf : ∀ msg, e ≠ .InvalidFormat msg := by
    intro msg
    rcases he with h' | h' <;> simp [h']
  unfold parse_step at h
  split at h
  · simp only [Sum.inl.injEq, Prod.mk.injEq, Except.error.injEq] at h
    exact absurd h.1.symm hnd
  · rename_i hdepth
    rcases hdp : dispatch p with ⟨ds, stk⟩
    rw [hdp] at h
    simp only at h
    cases ds with
    | Error e' =>
      simp only [Sum.inl.injEq, Prod.mk.injEq, Except.error.injEq] at h
      obtain ⟨heq, hq⟩ := h
      subst e
      have hds : (dispatch p).1 = ParseState.Error e' := by rw [hdp]
      have hstk := dispatch_error_stack p e' hds
      rw [hdp] at hstk
      simp only at hstk
      subst hstk
      have hqp : q = p := by rw [← hq]
      refine ⟨hqp, ?_⟩
      subst hqp
      unfold parse_step
      split
      · rename_i hcon
        exact absurd hcon hdepth
      · rw [hdp]
    | Complete v =>
      cases v with
      | some vp =>
        obtain ⟨v, pos⟩ := vp
        unfold complete_step at h
        rcases stk with _ | ⟨top, rest⟩
        · simp only [Sum.inl.injEq, Prod.mk.injEq] at h
          exact Except.noConfusion h.1
        · cases top
          case ReadingArray fpos total current elements tc =>
            simp only at h
            split at h
            · exact Sum.noConfusion h
            · split at h
              · simp only [Sum.inl.injEq, Prod.mk.injEq] at h
                exact Except.noConfusion h.1
              · exact Sum.noConfusion h
          all_goals simp only [Sum.inl.injEq, Prod.mk.injEq, Except.error.injEq] at h
          all_goals exact absurd h.1.symm (hnf _)
      | none =>
        split at h
        all_goals try (rename_i hx; simp at hx; done)
        all_goals try (rename_i hx1 hx2; exact absurd rfl hx1)
        split at h
        · simp only [Sum.inl.injEq, Prod.mk.injEq] at h
          exact Except.noConfusion h.1
        · simp only [Sum.inl.injEq, Prod.mk.injEq, Except.error.injEq] at h
          exact absurd h.1.symm (hnf _)
    | Index pos => exact Sum.noConfusion h
    | ReadingLength a b c d => exact Sum.noConfusion h
    | ReadingBulkString a b => exact Sum.noConfusion h
    | ReadingSimpleString a => exact Sum.noConfusion h
    | ReadingError a => exact Sum.noConfusion h
    | ReadingInteger a => exact Sum.noConfusion h
    | ReadingArray a b c d f => exact Sum.noConfusion h

/-- Whenever the bounded loop returns an incomplete-input error, the returned
parser state immediately reproduces that error on the next step. -/
theorem suspend_invariant : ∀ (n : Nat) (p q : Parser) (e : ParseError),
    try_parse_aux n p = (.error e, q) →
    (e = .UnexpectedEof ∨ e = .NotEnoughData) →
    parse_step q = .inl (.error e, q) := by
  intro n
  induction n with
  | zero =>
    intro p q e h he
    simp only [try_parse_aux, Prod.mk.injEq, Except.error.injEq] at h
    rcases he with h' | h' <;> (subst h'; exact absurd h.1 (by simp))
  | succ m ih =>
    intro p q e h he
    rw [try_parse_aux] at h
    cases hps : parse_step p with
    | inl r =>
      rw [hps] at h
      simp only at h
      exact (parse_step_error_incomplete p q e (h ▸ hps) he).2
    | inr p' =>
      rw [hps] at h
      exact ih p' q e h he

/-- C3: if `try_parse` returns an incomplete-input outcome (`UnexpectedEof`
or `NotEnoughData`), then calling `try_parse` again with no intervening
`read_buf` returns the same outcome and leaves the whole decoder state
(buffer, parse state, nested stack) unchanged. -/
theorem c3_incomplete_idempotent (p q : Parser) (e : ParseError)
    (h : try_parse p = (.error e, q))
    (he : e = .UnexpectedEof ∨ e = .NotEnoughData) :
    try_parse q = (.error e, q) := by
  have hs := suspend_invariant MAX_ITERATIONS p q e h he
  show try_parse_aux MAX_ITERATIONS q = _
  rw [show MAX_ITERATIONS = 1023 + 1 from rfl]
  rw [try_parse_aux]
  rw [hs]

/-- C3 witness: the parser suspended after feeding `+OK` (no CRLF yet)
reproduces `UnexpectedEof` and stays unchanged on the next call. -/
theorem c3_witness :
    try_parse (⟨[43, 79, 75], 4096, .ReadingSimpleString 1, 1000, 100, []⟩ : Parser)
      = (.error .UnexpectedEof,
         ⟨[43, 79, 75], 4096, .ReadingSimpleString 1, 1000, 100, []⟩) :=
  c3_incomplete_idempotent (read_buf (Parser.new 100 1000) (strBytes "+OK")) _ _
    rfl (Or.inl rfl)

/-- A scan for CRLF over `s ++ \r\n ++ rest` stops exactly at the terminator
when `s` contains no CRLF pair. -/
theorem find_crlf_aux_append (s : List Nat) (rest : List Nat) :
    ∀ i, no_crlf_pair s = true →
      find_crlf_aux (s ++ 13 :: 10 :: rest) i = some (i + s.length) := by
  induction s with
  | nil => intro i _; simp [find_crlf_aux]
  | cons a s' ih =>
    intro i hs
    cases s' with
    | nil =>
      by_cases ha : a = 13
      · subst ha
        simp [find_crlf_aux]
      · simp [find_crlf_aux, ha]
    | cons a2 s'' =>
      rw [no_crlf_pair] at hs
      simp only [Bool.and_eq_true, Bool.not_eq_true'] at hs
      have hthis := ih (i + 1) hs.2
      simp only [List.cons_append] at hthis ⊢
      rw [find_crlf_aux, hs.1]
      simp only [Bool.false_eq_true, if_false]
      rw [hthis]
      congr 1
      simp only [List.length_cons]
      omega

/-- `find_crlf` on a buffer laid out as prefix ++ line ++ CRLF ++ rest finds
the terminator when the line has no CRLF pair. -/
theorem find_crlf_at (A s rest : List Nat) (hs : no_crlf_pair s = true) :
    find_crlf (A ++ (s ++ 13 :: 10 :: rest)) A.length = some (A.length + s.length) := by
  unfold find_crlf
  rw [List.drop_left]
  exact find_crlf_aux_append s rest A.length hs

/-- Slicing the line out of a prefix ++ line ++ rest layout. -/
theorem bslice_at (A s rest : List Nat) :
    bslice (A ++ (s ++ rest)) A.length (A.length + s.length) = s := by
  unfold bslice
  rw [List.drop_left]
  have : A.length + s.length - A.length = s.length := by omega
  rw [this]
  exact List.take_left s rest

/-- Reading one byte of a prefix ++ tail layout. -/
theorem getD_at (A l : List Nat) (i d : Nat) :
    (A ++ l).getD (A.length + i) d = l.getD i d := by
  rw [List.getD_append_right]
  · congr 1
    omega
  · omega

/-- Reading a byte inside the prefix. -/
theorem getD_left (A l : List Nat) (i d : Nat) (h : i < A.length) :
    (A ++ l).getD i d = A.getD i d :=
  List.getD_append A l d i h

theorem bget_at (A l : List Nat) (i : Nat) : bget (A ++ l) (A.length + i) = bget l i :=
  getD_at A l i 0

theorem bget_cons_zero (a : Nat) (l : List Nat) : bget (a :: l) 0 = a := rfl

theorem bget_cons_succ (a : Nat) (l : List Nat) (i : Nat) :
    bget (a :: l) (i + 1) = bget l i := rfl

/-- A list without CR or LF bytes has no CRLF pair. -/
theorem noCRLF_no_pair : ∀ s : List Nat, noCRLF s = true → no_crlf_pair s = true := by
  intro s
  induction s with
  | nil => intro _; rfl
  | cons a s' ih =>
    intro h
    cases s' with
    | nil => rfl
    | cons a2 s'' =>
      rw [noCRLF, List.all_cons] at h
      simp only [Bool.and_eq_true, Bool.not_eq_true'] at h
      rw [no_crlf_pair]
      simp only [Bool.and_eq_true, Bool.not_eq_true']
      constructor
      · simp only [Bool.and_eq_false_iff]
        left
        exact h.1.1
      · exact ih (by rw [noCRLF]; exact h.2)

set_option maxHeartbeats 2000000 in
/-- All-ASCII byte lists are valid UTF-8. -/
theorem utf8Valid_of_ascii : ∀ s : List Nat, s.all (fun b => b < 128) = true →
    utf8Valid s = true := by
  intro s
  induction s with
  | nil => intro _; rfl
  | cons a s' ih =>
    intro h
    rw [List.all_cons] at h
    simp only [Bool.and_eq_true, decide_eq_true_eq] at h
    rw [utf8Valid, utf8ValidSt]
    rw [if_pos h.1]
    exact ih h.2

/-- A non-ASCII byte never classifies as the resting state. -/
theorem utf8LeadClass_ne_zero (b : Nat) (hb : ¬ b < 128) : utf8LeadClass b ≠ 0 := by
  unfold utf8LeadClass
  rw [if_neg hb]
  repeat' split
  all_goals simp

/-- Lossy decoding is the identity on input that is valid from the current
state (with the pending prefix re-emitted when mid-sequence). -/
theorem utf8LossySt_of_valid : ∀ (l : List Nat) (s : Nat) (pending : List Nat),
    utf8ValidSt s l = true →
    utf8LossySt s pending l = (if s == 0 then [] else pending) ++ l := by
  intro l
  induction l with
  | nil =>
    intro s pending h
    cases s with
    | zero => simp [utf8LossySt]
    | succ s' => rw [utf8ValidSt] at h; exact absurd h (by simp)
  | cons b rest ih =>
    intro s pending h
    cases s with
    | zero =>
      rw [utf8ValidSt] at h
      rw [utf8LossySt]
      by_cases hb : b < 128
      · rw [if_pos hb] at h ⊢
        rw [ih 0 [] h]
        simp
      · rw [if_neg hb] at h ⊢
        split at h
        · exact absurd h (by simp)
        · rename_i hlc
          rw [if_neg hlc]
          rw [ih _ [b] h]
          have hne := utf8LeadClass_ne_zero b hb
          have : (utf8LeadClass b == 0) = false := by
            simp [hne]
          rw [this]
          simp
    | succ s' =>
      rw [utf8ValidSt] at h
      simp only [Bool.and_eq_true] at h
      rw [utf8LossySt]
      rw [if_pos h.1]
      by_cases hn : utf8Next (s' + 1) == 0
      · rw [if_pos hn]
        have hn' : utf8Next (s' + 1) = 0 := by simpa using hn
        rw [hn'] at h
        rw [ih 0 [] h.2]
        simp
      · rw [if_neg hn]
        rw [ih _ (pending ++ [b]) h.2]
        have : (utf8Next (s' + 1) == 0) = false := by
          simp only [beq_eq_false_iff_ne, ne_eq]
          intro hc
          exact hn (by simp [hc])
        rw [this]
        simp

/-- `from_utf8_lossy` is the identity on valid UTF-8. -/
theorem utf8Lossy_of_valid (l : List Nat) (h : utf8Valid l = true) :
    utf8Lossy l = l := by
  have := utf8LossySt_of_valid l 0 [] h
  simpa [utf8Lossy] using this

theorem intValFrom_nil (acc : Int) : intValFrom acc [] = acc := rfl

theorem intValFrom_cons (acc : Int) (d : Nat) (ds : List Nat) :
    intValFrom acc (d :: ds) = intValFrom (acc * 10 + ((d : Int) - 48)) ds := rfl

theorem intValFrom_append (acc : Int) (xs ys : List Nat) :
    intValFrom acc (xs ++ ys) = intValFrom (intValFrom acc xs) ys := by
  simp [intValFrom, List.foldl_append]

/-- Accumulated digit values only grow. -/
theorem intValFrom_ge : ∀ (ds : List Nat) (acc : Int),
    ds.all isDigitB = true → 0 ≤ acc → acc ≤ intValFrom acc ds := by
  intro ds
  induction ds with
  | nil => intro acc _ _; simp [intValFrom]
  | cons d ds' ih =>
    intro acc hall hacc
    rw [List.all_cons, Bool.and_eq_true] at hall
    have hd : 48 ≤ d ∧ d ≤ 57 := by
      have := hall.1
      simp [isDigitB] at this
      exact this
    rw [intValFrom_cons]
    have hstep : acc ≤ acc * 10 + ((d : Int) - 48) := by
      have h48 : (0 : Int) ≤ (d : Int) - 48 := by
        have := hd.1
        omega
      nlinarith
    have hacc' : (0 : Int) ≤ acc * 10 + ((d : Int) - 48) := by
      have := hd.1
      nlinarith
    exact le_trans hstep (ih _ hall.2 hacc')

/-- The fast-path overflow guard fires exactly when the next accumulated
value would exceed `i64::MAX`. -/
theorem fast_guard_iff (acc d' : Int) (hacc : 0 ≤ acc) (hd0 : 0 ≤ d') (hd9 : d' ≤ 9) :
    (acc > (i64Max - d').tdiv 10) ↔ acc * 10 + d' > i64Max := by
  have hnn : (0 : Int) ≤ i64Max - d' := by simp [i64Max]; omega
  rw [Int.tdiv_eq_ediv hnn (by omega)]
  rw [show i64Max = (9223372036854775807 : Int) from rfl]
  omega

/-- Full behaviour of the integer fast-path digit loop on digit input,
starting from any in-range accumulator. -/
theorem integer_fast_loop_eq : ∀ (ds : List Nat) (acc : Int),
    ds.all isDigitB = true → 0 ≤ acc → acc ≤ i64Max →
    integer_fast_loop acc ds =
      (if intValFrom acc ds ≤ i64Max then .ok (intValFrom acc ds)
       else .error .Overflow) := by
  intro ds
  induction ds with
  | nil =>
    intro acc _ _ hacc2
    rw [integer_fast_loop, intValFrom_nil, if_pos hacc2]
  | cons d ds' ih =>
    intro acc hall hacc hacc2
    rw [List.all_cons, Bool.and_eq_true] at hall
    have hd : 48 ≤ d ∧ d ≤ 57 := by
      have := hall.1
      simp [isDigitB] at this
      exact this
    rw [integer_fast_loop]
    have hdig : (48 ≤ d && d ≤ 57) = true := by simp [hd.1, hd.2]
    rw [hdig]
    simp only [Bool.not_true, Bool.false_eq_true, if_false]
    have hd0 : (0 : Int) ≤ (d : Int) - 48 := by have := hd.1; omega
    have hd9 : ((d : Int) - 48) ≤ 9 := by have := hd.2; omega
    by_cases hover : acc > (i64Max - ((d : Int) - 48)).tdiv 10
    · rw [if_pos hover]
      have hgt : acc * 10 + ((d : Int) - 48) > i64Max :=
        (fast_guard_iff acc _ hacc hd0 hd9).mp hover
      have hge := intValFrom_ge ds' (acc * 10 + ((d : Int) - 48)) hall.2 (by nlinarith)
      rw [intValFrom_cons]
      rw [if_neg (by omega)]
    · rw [if_neg hover]
      have hle : acc * 10 + ((d : Int) - 48) ≤ i64Max :=
        not_lt.mp (fun hc => hover ((fast_guard_iff acc _ hacc hd0 hd9).mpr hc))
      rw [ih _ hall.2 (by nlinarith) hle]
      rw [intValFrom_cons]

theorem natDigitsRev_digits : ∀ n : Nat, (natDigitsRev n).all isDigitB = true := by
  intro n
  induction n using Nat.strong_induction_on with
  | _ n ih =>
    rw [natDigitsRev]
    split
    · rfl
    · rename_i hn
      rw [List.all_cons, Bool.and_eq_true]
      refine ⟨?_, ih (n / 10) (Nat.div_lt_self (Nat.pos_of_ne_zero hn) (by omega))⟩
      simp [isDigitB]
      omega

theorem natDecimal_digits (n : Nat) : (natDecimal n).all isDigitB = true := by
  rw [natDecimal]
  split
  · rfl
  · rw [List.all_reverse]
    exact natDigitsRev_digits n

theorem natDecimal_ne_nil (n : Nat) : natDecimal n ≠ [] := by
  rw [natDecimal]
  split
  · simp
  · rename_i hn
    intro hc
    have : natDigitsRev n = [] := by
      have := congrArg List.reverse hc
      simpa using this
    rw [natDigitsRev] at this
    simp [hn] at this

theorem intValFrom_natDigitsRev_rev : ∀ n : Nat, ∀ a : Int,
    intValFrom a (natDigitsRev n).reverse = a * 10 ^ (natDigitsRev n).length + n := by
  intro n
  induction n using Nat.strong_induction_on with
  | _ n ih =>
    intro a
    rw [natDigitsRev]
    split
    · rename_i hn
      subst hn
      simp [intValFrom]
    · rename_i hn
      rw [List.reverse_cons]
      rw [intValFrom_append]
      rw [ih (n / 10) (Nat.div_lt_self (Nat.pos_of_ne_zero hn) (by omega)) a]
      rw [intValFrom_cons, intValFrom_nil]
      rw [List.length_cons]
      have hmod : ((n % 10 + 48 : Nat) : Int) - 48 = (n % 10 : Nat) := by
        push_cast
        omega
      rw [hmod]
      rw [pow_succ]
      have hdm : (n : Int) = ((n / 10 : Nat) : Int) * 10 + ((n % 10 : Nat) : Int) := by
        push_cast
        omega
      rw [hdm]
      ring

theorem intValFrom_natDecimal (n : Nat) : intValFrom 0 (natDecimal n) = n := by
  rw [natDecimal]
  split
  · rename_i hn
    subst hn
    simp [intValFrom]
  · rw [intValFrom_natDigitsRev_rev n 0]
    simp

theorem natDigitsRev_length_iff : ∀ (k n : Nat),
    (natDigitsRev n).length ≤ k ↔ n < 10 ^ k := by
  intro k
  induction k with
  | zero =>
    intro n
    rw [natDigitsRev]
    split
    · rename_i hn
      subst hn
      simp
    · rename_i hn
      simp
      omega
  | succ k' ih =>
    intro n
    rw [natDigitsRev]
    split
    · rename_i hn
      subst hn
      simp
    · rename_i hn
      rw [List.length_cons]
      have h1 : (natDigitsRev (n / 10)).length + 1 ≤ k' + 1 ↔
          (natDigitsRev (n / 10)).length ≤ k' := by omega
      rw [h1, ih (n / 10)]
      rw [pow_succ]
      omega

theorem intValFrom_nonneg (ds : List Nat) (acc : Int)
    (hall : ds.all isDigitB = true) (hacc : 0 ≤ acc) : 0 ≤ intValFrom acc ds :=
  le_trans hacc (intValFrom_ge ds acc hall hacc)

theorem natVal_cast : ∀ (ds : List Nat) (a : Nat), ds.all isDigitB = true →
    ((ds.foldl (fun x d => x * 10 + (d - 48)) a : Nat) : Int) = intValFrom (a : Int) ds := by
  intro ds
  induction ds with
  | nil => intro a _; simp [intValFrom]
  | cons d ds' ih =>
    intro a hall
    rw [List.all_cons, Bool.and_eq_true] at hall
    have hd : 48 ≤ d ∧ d ≤ 57 := by
      have := hall.1
      simp [isDigitB] at this
      exact this
    rw [List.foldl_cons, intValFrom_cons]
    rw [ih _ hall.2]
    congr 1
    push_cast [Nat.cast_sub hd.1]
    ring

theorem natVal_int (ds : List Nat) (h : ds.all isDigitB = true) :
    (natVal ds : Int) = intValFrom 0 ds := by
  have := natVal_cast ds 0 h
  simpa [natVal] using this

theorem natVal_natDecimal (n : Nat) : natVal (natDecimal n) = n := by
  have h1 := natVal_int (natDecimal n) (natDecimal_digits n)
  rw [intValFrom_natDecimal] at h1
  exact_mod_cast h1

theorem digits_noCRLF (ds : List Nat) (h : ds.all isDigitB = true) :
    noCRLF ds = true := by
  rw [noCRLF, List.all_eq_true]
  intro x hx
  have := List.all_eq_true.mp h x hx
  simp [isDigitB] at this
  simp
  omega

theorem digits_head_ne (ds : List Nat) (h : ds.all isDigitB = true) (c : Nat)
    (hc : c < 48) : (ds.head? == some c) = false := by
  cases ds with
  | nil => rfl
  | cons d ds' =>
    rw [List.all_cons, Bool.and_eq_true] at h
    have hd : 48 ≤ d ∧ d ≤ 57 := by
      have := h.1
      simp [isDigitB] at this
      exact this
    simp
    omega

theorem intDecimal_noCRLF (i : Int) : noCRLF (intDecimal i) = true := by
  rw [intDecimal]
  split
  · rw [noCRLF, List.all_cons, Bool.and_eq_true]
    constructor
    · simp
    · exact digits_noCRLF _ (natDecimal_digits _)
  · exact digits_noCRLF _ (natDecimal_digits _)

/-- `read_buf` into a fresh parser always yields exactly the fed bytes at
`Index 0` with an empty stack. -/
theorem read_buf_new (D L : Nat) (input : List Nat) :
    read_buf (Parser.new D L) input =
      ⟨input, if input.length ≤ 4096 then 4096 else input.length + 4096,
        .Index 0, L, D, []⟩ := by
  rw [read_buf, Parser.new]
  by_cases hlen : input.length ≤ 4096
  · have h1 : ¬ (4096 < input.length) := by omega
    simp [DEFAULT_BUFFER_INIT_SIZE, h1, hlen]
  · have h1 : 4096 < input.length := by omega
    simp [DEFAULT_BUFFER_INIT_SIZE, h1, hlen]

theorem try_parse_aux_cont (n : Nat) (p q : Parser) (h : parse_step p = .inr q) :
    try_parse_aux (n + 1) p = try_parse_aux n q := by
  rw [try_parse_aux, h]

theorem try_parse_aux_ret (n : Nat) (p : Parser)
    (r : Except ParseError (Option RespValue) × Parser) (h : parse_step p = .inl r) :
    try_parse_aux (n + 1) p = r := by
  rw [try_parse_aux, h]

/-- `handle_integer` on an unsigned digit line of at most 19 bytes whose
value exceeds `i64::MAX` reports `Overflow` from the fast path. -/
theorem handle_integer_overflow (A ds rest : List Nat) (hds : ds.all isDigitB = true)
    (hlen : ds.length ≤ 19) (hover : intValFrom 0 ds > i64Max) :
    handle_integer (A ++ (ds ++ 13 :: 10 :: rest)) A.length = .Error .Overflow := by
  have hfind := find_crlf_at A ds rest (noCRLF_no_pair ds (digits_noCRLF ds hds))
  have hslice : bslice (A ++ (ds ++ 13 :: 10 :: rest)) A.length (A.length + ds.length) = ds :=
    bslice_at A ds (13 :: 10 :: rest)
  have hplus := digits_head_ne ds hds 43 (by omega)
  have hminus := digits_head_ne ds hds 45 (by omega)
  have hloop := integer_fast_loop_eq ds 0 hds (le_refl 0) (by simp [i64Max])
  rw [if_neg (by omega : ¬ intValFrom 0 ds ≤ i64Max)] at hloop
  simp only [handle_integer, hfind, hslice, hplus, hminus, Bool.false_eq_true, if_false,
    if_pos hlen, Bool.or_self, Bool.and_false, List.drop_zero]
  simp [hloop]

/-- Running the parser on `:` ++ digits ++ CRLF when the at-most-19-digit
value overflows: two loop iterations end in `Overflow`. -/
theorem integer_overflow_run (c D L : Nat) (ds : List Nat)
    (hds : ds.all isDigitB = true) (hlen : ds.length ≤ 19)
    (hover : intValFrom 0 ds > i64Max) :
    try_parse (⟨58 :: (ds ++ 13 :: 10 :: []), c, .Index 0, L, D, []⟩ : Parser)
      = (.error .Overflow,
         ⟨58 :: (ds ++ 13 :: 10 :: []), c, .ReadingInteger 1, L, D, []⟩) := by
  have h1 : parse_step (⟨58 :: (ds ++ 13 :: 10 :: []), c, .Index 0, L, D, []⟩ : Parser)
      = .inr ⟨58 :: (ds ++ 13 :: 10 :: []), c, .ReadingInteger 1, L, D, []⟩ := by
    simp [parse_step, dispatch, handle_index, bget_cons_zero]
  have hint : handle_integer (58 :: (ds ++ 13 :: 10 :: [])) 1 = .Error .Overflow := by
    have := handle_integer_overflow [58] ds [] hds hlen hover
    simpa using this
  have h2 : parse_step (⟨58 :: (ds ++ 13 :: 10 :: []), c, .ReadingInteger 1, L, D, []⟩ : Parser)
      = .inl (.error .Overflow,
              ⟨58 :: (ds ++ 13 :: 10 :: []), c, .ReadingInteger 1, L, D, []⟩) := by
    simp [parse_step, dispatch, hint]
  show try_parse_aux MAX_ITERATIONS _ = _
  rw [show MAX_ITERATIONS = 1023 + 1 from rfl]
  rw [try_parse_aux_cont 1023 _ _ h1]
  rw [show (1023 : Nat) = 1022 + 1 from rfl]
  rw [try_parse_aux_ret 1022 _ _ h2]

/-- C6 amended: an overflowing integer line is reported as `Overflow` only
when the digit string fits the 19-byte fast path; longer overflowing lines
(such as 40 digits) fall back to `atoi` and are reported as
`InvalidFormat("Invalid integer format (atoi failed)")`. -/
theorem c6_overflow_amended :
    (∀ (D L : Nat) (ds : List Nat), ds.all isDigitB = true → ds.length ≤ 19 →
        intValFrom 0 ds > i64Max →
        (try_parse (read_buf (Parser.new D L) (58 :: (ds ++ [13, 10])))).1
          = .error .Overflow) ∧
    (try_parse (read_buf (Parser.new 100 1000)
        (58 :: (List.replicate 40 57 ++ crlf)))).1
      = .error (.InvalidFormat "Invalid integer format (atoi failed)") := by
  constructor
  · intro D L ds hds hlen hover
    rw [read_buf_new]
    rw [integer_overflow_run _ D L ds hds hlen hover]
  · rfl

/-- C6 witness: 19 nines overflow 64 bits within the fast path and yield
`Overflow`. -/
theorem c6_witness :
    (try_parse (read_buf (Parser.new 100 1000)
        (58 :: (List.replicate 19 57 ++ [13, 10])))).1 = .error .Overflow :=
  c6_overflow_amended.1 100 1000 (List.replicate 19 57) (by decide) (by decide) (by decide)

/-- `handle_simple_string` rejects a line containing CR or LF. -/
theorem handle_simple_string_reject (A s rest : List Nat)
    (hp : no_crlf_pair s = true)
    (hany : s.any (fun b => b == 13 || b == 10) = true) :
    handle_simple_string (A ++ (s ++ 13 :: 10 :: rest)) A.length
      = .Error (.InvalidFormat "Simple string cannot contain CR or LF") := by
  have hfind := find_crlf_at A s rest hp
  have hslice : bslice (A ++ (s ++ 13 :: 10 :: rest)) A.length (A.length + s.length) = s :=
    bslice_at A s (13 :: 10 :: rest)
  simp only [handle_simple_string, hfind, hslice, hany, if_true]

/-- `handle_error` accepts any line, lossy-decoded, CR/LF included. -/
theorem handle_error_accept (A s rest : List Nat) (hp : no_crlf_pair s = true) :
    handle_error (A ++ (s ++ 13 :: 10 :: rest)) A.length
      = .Complete (some (.Error (utf8Lossy s), A.length + s.length + CRLF_LEN)) := by
  have hfind := find_crlf_at A s rest hp
  have hslice : bslice (A ++ (s ++ 13 :: 10 :: rest)) A.length (A.length + s.length) = s :=
    bslice_at A s (13 :: 10 :: rest)
  simp only [handle_error, hfind, hslice]

/-- Two-step run: a `+` line with embedded CR/LF is rejected. -/
theorem simple_string_reject_run (c D L : Nat) (s rest : List Nat)
    (hp : no_crlf_pair s = true)
    (hany : s.any (fun b => b == 13 || b == 10) = true) :
    try_parse (⟨43 :: (s ++ 13 :: 10 :: rest), c, .Index 0, L, D, []⟩ : Parser)
      = (.error (.InvalidFormat "Simple string cannot contain CR or LF"),
         ⟨43 :: (s ++ 13 :: 10 :: rest), c, .ReadingSimpleString 1, L, D, []⟩) := by
  have h1 : parse_step (⟨43 :: (s ++ 13 :: 10 :: rest), c, .Index 0, L, D, []⟩ : Parser)
      = .inr ⟨43 :: (s ++ 13 :: 10 :: rest), c, .ReadingSimpleString 1, L, D, []⟩ := by
    simp [parse_step, dispatch, handle_index, bget_cons_zero]
  have hss : handle_simple_string (43 :: (s ++ 13 :: 10 :: rest)) 1
      = .Error (.InvalidFormat "Simple string cannot contain CR or LF") := by
    have := handle_simple_string_reject [43] s rest hp hany
    simpa using this
  have h2 : parse_step (⟨43 :: (s ++ 13 :: 10 :: rest), c, .ReadingSimpleString 1,
        L, D, []⟩ : Parser)
      = .inl (.error (.InvalidFormat "Simple string cannot contain CR or LF"),
              ⟨43 :: (s ++ 13 :: 10 :: rest), c, .ReadingSimpleString 1, L, D, []⟩) := by
    simp [parse_step, dispatch, hss]
  show try_parse_aux MAX_ITERATIONS _ = _
  rw [show MAX_ITERATIONS = 1023 + 1 from rfl]
  rw [try_parse_aux_cont 1023 _ _ h1]
  rw [show (1023 : Nat) = 1022 + 1 from rfl]
  rw [try_parse_aux_ret 1022 _ _ h2]

/-- Two-step run: a `-` line is accepted whatever bytes it contains. -/
theorem error_accept_run (c D L : Nat) (s rest : List Nat)
    (hp : no_crlf_pair s = true) :
    try_parse (⟨45 :: (s ++ 13 :: 10 :: rest), c, .Index 0, L, D, []⟩ : Parser)
      = (.ok (some (.Error (utf8Lossy s))),
         ⟨45 :: (s ++ 13 :: 10 :: rest), c, .Index (1 + s.length + CRLF_LEN), L, D, []⟩) := by
  have h1 : parse_step (⟨45 :: (s ++ 13 :: 10 :: rest), c, .Index 0, L, D, []⟩ : Parser)
      = .inr ⟨45 :: (s ++ 13 :: 10 :: rest), c, .ReadingError 1, L, D, []⟩ := by
    simp [parse_step, dispatch, handle_index, bget_cons_zero]
  have herr : handle_error (45 :: (s ++ 13 :: 10 :: rest)) 1
      = .Complete (some (.Error (utf8Lossy s), 1 + s.length + CRLF_LEN)) := by
    have := handle_error_accept [45] s rest hp
    simpa using this
  have h2 : parse_step (⟨45 :: (s ++ 13 :: 10 :: rest), c, .ReadingError 1, L, D, []⟩ : Parser)
      = .inl (.ok (some (.Error (utf8Lossy s))),
              ⟨45 :: (s ++ 13 :: 10 :: rest), c,
               .Index (1 + s.length + CRLF_LEN), L, D, []⟩) := by
    simp [parse_step, dispatch, herr, complete_step, clear_buffer]
  show try_parse_aux MAX_ITERATIONS _ = _
  rw [show MAX_ITERATIONS = 1023 + 1 from rfl]
  rw [try_parse_aux_cont 1023 _ _ h1]
  rw [show (1023 : Nat) = 1022 + 1 from rfl]
  rw [try_parse_aux_ret 1022 _ _ h2]

/-- C5 amended: only the `+` marker validates against embedded CR/LF — a
simple-string line containing a CR or LF byte before its terminator is
rejected with `InvalidFormat("Simple string cannot contain CR or LF")` —
while the `-` marker accepts any line up to the first CRLF and returns an
`Error` value whose (lossily decoded) text may contain CR or LF. -/
theorem c5_crlf_validation_amended :
    (∀ (D L : Nat) (s rest : List Nat), no_crlf_pair s = true →
        s.any (fun b => b == 13 || b == 10) = true →
        (try_parse (read_buf (Parser.new D L) (43 :: (s ++ 13 :: 10 :: rest)))).1
          = .error (.InvalidFormat "Simple string cannot contain CR or LF")) ∧
    (∀ (D L : Nat) (s rest : List Nat), no_crlf_pair s = true →
        (try_parse (read_buf (Parser.new D L) (45 :: (s ++ 13 :: 10 :: rest)))).1
          = .ok (some (.Error (utf8Lossy s)))) := by
  constructor
  · intro D L s rest hp hany
    rw [read_buf_new]
    rw [simple_string_reject_run _ D L s rest hp hany]
  · intro D L s rest hp
    rw [read_buf_new]
    rw [error_accept_run _ D L s rest hp]

/-- C5 witness: `+` with an embedded CR is rejected; `-` with the same line
is accepted with the CR kept in the error text. -/
theorem c5_witness :
    (try_parse (read_buf (Parser.new 100 1000)
        (43 :: ([97, 13, 98] ++ 13 :: 10 :: [])))).1
      = .error (.InvalidFormat "Simple string cannot contain CR or LF") ∧
    (try_parse (read_buf (Parser.new 100 1000)
        (45 :: ([97, 13, 98] ++ 13 :: 10 :: [])))).1
      = .ok (some (.Error (utf8Lossy [97, 13, 98]))) :=
  ⟨c5_crlf_validation_amended.1 100 1000 [97, 13, 98] [] (by decide) (by decide),
   c5_crlf_validation_amended.2 100 1000 [97, 13, 98] [] (by decide)⟩

/-- Stepping the loop through the digits of a length prefix: one iteration
per digit byte, accumulating the value, with no overflow below `i64::MAX`. -/
theorem read_length_digits_run : ∀ (ds : List Nat) (A tailB : List Nat) (c L D : Nat)
    (S : List ParseState) (acc : Int) (tc : Nat) (n : Nat),
    ds.all isDigitB = true → 0 ≤ acc → intValFrom acc ds ≤ i64Max →
    S.length ≤ D →
    try_parse_aux (n + ds.length)
      (⟨A ++ (ds ++ tailB), c, .ReadingLength A.length acc false tc, L, D, S⟩ : Parser)
      = try_parse_aux n
        (⟨A ++ (ds ++ tailB), c,
          .ReadingLength (A.length + ds.length) (intValFrom acc ds) false tc,
          L, D, S⟩ : Parser) := by
  intro ds
  induction ds with
  | nil =>
    intro A tailB c L D S acc tc n _ _ _ _
    simp [intValFrom_nil]
  | cons d ds' ih =>
    intro A tailB c L D S acc tc n hall hacc hbound hS
    rw [List.all_cons, Bool.and_eq_true] at hall
    have hd : 48 ≤ d ∧ d ≤ 57 := by
      have := hall.1
      simp [isDigitB] at this
      exact this
    have hδ0 : (0 : Int) ≤ (d : Int) - 48 := by have := hd.1; omega
    have hacc' : (0 : Int) ≤ acc * 10 + ((d : Int) - 48) := by nlinarith
    have hbound' : intValFrom (acc * 10 + ((d : Int) - 48)) ds' ≤ i64Max := by
      rw [intValFrom_cons] at hbound
      exact hbound
    have hle : acc * 10 + ((d : Int) - 48) ≤ i64Max :=
      le_trans (intValFrom_ge ds' _ hall.2 hacc') hbound'
    have hpos : A.length < (A ++ d :: (ds' ++ tailB)).length := by simp
    have hg : bget (A ++ d :: (ds' ++ tailB)) A.length = d := by
      have := bget_at A (d :: (ds' ++ tailB)) 0
      simpa using this
    have hov1 : (acc * 10 < i64Min || i64Max < acc * 10) = false := by
      simp only [Bool.or_eq_false_iff, decide_eq_false_iff_not, not_lt]
      constructor
      · simp [i64Min]
        nlinarith
      · simp [i64Max] at hle ⊢
        omega
    have hov2 : (acc * 10 + ((d : Int) - 48) < i64Min
        || i64Max < acc * 10 + ((d : Int) - 48)) = false := by
      simp only [Bool.or_eq_false_iff, decide_eq_false_iff_not, not_lt]
      constructor
      · simp [i64Min]
        nlinarith
      · exact hle
    have hstep : parse_step (⟨A ++ ((d :: ds') ++ tailB), c,
        .ReadingLength A.length acc false tc, L, D, S⟩ : Parser)
        = .inr ⟨A ++ ((d :: ds') ++ tailB), c,
            .ReadingLength (A.length + 1) (acc * 10 + ((d : Int) - 48)) false tc,
            L, D, S⟩ := by
      have hdepth : ¬ S.length > D := by omega
      simp [parse_step, dispatch, handle_length, hpos, hg, hd.1, hd.2, hov1, hov2, hdepth]
    have hfuel : n + (d :: ds').length = (n + ds'.length) + 1 := by
      simp [List.length_cons]
      omega
    rw [hfuel]
    rw [try_parse_aux_cont _ _ _ hstep]
    have hassoc : A ++ ((d :: ds') ++ tailB) = (A ++ [d]) ++ (ds' ++ tailB) := by simp
    have hlen1 : A.length + 1 = (A ++ [d]).length := by simp
    rw [hassoc, hlen1]
    rw [ih (A ++ [d]) tailB c L D S (acc * 10 + ((d : Int) - 48)) tc n
      hall.2 hacc' hbound' hS]
    rw [intValFrom_cons]
    have : (A ++ [d]).length + ds'.length = A.length + (d :: ds').length := by
      simp [List.length_cons]
      omega
    rw [this]

/-- Positive `$N` header terminator: transition to `ReadingBulkString`. -/
theorem handle_length_crlf_bulk (A tail2 : List Nat) (N : Int) (hN : 0 < N) :
    handle_length (A ++ (13 :: 10 :: tail2)) A.length N false 36
      = .ReadingBulkString (A.length + CRLF_LEN) N.toNat := by
  have hb0 : bget (A ++ (13 :: 10 :: tail2)) A.length = 13 := by
    have := bget_at A (13 :: 10 :: tail2) 0
    simpa using this
  have hb1 : bget (A ++ (13 :: 10 :: tail2)) (A.length + 1) = 10 := by
    have := bget_at A (13 :: 10 :: tail2) 1
    simpa using this
  have hneg : ¬ (N < 0) := by omega
  have hnz : (N == 0) = false := by
    simp only [beq_eq_false_iff_ne, ne_eq]
    omega
  simp [handle_length, hb0, hb1, hneg, hnz]

/-- `handle_bulk_string` with the full payload available and below the limit:
emit the bulk string. -/
theorem handle_bulk_ok (A' payload rest : List Nat) (L : Nat)
    (h1 : 1 ≤ payload.length) (hlen : payload.length < L)
    (hutf8 : utf8Valid payload = true) :
    handle_bulk_string (A' ++ (payload ++ 13 :: 10 :: rest)) L A'.length payload.length
      = .Complete (some (.BulkString (some payload),
          A'.length + payload.length + CRLF_LEN)) := by
  have hz : (payload.length == 0) = false := by
    simp only [beq_eq_false_iff_ne, ne_eq]
    omega
  have hge : ¬ (payload.length ≥ L) := by omega
  have hbuf : ¬ ((A' ++ (payload ++ 13 :: 10 :: rest)).length
      < A'.length + payload.length + CRLF_LEN) := by
    simp [CRLF_LEN]
    omega
  have ht0 : bget (A' ++ (payload ++ 13 :: 10 :: rest)) (A'.length + payload.length) = 13 := by
    have h := bget_at (A' ++ payload) (13 :: 10 :: rest) 0
    simp at h
    have : A' ++ (payload ++ 13 :: 10 :: rest) = (A' ++ payload) ++ (13 :: 10 :: rest) := by
      simp
    rw [this]
    have h2 := bget_at (A' ++ payload) (13 :: 10 :: rest) 0
    simpa using h2
  have ht1 : bget (A' ++ (payload ++ 13 :: 10 :: rest))
      (A'.length + payload.length + 1) = 10 := by
    have : A' ++ (payload ++ 13 :: 10 :: rest) = (A' ++ payload) ++ (13 :: 10 :: rest) := by
      simp
    rw [this]
    have h2 := bget_at (A' ++ payload) (13 :: 10 :: rest) 1
    have h3 : (A' ++ payload).length + 1 = A'.length + payload.length + 1 := by simp
    rw [h3] at h2
    simpa using h2
  have hslice : bslice (A' ++ (payload ++ 13 :: 10 :: rest)) A'.length
      (A'.length + payload.length) = payload := by
    have : payload ++ 13 :: 10 :: rest = payload ++ (13 :: 10 :: rest) := rfl
    exact bslice_at A' payload (13 :: 10 :: rest)
  by_cases hascii : payload.all (fun b => b < 128) = true
  · simp [handle_bulk_string, hz, hge, hbuf, ht0, ht1, hslice, hascii]
    simp [CRLF_LEN]
    omega
  · have hascii' : (payload.all (fun b => b < 128)) = false := by
      cases h : payload.all (fun b => b < 128)
      · rfl
      · exact absurd h hascii
    simp [handle_bulk_string, hz, hge, hbuf, ht0, ht1, hslice, hascii', hutf8]
    simp [CRLF_LEN]
    omega

/-- `handle_bulk_string` rejects `remaining ≥ max_length` with
`InvalidLength`, regardless of buffered data. -/
theorem handle_bulk_invalid (buffer : List Nat) (L start N : Nat)
    (h1 : 1 ≤ N) (hNL : N ≥ L) :
    handle_bulk_string buffer L start N = .Error .InvalidLength := by
  have hz : (N == 0) = false := by
    simp only [beq_eq_false_iff_ne, ne_eq]
    omega
  simp [handle_bulk_string, hz, hNL]

/-- The decimal form of an i64-range count has at most 19 digits. -/
theorem natDecimal_length_le_19 (N : Nat) (h : (N : Int) ≤ i64Max) :
    (natDecimal N).length ≤ 19 := by
  rw [natDecimal]
  split
  · simp
  · rw [List.length_reverse]
    rw [natDigitsRev_length_iff]
    have : (N : Int) ≤ 9223372036854775807 := h
    have hN : N ≤ 9223372036854775807 := by exact_mod_cast this
    omega

/-- Full run of a `$N` message: the parser reads the header digits and either
rejects the length against `max_length` (`N ≥ L`) or completes with the
payload (`N < L`). -/
theorem bulk_limit_run (c D L N : Nat) (payload rest : List Nat)
    (h1 : 1 ≤ N) (hbound : (N : Int) ≤ i64Max)
    (hplen : payload.length = N) (hutf8 : utf8Valid payload = true) :
    (N ≥ L → (try_parse (⟨36 :: (natDecimal N ++ 13 :: 10 :: (payload ++ 13 :: 10 :: rest)),
        c, .Index 0, L, D, []⟩ : Parser)).1 = .error .InvalidLength) ∧
    (N < L → (try_parse (⟨36 :: (natDecimal N ++ 13 :: 10 :: (payload ++ 13 :: 10 :: rest)),
        c, .Index 0, L, D, []⟩ : Parser)).1 = .ok (some (.BulkString (some payload)))) := by
  set ds := natDecimal N with hds_def
  have hd19 : ds.length ≤ 19 := natDecimal_length_le_19 N hbound
  set buf := 36 :: (ds ++ 13 :: 10 :: (payload ++ 13 :: 10 :: rest)) with hbuf_def
  -- iteration 1: marker dispatch
  have h1step : parse_step (⟨buf, c, .Index 0, L, D, []⟩ : Parser)
      = .inr ⟨buf, c, .ReadingLength 1 0 false 36, L, D, []⟩ := by
    simp [hbuf_def, parse_step, dispatch, handle_index, bget_cons_zero]
  -- digit iterations
  have hchain : try_parse_aux 1023 (⟨buf, c, .ReadingLength 1 0 false 36, L, D, []⟩ : Parser)
      = try_parse_aux (1023 - ds.length)
          (⟨buf, c, .ReadingLength (1 + ds.length) (N : Int) false 36, L, D, []⟩ : Parser) := by
    have hb36 : buf = [36] ++ (ds ++ (13 :: 10 :: (payload ++ 13 :: 10 :: rest))) := by
      simp [hbuf_def]
    have hfuel : (1023 : Nat) = (1023 - ds.length) + ds.length := by omega
    have := read_length_digits_run ds [36] (13 :: 10 :: (payload ++ 13 :: 10 :: rest))
      c L D [] 0 36 (1023 - ds.length) (natDecimal_digits N) (le_refl 0)
      (by rw [intValFrom_natDecimal]; exact hbound) (by simp)
    rw [intValFrom_natDecimal] at this
    rw [hb36, hfuel]
    simpa using this
  -- CRLF iteration: move to ReadingBulkString
  have hcr : handle_length buf (1 + ds.length) (N : Int) false 36
      = .ReadingBulkString (1 + ds.length + CRLF_LEN) N := by
    have hb : buf = (36 :: ds) ++ (13 :: 10 :: (payload ++ 13 :: 10 :: rest)) := by
      simp [hbuf_def]
    have hlen36 : (1 : Nat) + ds.length = (36 :: ds).length := by simp; omega
    rw [hb, hlen36]
    rw [handle_length_crlf_bulk (36 :: ds) (payload ++ 13 :: 10 :: rest) (N : Int)
      (by exact_mod_cast h1)]
    simp
  have hcrstep : parse_step (⟨buf, c, .ReadingLength (1 + ds.length) (N : Int) false 36,
        L, D, []⟩ : Parser)
      = .inr ⟨buf, c, .ReadingBulkString (1 + ds.length + CRLF_LEN) N, L, D, []⟩ := by
    simp [parse_step, dispatch, hcr]
  constructor
  · intro hNL
    have hbulk : handle_bulk_string buf L (1 + ds.length + CRLF_LEN) N
        = .Error .InvalidLength := handle_bulk_invalid buf L _ N h1 hNL
    have hlast : parse_step (⟨buf, c, .ReadingBulkString (1 + ds.length + CRLF_LEN) N,
          L, D, []⟩ : Parser)
        = .inl (.error .InvalidLength,
                ⟨buf, c, .ReadingBulkString (1 + ds.length + CRLF_LEN) N, L, D, []⟩) := by
      simp [parse_step, dispatch, hbulk]
    show (try_parse_aux MAX_ITERATIONS _).1 = _
    rw [show MAX_ITERATIONS = 1023 + 1 from rfl]
    rw [try_parse_aux_cont 1023 _ _ h1step]
    rw [hchain]
    rw [show (1023 - ds.length) = (1022 - ds.length) + 1 by omega]
    rw [try_parse_aux_cont _ _ _ hcrstep]
    rw [show (1022 - ds.length) = (1021 - ds.length) + 1 by omega]
    rw [try_parse_aux_ret _ _ _ hlast]
  · intro hNL
    have hbulk : handle_bulk_string buf L (1 + ds.length + CRLF_LEN) N
        = .Complete (some (.BulkString (some payload),
            1 + ds.length + CRLF_LEN + N + CRLF_LEN)) := by
      have hb : buf = (36 :: (ds ++ [13, 10])) ++ (payload ++ 13 :: 10 :: rest) := by
        simp [hbuf_def]
      have hlenA : (1 : Nat) + ds.length + CRLF_LEN = (36 :: (ds ++ [13, 10])).length := by
        simp [CRLF_LEN]
        omega
      rw [hb, hlenA, ← hplen]
      have := handle_bulk_ok (36 :: (ds ++ [13, 10])) payload rest L
        (by omega) (by omega) hutf8
      rw [this]
    have hlast : parse_step (⟨buf, c, .ReadingBulkString (1 + ds.length + CRLF_LEN) N,
          L, D, []⟩ : Parser)
        = .inl (.ok (some (.BulkString (some payload))),
                ⟨buf, c, .Index (1 + ds.length + CRLF_LEN + N + CRLF_LEN), L, D, []⟩) := by
      simp [parse_step, dispatch, hbulk, complete_step, clear_buffer]
    show (try_parse_aux MAX_ITERATIONS _).1 = _
    rw [show MAX_ITERATIONS = 1023 + 1 from rfl]
    rw [try_parse_aux_cont 1023 _ _ h1step]
    rw [hchain]
    rw [show (1023 - ds.length) = (1022 - ds.length) + 1 by omega]
    rw [try_parse_aux_cont _ _ _ hcrstep]
    rw [show (1022 - ds.length) = (1021 - ds.length) + 1 by omega]
    rw [try_parse_aux_ret _ _ _ hlast]

/-- C4 (amended): a bulk string header `$N` (N ≥ 1, in i64 range) is rejected
with `InvalidLength` exactly when N ≥ max_length (the code rejects equality as
well, so «strictly greater» in the claim is corrected to «at least»); when
N < max_length the payload is parsed as a BulkString. The depth part of the
claim holds as stated: with max_depth = 1 the input `*1\r\n*1\r\n+OK\r\n`
yields `InvalidDepth`. -/
theorem c4_limits_amended (D L N : Nat) (payload rest : List Nat)
    (h1 : 1 ≤ N) (hbound : (N : Int) ≤ i64Max)
    (hplen : payload.length = N)
    (hascii : payload.all (fun b => b < 128) = true) :
    ((N ≥ L → (try_parse (read_buf (Parser.new D L)
        (36 :: (natDecimal N ++ 13 :: 10 :: (payload ++ 13 :: 10 :: rest))))).1
          = .error .InvalidLength) ∧
     (N < L → (try_parse (read_buf (Parser.new D L)
        (36 :: (natDecimal N ++ 13 :: 10 :: (payload ++ 13 :: 10 :: rest))))).1
          = .ok (some (.BulkString (some payload))))) ∧
    (try_parse (read_buf (Parser.new 1 1000)
        [42, 49, 13, 10, 42, 49, 13, 10, 43, 79, 75, 13, 10])).1
      = .error .InvalidDepth := by
  constructor
  · rw [read_buf_new]
    exact bulk_limit_run _ D L N payload rest h1 hbound hplen
      (utf8Valid_of_ascii payload hascii)
  · rfl

/-- C4 witness: with max_length 3 the message `$5\r\nhello\r\n` is rejected
with InvalidLength; with max_length 9 the same message parses as
BulkString "hello". -/
theorem c4_witness :
    ((try_parse (read_buf (Parser.new 10 3)
        (36 :: (natDecimal 5 ++ 13 :: 10 :: ([104, 101, 108, 108, 111] ++ 13 :: 10 :: []))))).1
      = .error .InvalidLength) ∧
    ((try_parse (read_buf (Parser.new 10 9)
        (36 :: (natDecimal 5 ++ 13 :: 10 :: ([104, 101, 108, 108, 111] ++ 13 :: 10 :: []))))).1
      = .ok (some (.BulkString (some [104, 101, 108, 108, 111])))) :=
  ⟨((c4_limits_amended 10 3 5 [104, 101, 108, 108, 111] []
      (by decide) (by decide) (by decide) (by decide)).1).1 (by decide),
   ((c4_limits_amended 10 9 5 [104, 101, 108, 108, 111] []
      (by decide) (by decide) (by decide) (by decide)).1).2 (by decide)⟩

/-- `try_parse_aux` at positive fuel depends on the parser only through
`parse_step`. -/
theorem try_parse_aux_step_congr (n : Nat) (p q : Parser)
    (h : parse_step p = parse_step q) :
    try_parse_aux (n + 1) p = try_parse_aux (n + 1) q := by
  simp only [try_parse_aux]
  rw [h]

/-- `complete_step` ignores the stored `state` field whenever the stack is a
well-formed frame stack. -/
theorem complete_step_state_irrel (buf : List Nat) (c : Nat) (s1 s2 : ParseState)
    (L D : Nat) (S : List ParseState) (v : RespValue) (pos : Nat)
    (hS : stackOK S = true) :
    complete_step ⟨buf, c, s1, L, D, S⟩ v pos
      = complete_step ⟨buf, c, s2, L, D, S⟩ v pos := by
  cases S with
  | nil => rfl
  | cons f rest =>
    cases f
    case ReadingArray fp total cur elems tc =>
      simp only [complete_step]
      split_ifs <;> rfl
    all_goals simp [stackOK] at hS

/-- A dispatch that lands in `Complete (some _)` makes `parse_step` coincide
with `parse_step` from the stored `Complete` state. -/
theorem step_complete_eq (buf : List Nat) (c : Nat) (st : ParseState)
    (L D : Nat) (S : List ParseState) (v : RespValue) (pos : Nat)
    (hdep : ¬ S.length > D)
    (hd : dispatch ⟨buf, c, st, L, D, S⟩ = (.Complete (some (v, pos)), S))
    (hS : stackOK S = true) :
    parse_step (⟨buf, c, st, L, D, S⟩ : Parser)
      = parse_step (⟨buf, c, .Complete (some (v, pos)), L, D, S⟩ : Parser) := by
  have hd2 : dispatch ⟨buf, c, .Complete (some (v, pos)), L, D, S⟩
      = (.Complete (some (v, pos)), S) := rfl
  simp only [parse_step, hd, hd2]
  rw [if_neg hdep, if_neg hdep]
  exact complete_step_state_irrel buf c st (.Complete (some (v, pos))) L D S v pos hS

/-- Collapsing an `attach`-shaped map. -/
theorem attach_map_fn {α β : Type _} (l : List α) (f : α → β) :
    l.attach.map (fun x => f x.1) = l.map f := by
  simp [List.attach_map_val]

theorem foldl_max_init : ∀ (l : List Nat) (a : Nat), a ≤ l.foldl max a := by
  intro l
  induction l with
  | nil => intro a; simp
  | cons b l ih =>
    intro a
    simp only [List.foldl_cons]
    exact le_trans (le_max_left a b) (ih (max a b))

theorem foldl_max_mem : ∀ (l : List Nat) (a x : Nat), x ∈ l → x ≤ l.foldl max a := by
  intro l
  induction l with
  | nil => intro a x hx; simp at hx
  | cons b l ih =>
    intro a x hx
    simp only [List.foldl_cons]
    rcases List.mem_cons.mp hx with h | h
    · subst h
      exact le_trans (le_max_right a x) (foldl_max_init l (max a x))
    · exact ih (max a b) x h

/-- The `Array` encoder in terms of `encList`. -/
theorem as_bytes_array (xs : List RespValue) :
    RespValue.as_bytes (.Array (some xs))
      = 42 :: (natDecimal xs.length ++ crlf ++ encList xs) := by
  simp [RespValue.as_bytes, encList, List.attach_map_val]

/-- The `Set` encoder in terms of `encList`. -/
theorem as_bytes_set (xs : List RespValue) :
    RespValue.as_bytes (.Set (some xs))
      = 126 :: (natDecimal xs.length ++ crlf ++ encList xs) := by
  simp [RespValue.as_bytes, encList, List.attach_map_val]

/-- The `Push` encoder in terms of `encList`. -/
theorem as_bytes_push (xs : List RespValue) :
    RespValue.as_bytes (.Push (some xs))
      = 62 :: (natDecimal xs.length ++ crlf ++ encList xs) := by
  simp [RespValue.as_bytes, encList, List.attach_map_val]

theorem encList_flatPairs : ∀ (m : List (RespValue × RespValue)),
    encList (flatPairs m)
      = (m.map (fun kv => RespValue.as_bytes kv.1 ++ RespValue.as_bytes kv.2)).flatten := by
  intro m
  induction m with
  | nil => rfl
  | cons kv rest ih =>
    obtain ⟨k, v⟩ := kv
    simp [flatPairs, encList] at ih ⊢
    rw [ih]

/-- The `Map` encoder in terms of the flattened key/value sequence. -/
theorem as_bytes_map (m : List (RespValue × RespValue)) :
    RespValue.as_bytes (.Map (some m))
      = 37 :: (natDecimal m.length ++ crlf ++ encList (flatPairs m)) := by
  rw [encList_flatPairs]
  simp only [RespValue.as_bytes]
  congr 2
  exact congrArg List.flatten
    (attach_map_fn m (fun kv => RespValue.as_bytes kv.1 ++ RespValue.as_bytes kv.2))

theorem costv_array (xs : List RespValue) (h : xs ≠ []) :
    costv (.Array (some xs)) = (natDecimal xs.length).length + 3 + costList xs := by
  simp only [costv, costList]
  rw [if_neg (by simpa using h)]
  congr 2
  exact attach_map_fn xs (fun e => costv e + 1)

theorem costv_set (xs : List RespValue) (h : xs ≠ []) :
    costv (.Set (some xs)) = (natDecimal xs.length).length + 3 + costList xs := by
  simp only [costv, costList]
  rw [if_neg (by simpa using h)]
  congr 2
  exact attach_map_fn xs (fun e => costv e + 1)

theorem costv_push (xs : List RespValue) (h : xs ≠ []) :
    costv (.Push (some xs)) = (natDecimal xs.length).length + 3 + costList xs := by
  simp only [costv, costList]
  rw [if_neg (by simpa using h)]
  congr 2
  exact attach_map_fn xs (fun e => costv e + 1)

theorem costList_flatPairs : ∀ (m : List (RespValue × RespValue)),
    costList (flatPairs m) = (m.map (fun kv => costv kv.1 + costv kv.2 + 2)).sum := by
  intro m
  induction m with
  | nil => rfl
  | cons kv rest ih =>
    obtain ⟨k, v⟩ := kv
    simp [flatPairs, costList] at ih ⊢
    omega

theorem costv_map (m : List (RespValue × RespValue)) (h : m ≠ []) :
    costv (.Map (some m)) = (natDecimal m.length).length + 3 + costList (flatPairs m) := by
  rw [costList_flatPairs]
  simp only [costv]
  rw [if_neg (by simpa using h)]
  congr 2
  exact attach_map_fn m (fun kv => costv kv.1 + costv kv.2 + 2)

theorem flatPairs_length : ∀ (m : List (RespValue × RespValue)),
    (flatPairs m).length = 2 * m.length := by
  intro m
  induction m with
  | nil => rfl
  | cons kv rest ih =>
    obtain ⟨k, v⟩ := kv
    simp [flatPairs, ih]
    omega

theorem pair_up_flatPairs : ∀ (m : List (RespValue × RespValue)),
    pair_up (flatPairs m) = m := by
  intro m
  induction m with
  | nil => rfl
  | cons kv rest ih =>
    obtain ⟨k, v⟩ := kv
    simp [flatPairs, pair_up, ih]

theorem wfv_array_mem (L : Nat) (xs : List RespValue)
    (h : wfv L (.Array (some xs)) = true) :
    xs.length ≤ 4611686018427387904 ∧ ∀ e ∈ xs, wfv L e = true := by
  rw [wfv] at h
  simp only [Bool.and_eq_true, decide_eq_true_eq] at h
  refine ⟨h.1, ?_⟩
  intro e he
  have := h.2
  rw [List.all_eq_true] at this
  exact this ⟨e, he⟩ (List.mem_attach xs ⟨e, he⟩)

theorem wfv_set_mem (L : Nat) (xs : List RespValue)
    (h : wfv L (.Set (some xs)) = true) :
    xs.length ≤ 4611686018427387904 ∧ ∀ e ∈ xs, wfv L e = true := by
  rw [wfv] at h
  simp only [Bool.and_eq_true, decide_eq_true_eq] at h
  refine ⟨h.1, ?_⟩
  intro e he
  have := h.2
  rw [List.all_eq_true] at this
  exact this ⟨e, he⟩ (List.mem_attach xs ⟨e, he⟩)

theorem wfv_push_mem (L : Nat) (xs : List RespValue)
    (h : wfv L (.Push (some xs)) = true) :
    xs.length ≤ 4611686018427387904 ∧ ∀ e ∈ xs, wfv L e = true := by
  rw [wfv] at h
  simp only [Bool.and_eq_true, decide_eq_true_eq] at h
  refine ⟨h.1, ?_⟩
  intro e he
  have := h.2
  rw [List.all_eq_true] at this
  exact this ⟨e, he⟩ (List.mem_attach xs ⟨e, he⟩)

theorem flatPairs_mem_wf (L : Nat) : ∀ (m : List (RespValue × RespValue)),
    (∀ kv ∈ m, wfv L kv.1 = true ∧ wfv L kv.2 = true) →
    ∀ e ∈ flatPairs m, wfv L e = true := by
  intro m
  induction m with
  | nil => intro _ e he; simp [flatPairs] at he
  | cons kv rest ih =>
    intro hp e he
    obtain ⟨k, v⟩ := kv
    simp only [flatPairs, List.mem_cons] at he
    rcases he with h1 | h1 | he
    · rw [h1]; exact (hp (k, v) (List.mem_cons_self _ _)).1
    · rw [h1]; exact (hp (k, v) (List.mem_cons_self _ _)).2
    · exact ih (fun x hx => hp x (List.mem_cons_of_mem _ hx)) e he

theorem wfv_map_mem (L : Nat) (m : List (RespValue × RespValue))
    (h : wfv L (.Map (some m)) = true) :
    m.length ≤ 2305843009213693952 ∧ ∀ e ∈ flatPairs m, wfv L e = true := by
  rw [wfv] at h
  simp only [Bool.and_eq_true, decide_eq_true_eq] at h
  refine ⟨h.1, ?_⟩
  have hall := h.2
  rw [List.all_eq_true] at hall
  apply flatPairs_mem_wf
  intro kv hkv
  have := hall ⟨kv, hkv⟩ (List.mem_attach _ _)
  simp only [Bool.and_eq_true] at this
  exact this

theorem depthv_array_mem (xs : List RespValue) (e : RespValue) (he : e ∈ xs) :
    depthv e + 1 ≤ depthv (.Array (some xs)) := by
  have hne : xs ≠ [] := by intro hc; subst hc; simp at he
  rw [depthv, if_neg (by simpa using hne)]
  rw [attach_map_fn xs depthv]
  have := foldl_max_mem (xs.map depthv) 0 (depthv e) (List.mem_map_of_mem depthv he)
  omega

theorem depthv_set_mem (xs : List RespValue) (e : RespValue) (he : e ∈ xs) :
    depthv e + 1 ≤ depthv (.Set (some xs)) := by
  have hne : xs ≠ [] := by intro hc; subst hc; simp at he
  rw [depthv, if_neg (by simpa using hne)]
  rw [attach_map_fn xs depthv]
  have := foldl_max_mem (xs.map depthv) 0 (depthv e) (List.mem_map_of_mem depthv he)
  omega

theorem depthv_push_mem (xs : List RespValue) (e : RespValue) (he : e ∈ xs) :
    depthv e + 1 ≤ depthv (.Push (some xs)) := by
  have hne : xs ≠ [] := by intro hc; subst hc; simp at he
  rw [depthv, if_neg (by simpa using hne)]
  rw [attach_map_fn xs depthv]
  have := foldl_max_mem (xs.map depthv) 0 (depthv e) (List.mem_map_of_mem depthv he)
  omega

theorem flatPairs_mem : ∀ (m : List (RespValue × RespValue)) (e : RespValue),
    e ∈ flatPairs m → ∃ kv, kv ∈ m ∧ (e = kv.1 ∨ e = kv.2) := by
  intro m
  induction m with
  | nil => intro e he; simp [flatPairs] at he
  | cons kv rest ih =>
    intro e he
    obtain ⟨k, v⟩ := kv
    simp only [flatPairs, List.mem_cons] at he
    rcases he with h1 | h1 | he
    · exact ⟨(k, v), List.mem_cons_self _ _, Or.inl h1⟩
    · exact ⟨(k, v), List.mem_cons_self _ _, Or.inr h1⟩
    · obtain ⟨kv, hm, hor⟩ := ih e he
      exact ⟨kv, List.mem_cons_of_mem _ hm, hor⟩

theorem depthv_map_mem (m : List (RespValue × RespValue)) (e : RespValue)
    (he : e ∈ flatPairs m) :
    depthv e + 1 ≤ depthv (.Map (some m)) := by
  have hne : m ≠ [] := by intro hc; subst hc; simp [flatPairs] at he
  rw [depthv, if_neg (by simpa using hne)]
  rw [attach_map_fn m (fun kv => max (depthv kv.1) (depthv kv.2))]
  obtain ⟨kv, hm, hor⟩ := flatPairs_mem m e he
  have hmem : max (depthv kv.1) (depthv kv.2)
      ∈ m.map (fun kv => max (depthv kv.1) (depthv kv.2)) :=
    List.mem_map_of_mem _ hm
  have := foldl_max_mem (m.map (fun kv => max (depthv kv.1) (depthv kv.2))) 0 _ hmem
  rcases hor with h1 | h1
  · rw [h1]
    have h2 : depthv kv.1 ≤ max (depthv kv.1) (depthv kv.2) := le_max_left _ _
    omega
  · rw [h1]
    have h2 : depthv kv.2 ≤ max (depthv kv.1) (depthv kv.2) := le_max_right _ _
    omega

theorem h_index_null (A B : List Nat) :
    handle_index (A ++ 95 :: 13 :: 10 :: B) A.length
      = .Complete (some (.Null, A.length + 3)) := by
  have hlen : ¬ (A.length ≥ (A ++ 95 :: 13 :: 10 :: B).length) := by simp
  have h0 : bget (A ++ 95 :: 13 :: 10 :: B) A.length = 95 := by
    have := bget_at A (95 :: 13 :: 10 :: B) 0
    simpa using this
  have h1 : bget (A ++ 95 :: 13 :: 10 :: B) (A.length + 1) = 13 := by
    have := bget_at A (95 :: 13 :: 10 :: B) 1
    simpa using this
  have h2 : bget (A ++ 95 :: 13 :: 10 :: B) (A.length + 2) = 10 := by
    have := bget_at A (95 :: 13 :: 10 :: B) 2
    simpa using this
  have hin : A.length + 2 < (A ++ 95 :: 13 :: 10 :: B).length := by simp
  simp [handle_index, hlen, h0, h1, h2, hin]

theorem h_index_boolean_true (A B : List Nat) :
    handle_index (A ++ 35 :: 116 :: 13 :: 10 :: B) A.length
      = .Complete (some (.Boolean true, A.length + 4)) := by
  have h0 : bget (A ++ 35 :: 116 :: 13 :: 10 :: B) A.length = 35 := by
    have := bget_at A (35 :: 116 :: 13 :: 10 :: B) 0
    simpa using this
  have h1 : bget (A ++ 35 :: 116 :: 13 :: 10 :: B) (A.length + 1) = 116 := by
    have := bget_at A (35 :: 116 :: 13 :: 10 :: B) 1
    simpa using this
  have h2 : bget (A ++ 35 :: 116 :: 13 :: 10 :: B) (A.length + 2) = 13 := by
    have := bget_at A (35 :: 116 :: 13 :: 10 :: B) 2
    simpa using this
  have h3 : bget (A ++ 35 :: 116 :: 13 :: 10 :: B) (A.length + 3) = 10 := by
    have := bget_at A (35 :: 116 :: 13 :: 10 :: B) 3
    simpa using this
  have hlen : ¬ (A.length ≥ (A ++ 35 :: 116 :: 13 :: 10 :: B).length) := by simp
  have hin2 : A.length + 2 < (A ++ 35 :: 116 :: 13 :: 10 :: B).length := by simp
  have hin3 : A.length + 3 < (A ++ 35 :: 116 :: 13 :: 10 :: B).length := by simp
  simp [handle_index, hlen, h0, h1, h2, h3, hin2, hin3]

theorem h_index_boolean_false (A B : List Nat) :
    handle_index (A ++ 35 :: 102 :: 13 :: 10 :: B) A.length
      = .Complete (some (.Boolean false, A.length + 4)) := by
  have h0 : bget (A ++ 35 :: 102 :: 13 :: 10 :: B) A.length = 35 := by
    have := bget_at A (35 :: 102 :: 13 :: 10 :: B) 0
    simpa using this
  have h1 : bget (A ++ 35 :: 102 :: 13 :: 10 :: B) (A.length + 1) = 102 := by
    have := bget_at A (35 :: 102 :: 13 :: 10 :: B) 1
    simpa using this
  have h2 : bget (A ++ 35 :: 102 :: 13 :: 10 :: B) (A.length + 2) = 13 := by
    have := bget_at A (35 :: 102 :: 13 :: 10 :: B) 2
    simpa using this
  have h3 : bget (A ++ 35 :: 102 :: 13 :: 10 :: B) (A.length + 3) = 10 := by
    have := bget_at A (35 :: 102 :: 13 :: 10 :: B) 3
    simpa using this
  have hlen : ¬ (A.length ≥ (A ++ 35 :: 102 :: 13 :: 10 :: B).length) := by simp
  have hin2 : A.length + 2 < (A ++ 35 :: 102 :: 13 :: 10 :: B).length := by simp
  have hin3 : A.length + 3 < (A ++ 35 :: 102 :: 13 :: 10 :: B).length := by simp
  simp [handle_index, hlen, h0, h1, h2, h3, hin2, hin3]

theorem h_index_bignumber (A s B : List Nat) (hp : no_crlf_pair s = true)
    (hbn : big_number_valid s = true) (hutf : utf8Valid s = true) :
    handle_index (A ++ 40 :: (s ++ 13 :: 10 :: B)) A.length
      = .Complete (some (.BigNumber s, A.length + 1 + s.length + CRLF_LEN)) := by
  have h0 : bget (A ++ 40 :: (s ++ 13 :: 10 :: B)) A.length = 40 := by
    have := bget_at A (40 :: (s ++ 13 :: 10 :: B)) 0
    simpa using this
  have hlen : ¬ (A.length ≥ (A ++ 40 :: (s ++ 13 :: 10 :: B)).length) := by simp
  have hfind : find_crlf (A ++ 40 :: (s ++ 13 :: 10 :: B)) (A.length + 1)
      = some (A.length + 1 + s.length) := by
    have h := find_crlf_at (A ++ [40]) s B hp
    simp only [List.append_assoc, List.cons_append, List.nil_append,
      List.length_append, List.length_cons, List.length_nil] at h
    simpa using h
  have hslice : bslice (A ++ 40 :: (s ++ 13 :: 10 :: B)) (A.length + 1)
      (A.length + 1 + s.length) = s := by
    have h := bslice_at (A ++ [40]) s (13 :: 10 :: B)
    simpa using h
  simp [handle_index, hlen, h0, hfind, hslice, hbn, hutf]

theorem h_index_bulkerror_some (A s B : List Nat) (hp : no_crlf_pair s = true)
    (hne : (s == [45, 49]) = false) (hutf : utf8Valid s = true) :
    handle_index (A ++ 33 :: (s ++ 13 :: 10 :: B)) A.length
      = .Complete (some (.BulkError (some s), A.length + 1 + s.length + CRLF_LEN)) := by
  have h0 : bget (A ++ 33 :: (s ++ 13 :: 10 :: B)) A.length = 33 := by
    have := bget_at A (33 :: (s ++ 13 :: 10 :: B)) 0
    simpa using this
  have hlen : ¬ (A.length ≥ (A ++ 33 :: (s ++ 13 :: 10 :: B)).length) := by simp
  have hfind : find_crlf (A ++ 33 :: (s ++ 13 :: 10 :: B)) (A.length + 1)
      = some (A.length + 1 + s.length) := by
    have h := find_crlf_at (A ++ [33]) s B hp
    simpa using h
  have hslice : bslice (A ++ 33 :: (s ++ 13 :: 10 :: B)) (A.length + 1)
      (A.length + 1 + s.length) = s := by
    have h := bslice_at (A ++ [33]) s (13 :: 10 :: B)
    simpa using h
  simp [handle_index, hlen, h0, hfind, hslice, hne, hutf]

theorem h_index_bulkerror_none (A B : List Nat) :
    handle_index (A ++ 33 :: 45 :: 49 :: 13 :: 10 :: B) A.length
      = .Complete (some (.BulkError none, A.length + 5)) := by
  have h0 : bget (A ++ 33 :: 45 :: 49 :: 13 :: 10 :: B) A.length = 33 := by
    have := bget_at A (33 :: 45 :: 49 :: 13 :: 10 :: B) 0
    simpa using this
  have hlen : ¬ (A.length ≥ (A ++ 33 :: 45 :: 49 :: 13 :: 10 :: B).length) := by simp
  have hfind : find_crlf (A ++ 33 :: 45 :: 49 :: 13 :: 10 :: B) (A.length + 1)
      = some (A.length + 3) := by
    have h := find_crlf_at (A ++ [33]) [45, 49] B (by decide)
    simp at h
    simpa [show A.length + 1 + 2 = A.length + 3 from by omega] using h
  have hslice : bslice (A ++ 33 :: 45 :: 49 :: 13 :: 10 :: B) (A.length + 1)
      (A.length + 3) = [45, 49] := by
    have h := bslice_at (A ++ [33]) [45, 49] (13 :: 10 :: B)
    simp at h
    simpa [show A.length + 1 + 2 = A.length + 3 from by omega] using h
  simp [handle_index, hlen, h0, hfind, hslice, CRLF_LEN]

theorem h_index_verbatim_some (A s B : List Nat) (hp : no_crlf_pair s = true)
    (hne : (s == [45, 49]) = false) (hutf : utf8Valid s = true) :
    handle_index (A ++ 61 :: (s ++ 13 :: 10 :: B)) A.length
      = .Complete (some (.VerbatimString (some s), A.length + 1 + s.length + CRLF_LEN)) := by
  have h0 : bget (A ++ 61 :: (s ++ 13 :: 10 :: B)) A.length = 61 := by
    have := bget_at A (61 :: (s ++ 13 :: 10 :: B)) 0
    simpa using this
  have hlen : ¬ (A.length ≥ (A ++ 61 :: (s ++ 13 :: 10 :: B)).length) := by simp
  have hfind : find_crlf (A ++ 61 :: (s ++ 13 :: 10 :: B)) (A.length + 1)
      = some (A.length + 1 + s.length) := by
    have h := find_crlf_at (A ++ [61]) s B hp
    simpa using h
  have hslice : bslice (A ++ 61 :: (s ++ 13 :: 10 :: B)) (A.length + 1)
      (A.length + 1 + s.length) = s := by
    have h := bslice_at (A ++ [61]) s (13 :: 10 :: B)
    simpa using h
  simp [handle_index, hlen, h0, hfind, hslice, hne, hutf]

theorem h_index_verbatim_none (A B : List Nat) :
    handle_index (A ++ 61 :: 45 :: 49 :: 13 :: 10 :: B) A.length
      = .Complete (some (.VerbatimString none, A.length + 5)) := by
  have h0 : bget (A ++ 61 :: 45 :: 49 :: 13 :: 10 :: B) A.length = 61 := by
    have := bget_at A (61 :: 45 :: 49 :: 13 :: 10 :: B) 0
    simpa using this
  have hlen : ¬ (A.length ≥ (A ++ 61 :: 45 :: 49 :: 13 :: 10 :: B).length) := by simp
  have hfind : find_crlf (A ++ 61 :: 45 :: 49 :: 13 :: 10 :: B) (A.length + 1)
      = some (A.length + 3) := by
    have h := find_crlf_at (A ++ [61]) [45, 49] B (by decide)
    simp at h
    simpa [show A.length + 1 + 2 = A.length + 3 from by omega] using h
  have hslice : bslice (A ++ 61 :: 45 :: 49 :: 13 :: 10 :: B) (A.length + 1)
      (A.length + 3) = [45, 49] := by
    have h := bslice_at (A ++ [61]) [45, 49] (13 :: 10 :: B)
    simp at h
    simpa [show A.length + 1 + 2 = A.length + 3 from by omega] using h
  simp [handle_index, hlen, h0, hfind, hslice, CRLF_LEN]

theorem h_simple_accept (A s B : List Nat)
    (hcr : noCRLF s = true) (hutf : utf8Valid s = true) :
    handle_simple_string (A ++ (s ++ 13 :: 10 :: B)) A.length
      = .Complete (some (.SimpleString s, A.length + s.length + CRLF_LEN)) := by
  have hp : no_crlf_pair s = true := noCRLF_no_pair s hcr
  have hfind := find_crlf_at A s B hp
  have hslice : bslice (A ++ (s ++ 13 :: 10 :: B)) A.length (A.length + s.length) = s :=
    bslice_at A s (13 :: 10 :: B)
  have hany : (s.any (fun b => b == 13 || b == 10)) = false := by
    rw [List.any_eq_false]
    intro b hb
    rw [noCRLF, List.all_eq_true] at hcr
    have := hcr b hb
    simp at this ⊢
    omega
  simp only [handle_simple_string, hfind, hslice, hany, Bool.false_eq_true, if_false]
  rw [utf8Lossy_of_valid s hutf]

theorem list_isEmpty_false_of_ne {l : List Nat} (h : l ≠ []) : l.isEmpty = false := by
  cases l with
  | nil => exact absurd rfl h
  | cons a l => rfl

theorem atoi_neg_canonical (m : Nat) (hm : (m : Int) ≤ 9223372036854775808) :
    atoi_i64 (45 :: natDecimal m) = some (-(m : Int)) := by
  have hne : (natDecimal m).isEmpty = false :=
    list_isEmpty_false_of_ne (natDecimal_ne_nil m)
  have hall : (natDecimal m).all (fun d => 48 ≤ d && d ≤ 57) = true := by
    simpa [isDigitB] using natDecimal_digits m
  have hval : natVal (natDecimal m) = m := natVal_natDecimal m
  simp [atoi_i64, hne, hall, hval, hm]

theorem h_integer_pos (A B : List Nat) (m : Nat) (hmax : (m : Int) ≤ i64Max) :
    handle_integer (A ++ (natDecimal m ++ 13 :: 10 :: B)) A.length
      = .Complete (some (.Integer m, A.length + (natDecimal m).length + CRLF_LEN)) := by
  have hds := natDecimal_digits m
  have hfind := find_crlf_at A (natDecimal m) B (noCRLF_no_pair _ (digits_noCRLF _ hds))
  have hslice := bslice_at A (natDecimal m) (13 :: 10 :: B)
  have hplus := digits_head_ne (natDecimal m) hds 43 (by omega)
  have hminus := digits_head_ne (natDecimal m) hds 45 (by omega)
  have hlen : (natDecimal m).length ≤ 19 := natDecimal_length_le_19 m hmax
  have hloop := integer_fast_loop_eq (natDecimal m) 0 hds (le_refl 0) (by simp [i64Max])
  rw [intValFrom_natDecimal] at hloop
  rw [if_pos hmax] at hloop
  simp only [handle_integer, hfind, hslice, hplus, hminus, Bool.false_eq_true, if_false,
    if_pos hlen, Bool.or_self, Bool.and_false, List.drop_zero]
  simp [hloop]

theorem h_integer_neg_small (A B : List Nat) (m : Nat) (h1 : 1 ≤ m)
    (hsmall : (natDecimal m).length ≤ 18) :
    handle_integer (A ++ ((45 :: natDecimal m) ++ 13 :: 10 :: B)) A.length
      = .Complete (some (.Integer (-(m : Int)),
          A.length + (45 :: natDecimal m).length + CRLF_LEN)) := by
  have hds := natDecimal_digits m
  have hp : no_crlf_pair (45 :: natDecimal m) = true := by
    have h := digits_noCRLF _ hds
    have : noCRLF (45 :: natDecimal m) = true := by
      rw [noCRLF, List.all_cons, Bool.and_eq_true]
      exact ⟨by simp, h⟩
    exact noCRLF_no_pair _ this
  have hfind := find_crlf_at A (45 :: natDecimal m) B hp
  have hslice := bslice_at A (45 :: natDecimal m) (13 :: 10 :: B)
  have hlen : (45 :: natDecimal m).length ≤ 19 := by
    simp [List.length_cons]
    omega
  have hmax' : intValFrom 0 (natDecimal m) ≤ i64Max := by
    rw [intValFrom_natDecimal]
    have : m < 10 ^ 18 := by
      by_contra hc
      push_neg at hc
      have := (natDigitsRev_length_iff 18 m).mpr
      rw [natDecimal] at hsmall
      rw [if_neg (by omega)] at hsmall
      rw [List.length_reverse] at hsmall
      have h2 := (natDigitsRev_length_iff 18 m).mp hsmall
      omega
    simp [i64Max]
    omega
  have hloop := integer_fast_loop_eq (natDecimal m) 0 hds (le_refl 0)
    (by simp [i64Max])
  rw [if_pos hmax'] at hloop
  rw [intValFrom_natDecimal] at hloop
  have hne45 : ((45 : Nat) :: natDecimal m).head? = some 45 := rfl
  have hnoteq : ((m : Int) == i64Min) = false := by
    simp [i64Min]
  simp only [handle_integer, hfind, hslice, hne45]
  simp [hloop, hnoteq]
  rw [if_pos hsmall, if_neg (natDecimal_ne_nil m)]

theorem h_integer_neg_big (A B : List Nat) (m : Nat)
    (hbig : 19 ≤ (natDecimal m).length) (hm : (m : Int) ≤ 9223372036854775808) :
    handle_integer (A ++ ((45 :: natDecimal m) ++ 13 :: 10 :: B)) A.length
      = .Complete (some (.Integer (-(m : Int)),
          A.length + (45 :: natDecimal m).length + CRLF_LEN)) := by
  have hds := natDecimal_digits m
  have hp : no_crlf_pair (45 :: natDecimal m) = true := by
    have h := digits_noCRLF _ hds
    have : noCRLF (45 :: natDecimal m) = true := by
      rw [noCRLF, List.all_cons, Bool.and_eq_true]
      exact ⟨by simp, h⟩
    exact noCRLF_no_pair _ this
  have hfind := find_crlf_at A (45 :: natDecimal m) B hp
  have hslice := bslice_at A (45 :: natDecimal m) (13 :: 10 :: B)
  have hne45 : ((45 : Nat) :: natDecimal m).head? = some 45 := rfl
  have hlen : ¬ ((45 :: natDecimal m).length ≤ 19) := by
    simp [List.length_cons]
    omega
  have hatoi := atoi_neg_canonical m hm
  simp only [handle_integer, hfind, hslice, hne45]
  simp [hlen, hatoi]
  omega

theorem h_integer_canonical (A B : List Nat) (i : Int)
    (hmin : i64Min ≤ i) (hmax : i ≤ i64Max) :
    handle_integer (A ++ (intDecimal i ++ 13 :: 10 :: B)) A.length
      = .Complete (some (.Integer i, A.length + (intDecimal i).length + CRLF_LEN)) := by
  by_cases hneg : i < 0
  · rw [intDecimal, if_pos hneg]
    have h1 : 1 ≤ i.natAbs := by omega
    have hcast : -(i.natAbs : Int) = i := by omega
    have hm : (i.natAbs : Int) ≤ 9223372036854775808 := by
      simp [i64Min] at hmin
      omega
    by_cases hsmall : (natDecimal i.natAbs).length ≤ 18
    · have h := h_integer_neg_small A B i.natAbs h1 hsmall
      rw [hcast] at h
      exact h
    · have h := h_integer_neg_big A B i.natAbs (by omega) hm
      rw [hcast] at h
      exact h
  · rw [intDecimal, if_neg hneg]
    have hm : ((i.natAbs : Nat) : Int) ≤ i64Max := by
      have : (i.natAbs : Int) = i := by omega
      rw [this]
      exact hmax
    have h := h_integer_pos A B i.natAbs hm
    have hcast : ((i.natAbs : Nat) : Int) = i := by omega
    rw [hcast] at h
    exact h

theorem h_length_crlf_agg (A tail2 : List Nat) (N : Int) (hN : 0 < N) (tc : Nat)
    (htc : tc = 42 ∨ tc = 126 ∨ tc = 62) :
    handle_length (A ++ 13 :: 10 :: tail2) A.length N false tc
      = .ReadingArray (A.length + CRLF_LEN) N.toNat 0 [] tc := by
  have hb0 : bget (A ++ 13 :: 10 :: tail2) A.length = 13 := by
    have := bget_at A (13 :: 10 :: tail2) 0
    simpa using this
  have hb1 : bget (A ++ 13 :: 10 :: tail2) (A.length + 1) = 10 := by
    have := bget_at A (13 :: 10 :: tail2) 1
    simpa using this
  have hneg : ¬ (N < 0) := by omega
  have hnz : (N == 0) = false := by
    simp only [beq_eq_false_iff_ne, ne_eq]
    omega
  rcases htc with rfl | rfl | rfl <;>
    simp [handle_length, hb0, hb1, hneg, hnz]

theorem h_length_crlf_map (A tail2 : List Nat) (N : Int) (hN : 0 < N)
    (hbound : N ≤ 2305843009213693952) :
    handle_length (A ++ 13 :: 10 :: tail2) A.length N false 37
      = .ReadingArray (A.length + CRLF_LEN) (2 * N).toNat 0 [] 37 := by
  have hb0 : bget (A ++ 13 :: 10 :: tail2) A.length = 13 := by
    have := bget_at A (13 :: 10 :: tail2) 0
    simpa using this
  have hb1 : bget (A ++ 13 :: 10 :: tail2) (A.length + 1) = 10 := by
    have := bget_at A (13 :: 10 :: tail2) 1
    simpa using this
  have hneg : ¬ (N < 0) := by omega
  have hnz : (N == 0) = false := by
    simp only [beq_eq_false_iff_ne, ne_eq]
    omega
  have hmod : (N * 2).emod 18446744073709551616 = N * 2 :=
    Int.emod_eq_of_lt (by omega) (by omega)
  simp [handle_length, hb0, hb1, hneg, hnz, hmod]
  omega

theorem h_push_frame (buf : List Nat) (c : Nat) (fp total : Nat) (tc : Nat)
    (L D : Nat) (S : List ParseState) (htotal : 0 < total) (hdep : ¬ S.length > D) :
    parse_step (⟨buf, c, .ReadingArray fp total 0 [] tc, L, D, S⟩ : Parser)
      = .inr ⟨buf, c, .Index fp, L, D, .ReadingArray fp total 0 [] tc :: S⟩ := by
  have hge : ¬ ((0 : Nat) ≥ total) := by omega
  simp [parse_step, dispatch, handle_array, hge, hdep]

theorem h_fold_mid (buf : List Nat) (c L D : Nat) (S : List ParseState)
    (fp total cur : Nat) (es0 : List RespValue) (tc : Nat) (e : RespValue) (pos : Nat)
    (hdep : ¬ S.length + 1 > D) (hlt : cur + 1 < total) :
    parse_step (⟨buf, c, .Complete (some (e, pos)), L, D,
        .ReadingArray fp total cur es0 tc :: S⟩ : Parser)
      = .inr ⟨buf, c, .Index pos, L, D,
          .ReadingArray fp total (cur + 1) (es0 ++ [e]) tc :: S⟩ := by
  simp [parse_step, dispatch, complete_step, hdep, hlt]

theorem h_fold_last_cons (buf : List Nat) (c L D : Nat) (S : List ParseState)
    (fp total cur : Nat) (es0 : List RespValue) (tc : Nat) (e : RespValue) (pos : Nat)
    (hdep : ¬ S.length + 1 > D) (heq : cur + 1 = total) (hne : S ≠ []) :
    parse_step (⟨buf, c, .Complete (some (e, pos)), L, D,
        .ReadingArray fp total cur es0 tc :: S⟩ : Parser)
      = .inr ⟨buf, c, .Complete (some (build_completed tc (es0 ++ [e]), pos)), L, D, S⟩ := by
  have hnlt : ¬ (cur + 1 < total) := by omega
  have hie : S.isEmpty = false := by
    cases S with
    | nil => exact absurd rfl hne
    | cons a l => rfl
  simp [parse_step, dispatch, complete_step, hdep, hnlt, hie]

theorem h_fold_last_nil (buf : List Nat) (c L D : Nat)
    (fp total cur : Nat) (es0 : List RespValue) (tc : Nat) (e : RespValue) (pos : Nat)
    (hdep : ¬ (1 : Nat) > D) (heq : cur + 1 = total) :
    parse_step (⟨buf, c, .Complete (some (e, pos)), L, D,
        [.ReadingArray fp total cur es0 tc]⟩ : Parser)
      = .inl (.ok (some (build_completed tc (es0 ++ [e]))),
          ⟨buf, c, .Index pos, L, D, []⟩) := by
  have hnlt : ¬ (cur + 1 < total) := by omega
  simp [parse_step, dispatch, complete_step, clear_buffer, hdep, hnlt]

theorem h_index_marker (A rest' : List Nat) (tc : Nat)
    (htc : tc = 36 ∨ tc = 42 ∨ tc = 37 ∨ tc = 126 ∨ tc = 62) :
    handle_index (A ++ tc :: rest') A.length
      = .ReadingLength (A.length + 1) 0 false tc := by
  have hb0 : bget (A ++ tc :: rest') A.length = tc := by
    have := bget_at A (tc :: rest') 0
    simpa using this
  have hlen : ¬ (A.length ≥ (A ++ tc :: rest').length) := by simp
  rcases htc with rfl | rfl | rfl | rfl | rfl <;> simp [handle_index, hlen, hb0]

theorem h_length_neg1 (A tail2 : List Nat) (tc : Nat) (v : RespValue)
    (htcv : (tc = 36 ∧ v = .BulkString none) ∨ (tc = 42 ∧ v = .Array none)
          ∨ (tc = 37 ∧ v = .Map none) ∨ (tc = 126 ∧ v = .Set none)
          ∨ (tc = 62 ∧ v = .Push none)) :
    handle_length (A ++ 13 :: 10 :: tail2) A.length (-1) true tc
      = .Complete (some (v, A.length + CRLF_LEN)) := by
  have hb0 : bget (A ++ 13 :: 10 :: tail2) A.length = 13 := by
    have := bget_at A (13 :: 10 :: tail2) 0
    simpa using this
  have hb1 : bget (A ++ 13 :: 10 :: tail2) (A.length + 1) = 10 := by
    have := bget_at A (13 :: 10 :: tail2) 1
    simpa using this
  rcases htcv with ⟨rfl, rfl⟩ | ⟨rfl, rfl⟩ | ⟨rfl, rfl⟩ | ⟨rfl, rfl⟩ | ⟨rfl, rfl⟩ <;>
    simp [handle_length, hb0, hb1]

theorem h_length_zero_agg (A tail2 : List Nat) (tc : Nat) (v : RespValue)
    (htcv : (tc = 42 ∧ v = .Array (some [])) ∨ (tc = 37 ∧ v = .Map (some []))
          ∨ (tc = 126 ∧ v = .Set (some [])) ∨ (tc = 62 ∧ v = .Push (some []))) :
    handle_length (A ++ 13 :: 10 :: tail2) A.length 0 false tc
      = .Complete (some (v, A.length + CRLF_LEN)) := by
  have hb0 : bget (A ++ 13 :: 10 :: tail2) A.length = 13 := by
    have := bget_at A (13 :: 10 :: tail2) 0
    simpa using this
  have hb1 : bget (A ++ 13 :: 10 :: tail2) (A.length + 1) = 10 := by
    have := bget_at A (13 :: 10 :: tail2) 1
    simpa using this
  rcases htcv with ⟨rfl, rfl⟩ | ⟨rfl, rfl⟩ | ⟨rfl, rfl⟩ | ⟨rfl, rfl⟩ <;>
    simp [handle_length, hb0, hb1]

theorem h_length_zero_bulk (A tail2 : List Nat) :
    handle_length (A ++ 13 :: 10 :: 13 :: 10 :: tail2) A.length 0 false 36
      = .Complete (some (.BulkString (some []), A.length + 4)) := by
  have hb0 : bget (A ++ 13 :: 10 :: 13 :: 10 :: tail2) A.length = 13 := by
    have := bget_at A (13 :: 10 :: 13 :: 10 :: tail2) 0
    simpa using this
  have hb1 : bget (A ++ 13 :: 10 :: 13 :: 10 :: tail2) (A.length + 1) = 10 := by
    have := bget_at A (13 :: 10 :: 13 :: 10 :: tail2) 1
    simpa using this
  have hb2 : bget (A ++ 13 :: 10 :: 13 :: 10 :: tail2) (A.length + 2) = 13 := by
    have := bget_at A (13 :: 10 :: 13 :: 10 :: tail2) 2
    simpa using this
  have hb3 : bget (A ++ 13 :: 10 :: 13 :: 10 :: tail2) (A.length + 3) = 10 := by
    have := bget_at A (13 :: 10 :: 13 :: 10 :: tail2) 3
    simpa using this
  have hfit : A.length + 2 + CRLF_LEN ≤ (A ++ 13 :: 10 :: 13 :: 10 :: tail2).length := by
    simp [CRLF_LEN]
    omega
  simp [handle_length, hb0, hb1, hb2, hb3, hfit, CRLF_LEN]
  omega

theorem null_form_run (A B : List Nat) (S : List ParseState) (c L D n tc : Nat)
    (v : RespValue) (pos : Nat)
    (htc : tc = 36 ∨ tc = 42 ∨ tc = 37 ∨ tc = 126 ∨ tc = 62)
    (hfin : handle_length (A ++ tc :: 45 :: 49 :: 13 :: 10 :: B) (A.length + 3) (-1) true tc
            = .Complete (some (v, pos)))
    (hS : stackOK S = true) (hdep : ¬ S.length > D) :
    try_parse_aux (n + 1 + 3)
      (⟨A ++ tc :: 45 :: 49 :: 13 :: 10 :: B, c, .Index A.length, L, D, S⟩ : Parser)
      = try_parse_aux (n + 1)
        (⟨A ++ tc :: 45 :: 49 :: 13 :: 10 :: B, c,
          .Complete (some (v, pos)), L, D, S⟩ : Parser) := by
  have hb1 : bget (A ++ tc :: 45 :: 49 :: 13 :: 10 :: B) (A.length + 1) = 45 := by
    have := bget_at A (tc :: 45 :: 49 :: 13 :: 10 :: B) 1
    simpa using this
  have hb2 : bget (A ++ tc :: 45 :: 49 :: 13 :: 10 :: B) (A.length + 2) = 49 := by
    have := bget_at A (tc :: 45 :: 49 :: 13 :: 10 :: B) 2
    simpa using this
  have hmk := h_index_marker A (45 :: 49 :: 13 :: 10 :: B) tc htc
  have h1 : parse_step (⟨A ++ tc :: 45 :: 49 :: 13 :: 10 :: B, c, .Index A.length,
      L, D, S⟩ : Parser)
      = .inr ⟨A ++ tc :: 45 :: 49 :: 13 :: 10 :: B, c,
          .ReadingLength (A.length + 1) 0 false tc, L, D, S⟩ := by
    simp [parse_step, dispatch, hmk, hdep]
  have h2 : parse_step (⟨A ++ tc :: 45 :: 49 :: 13 :: 10 :: B, c,
      .ReadingLength (A.length + 1) 0 false tc, L, D, S⟩ : Parser)
      = .inr ⟨A ++ tc :: 45 :: 49 :: 13 :: 10 :: B, c,
          .ReadingLength (A.length + 2) 0 true tc, L, D, S⟩ := by
    simp [parse_step, dispatch, handle_length, hb1, hdep]
  have h3 : parse_step (⟨A ++ tc :: 45 :: 49 :: 13 :: 10 :: B, c,
      .ReadingLength (A.length + 2) 0 true tc, L, D, S⟩ : Parser)
      = .inr ⟨A ++ tc :: 45 :: 49 :: 13 :: 10 :: B, c,
          .ReadingLength (A.length + 3) (-1) true tc, L, D, S⟩ := by
    simp [parse_step, dispatch, handle_length, hb2, hdep, i64Min, i64Max]
  have hd : dispatch ⟨A ++ tc :: 45 :: 49 :: 13 :: 10 :: B, c,
      .ReadingLength (A.length + 3) (-1) true tc, L, D, S⟩
      = (.Complete (some (v, pos)), S) := by
    simp [dispatch, hfin]
  rw [show n + 1 + 3 = (n + 3) + 1 from by omega, try_parse_aux_cont _ _ _ h1,
    show n + 3 = (n + 2) + 1 from by omega, try_parse_aux_cont _ _ _ h2,
    show n + 2 = (n + 1) + 1 from by omega, try_parse_aux_cont _ _ _ h3]
  exact try_parse_aux_step_congr n _ _
    (step_complete_eq _ c _ L D S v pos hdep hd hS)

theorem empty_form_run (A B : List Nat) (S : List ParseState) (c L D n tc : Nat)
    (v : RespValue) (pos : Nat)
    (htc : tc = 36 ∨ tc = 42 ∨ tc = 37 ∨ tc = 126 ∨ tc = 62)
    (hfin : handle_length (A ++ tc :: 48 :: B) (A.length + 2) 0 false tc
            = .Complete (some (v, pos)))
    (hS : stackOK S = true) (hdep : ¬ S.length > D) :
    try_parse_aux (n + 1 + 2)
      (⟨A ++ tc :: 48 :: B, c, .Index A.length, L, D, S⟩ : Parser)
      = try_parse_aux (n + 1)
        (⟨A ++ tc :: 48 :: B, c, .Complete (some (v, pos)), L, D, S⟩ : Parser) := by
  have hb1 : bget (A ++ tc :: 48 :: B) (A.length + 1) = 48 := by
    have := bget_at A (tc :: 48 :: B) 1
    simpa using this
  have hmk := h_index_marker A (48 :: B) tc htc
  have h1 : parse_step (⟨A ++ tc :: 48 :: B, c, .Index A.length, L, D, S⟩ : Parser)
      = .inr ⟨A ++ tc :: 48 :: B, c, .ReadingLength (A.length + 1) 0 false tc, L, D, S⟩ := by
    simp [parse_step, dispatch, hmk, hdep]
  have h2 : parse_step (⟨A ++ tc :: 48 :: B, c,
      .ReadingLength (A.length + 1) 0 false tc, L, D, S⟩ : Parser)
      = .inr ⟨A ++ tc :: 48 :: B, c,
          .ReadingLength (A.length + 2) 0 false tc, L, D, S⟩ := by
    simp [parse_step, dispatch, handle_length, hb1, hdep, i64Min, i64Max]
  have hd : dispatch ⟨A ++ tc :: 48 :: B, c,
      .ReadingLength (A.length + 2) 0 false tc, L, D, S⟩
      = (.Complete (some (v, pos)), S) := by
    simp [dispatch, hfin]
  rw [show n + 1 + 2 = (n + 2) + 1 from by omega, try_parse_aux_cont _ _ _ h1,
    show n + 2 = (n + 1) + 1 from by omega, try_parse_aux_cont _ _ _ h2]
  exact try_parse_aux_step_congr n _ _
    (step_complete_eq _ c _ L D S v pos hdep hd hS)

set_option maxHeartbeats 1000000 in
/-- Chaining the elements of an aggregate through the frame on top of the
stack: each element parses and folds, until the last fold completes the
aggregate. -/
theorem elements_run : ∀ (es : List RespValue),
    (∀ e ∈ es, ValueRun e) → es ≠ [] →
    ∀ (es0 : List RespValue) (cur total : Nat) (A B : List Nat) (S : List ParseState)
      (c D L n fp tc : Nat),
    cur = es0.length → total = cur + es.length →
    (∀ e ∈ es, wfv L e = true) → stackOK S = true →
    (∀ e ∈ es, S.length + 1 + depthv e ≤ D) → S.length + 1 ≤ D →
    try_parse_aux (n + 1 + costList es)
      (⟨A ++ (encList es ++ B), c, .Index A.length, L, D,
        .ReadingArray fp total cur es0 tc :: S⟩ : Parser)
      = try_parse_aux (n + 1)
        (⟨A ++ (encList es ++ B), c,
          .Complete (some (build_completed tc (es0 ++ es),
            A.length + (encList es).length)), L, D, S⟩ : Parser) := by
  intro es
  induction es with
  | nil => intro _ hne; exact absurd rfl hne
  | cons e rest ih =>
    intro hIH _ es0 cur total A B S c D L n fp tc hcur htotal hwf hS hdepmem hdep1
    have hVR : ValueRun e := hIH e (List.mem_cons_self _ _)
    have hwfe : wfv L e = true := hwf e (List.mem_cons_self _ _)
    have hdepe : S.length + 1 + depthv e ≤ D := hdepmem e (List.mem_cons_self _ _)
    have hdepS : ¬ (S.length + 1 > D) := by omega
    cases rest with
    | nil =>
      -- single (last) element
      have hcl : costList [e] = costv e + 1 := by simp [costList]
      have hetot : total = cur + 1 := by simpa using htotal
      have henc : encList [e] = RespValue.as_bytes e := by simp [encList]
      rw [hcl, henc]
      rw [show n + 1 + (costv e + 1) = (n + 1) + 1 + costv e from by omega]
      rw [hVR L A B (.ReadingArray fp total cur es0 tc :: S) c D (n + 1) hwfe
        (by exact hS) (by simpa using hdepe)]
      cases S with
      | nil =>
        have hfold := h_fold_last_nil (A ++ (RespValue.as_bytes e ++ B)) c L D fp total cur
          es0 tc e (A.length + (RespValue.as_bytes e).length)
          (by omega) (by omega)
        rw [try_parse_aux_ret _ _ _ hfold]
        have hstep2 : parse_step (⟨A ++ (RespValue.as_bytes e ++ B), c,
            .Complete (some (build_completed tc (es0 ++ [e]),
              A.length + (RespValue.as_bytes e).length)), L, D, []⟩ : Parser)
            = .inl (.ok (some (build_completed tc (es0 ++ [e]))),
                ⟨A ++ (RespValue.as_bytes e ++ B), c,
                  .Index (A.length + (RespValue.as_bytes e).length), L, D, []⟩) := by
          simp [parse_step, dispatch, complete_step, clear_buffer]
        rw [try_parse_aux_ret _ _ _ hstep2]
      | cons f rest' =>
        have hfold := h_fold_last_cons (A ++ (RespValue.as_bytes e ++ B)) c L D (f :: rest')
          fp total cur es0 tc e (A.length + (RespValue.as_bytes e).length)
          (by simpa using hdep1) (by omega) (by simp)
        rw [try_parse_aux_cont _ _ _ hfold]
    | cons r rest' =>
      have hne' : (r :: rest') ≠ [] := by simp
      have hcl : costList (e :: r :: rest') = (costv e + 1) + costList (r :: rest') := by
        simp [costList]
      have hb : A ++ (encList (e :: r :: rest') ++ B)
          = A ++ (RespValue.as_bytes e ++ (encList (r :: rest') ++ B)) := by
        simp [encList]
      rw [hcl, hb]
      rw [show n + 1 + ((costv e + 1) + costList (r :: rest'))
          = (n + 1 + costList (r :: rest')) + 1 + costv e from by omega]
      rw [hVR L A (encList (r :: rest') ++ B) (.ReadingArray fp total cur es0 tc :: S)
        c D (n + 1 + costList (r :: rest')) hwfe (by exact hS) (by simpa using hdepe)]
      have hlt : cur + 1 < total := by
        rw [htotal]
        simp
      have hfold := h_fold_mid (A ++ (RespValue.as_bytes e ++ (encList (r :: rest') ++ B)))
        c L D S fp total cur es0 tc e (A.length + (RespValue.as_bytes e).length)
        (by omega) hlt
      rw [try_parse_aux_cont _ _ _ hfold]
      have hihres := ih (fun x hx => hIH x (List.mem_cons_of_mem _ hx)) hne'
        (es0 ++ [e]) (cur + 1) total (A ++ RespValue.as_bytes e) B S c D L n fp tc
        (by simp [hcur]) (by rw [htotal]; simp; omega)
        (fun x hx => hwf x (List.mem_cons_of_mem _ hx)) hS
        (fun x hx => hdepmem x (List.mem_cons_of_mem _ hx)) hdep1
      simp only [List.append_assoc, List.length_append, Nat.add_assoc] at hihres ⊢
      rw [hihres]
      simp [encList, Nat.add_assoc]

theorem vr_simple (s : List Nat) : ValueRun (.SimpleString s) := by
  intro L A B S c D n hwf hS hdep
  rw [wfv] at hwf
  simp only [Bool.and_eq_true] at hwf
  have hcr : noCRLF s = true := hwf.1
  have hutf : utf8Valid s = true := hwf.2
  have hcost : costv (.SimpleString s) = 1 := by simp [costv]
  have henc : RespValue.as_bytes (.SimpleString s) = 43 :: (s ++ 13 :: 10 :: []) := by
    simp [RespValue.as_bytes, crlf]
  have hdep' : ¬ (S.length > D) := by omega
  rw [hcost, henc]
  simp only [List.append_assoc, List.cons_append, List.nil_append,
    List.length_append, List.length_cons, List.length_nil]
  -- buffer should now be A ++ 43 :: (s ++ 13 :: 10 :: B)
  have hb0 : bget (A ++ 43 :: (s ++ 13 :: 10 :: B)) A.length = 43 := by
    have := bget_at A (43 :: (s ++ 13 :: 10 :: B)) 0
    simpa using this
  have h1 : parse_step (⟨A ++ 43 :: (s ++ 13 :: 10 :: B), c, .Index A.length,
      L, D, S⟩ : Parser)
      = .inr ⟨A ++ 43 :: (s ++ 13 :: 10 :: B), c,
          .ReadingSimpleString (A.length + 1), L, D, S⟩ := by
    simp [parse_step, dispatch, handle_index, hb0, hdep']
  have hss : handle_simple_string (A ++ 43 :: (s ++ 13 :: 10 :: B)) (A.length + 1)
      = .Complete (some (.SimpleString s, A.length + 1 + s.length + CRLF_LEN)) := by
    have h := h_simple_accept (A ++ [43]) s B hcr hutf
    simpa using h
  have hd : dispatch ⟨A ++ 43 :: (s ++ 13 :: 10 :: B), c,
      .ReadingSimpleString (A.length + 1), L, D, S⟩
      = (.Complete (some (.SimpleString s, A.length + 1 + s.length + CRLF_LEN)), S) := by
    simp [dispatch, hss]
  rw [show n + 1 + 1 = (n + 1) + 1 from rfl]
  rw [try_parse_aux_cont _ _ _ h1]
  have := try_parse_aux_step_congr n _ _
    (step_complete_eq _ c (.ReadingSimpleString (A.length + 1)) L D S (.SimpleString s)
      (A.length + 1 + s.length + CRLF_LEN) hdep' hd hS)
  rw [this]
  congr 2
  simp [CRLF_LEN]
  omega

theorem vr_error (s : List Nat) : ValueRun (.Error s) := by
  intro L A B S c D n hwf hS hdep
  rw [wfv] at hwf
  simp only [Bool.and_eq_true] at hwf
  have hcr : noCRLF s = true := hwf.1
  have hutf : utf8Valid s = true := hwf.2
  have hcost : costv (.Error s) = 1 := by simp [costv]
  have henc : RespValue.as_bytes (.Error s) = 45 :: (s ++ 13 :: 10 :: []) := by
    simp [RespValue.as_bytes, crlf]
  have hdep' : ¬ (S.length > D) := by omega
  rw [hcost, henc]
  simp only [List.append_assoc, List.cons_append, List.nil_append,
    List.length_append, List.length_cons, List.length_nil]
  have hb0 : bget (A ++ 45 :: (s ++ 13 :: 10 :: B)) A.length = 45 := by
    have := bget_at A (45 :: (s ++ 13 :: 10 :: B)) 0
    simpa using this
  have h1 : parse_step (⟨A ++ 45 :: (s ++ 13 :: 10 :: B), c, .Index A.length,
      L, D, S⟩ : Parser)
      = .inr ⟨A ++ 45 :: (s ++ 13 :: 10 :: B), c,
          .ReadingError (A.length + 1), L, D, S⟩ := by
    simp [parse_step, dispatch, handle_index, hb0, hdep']
  have hss : handle_error (A ++ 45 :: (s ++ 13 :: 10 :: B)) (A.length + 1)
      = .Complete (some (.Error s, A.length + 1 + s.length + CRLF_LEN)) := by
    have h := handle_error_accept (A ++ [45]) s B (noCRLF_no_pair s hcr)
    rw [utf8Lossy_of_valid s hutf] at h
    simpa using h
  have hd : dispatch ⟨A ++ 45 :: (s ++ 13 :: 10 :: B), c,
      .ReadingError (A.length + 1), L, D, S⟩
      = (.Complete (some (.Error s, A.length + 1 + s.length + CRLF_LEN)), S) := by
    simp [dispatch, hss]
  rw [show n + 1 + 1 = (n + 1) + 1 from rfl]
  rw [try_parse_aux_cont _ _ _ h1]
  have := try_parse_aux_step_congr n _ _
    (step_complete_eq _ c (.ReadingError (A.length + 1)) L D S (.Error s)
      (A.length + 1 + s.length + CRLF_LEN) hdep' hd hS)
  rw [this]
  congr 2
  simp [CRLF_LEN]
  omega

theorem vr_integer (i : Int) : ValueRun (.Integer i) := by
  intro L A B S c D n hwf hS hdep
  rw [wfv] at hwf
  simp only [Bool.and_eq_true, decide_eq_true_eq] at hwf
  have hcost : costv (.Integer i) = 1 := by simp [costv]
  have henc : RespValue.as_bytes (.Integer i) = 58 :: (intDecimal i ++ 13 :: 10 :: []) := by
    simp [RespValue.as_bytes, crlf]
  have hdep' : ¬ (S.length > D) := by omega
  rw [hcost, henc]
  simp only [List.append_assoc, List.cons_append, List.nil_append,
    List.length_append, List.length_cons, List.length_nil]
  have hb0 : bget (A ++ 58 :: (intDecimal i ++ 13 :: 10 :: B)) A.length = 58 := by
    have := bget_at A (58 :: (intDecimal i ++ 13 :: 10 :: B)) 0
    simpa using this
  have h1 : parse_step (⟨A ++ 58 :: (intDecimal i ++ 13 :: 10 :: B), c, .Index A.length,
      L, D, S⟩ : Parser)
      = .inr ⟨A ++ 58 :: (intDecimal i ++ 13 :: 10 :: B), c,
          .ReadingInteger (A.length + 1), L, D, S⟩ := by
    simp [parse_step, dispatch, handle_index, hb0, hdep']
  have hss : handle_integer (A ++ 58 :: (intDecimal i ++ 13 :: 10 :: B)) (A.length + 1)
      = .Complete (some (.Integer i,
          A.length + 1 + (intDecimal i).length + CRLF_LEN)) := by
    have h := h_integer_canonical (A ++ [58]) B i hwf.1 hwf.2
    simpa using h
  have hd : dispatch ⟨A ++ 58 :: (intDecimal i ++ 13 :: 10 :: B), c,
      .ReadingInteger (A.length + 1), L, D, S⟩
      = (.Complete (some (.Integer i,
          A.length + 1 + (intDecimal i).length + CRLF_LEN)), S) := by
    simp [dispatch, hss]
  rw [show n + 1 + 1 = (n + 1) + 1 from rfl]
  rw [try_parse_aux_cont _ _ _ h1]
  have := try_parse_aux_step_congr n _ _
    (step_complete_eq _ c (.ReadingInteger (A.length + 1)) L D S (.Integer i)
      (A.length + 1 + (intDecimal i).length + CRLF_LEN) hdep' hd hS)
  rw [this]
  congr 2
  simp [CRLF_LEN]
  omega

theorem vr_null : ValueRun .Null := by
  intro L A B S c D n hwf hS hdep
  have hcost : costv .Null = 0 := by simp [costv]
  have henc : RespValue.as_bytes .Null = [95, 13, 10] := by
    simp [RespValue.as_bytes]
  have hdep' : ¬ (S.length > D) := by omega
  rw [hcost, henc]
  simp only [List.append_assoc, List.cons_append, List.nil_append,
    List.length_append, List.length_cons, List.length_nil]
  have hh := h_index_null A B
  have hd : dispatch ⟨A ++ 95 :: 13 :: 10 :: B, c, .Index A.length, L, D, S⟩
      = (.Complete (some (.Null, A.length + 3)), S) := by
    simp [dispatch, hh]
  rw [show n + 1 + 0 = n + 1 from rfl]
  have := try_parse_aux_step_congr n _ _
    (step_complete_eq _ c (.Index A.length) L D S .Null (A.length + 3) hdep' hd hS)
  rw [this]

theorem vr_boolean (b : Bool) : ValueRun (.Boolean b) := by
  intro L A B S c D n hwf hS hdep
  have hcost : costv (.Boolean b) = 0 := by simp [costv]
  have hdep' : ¬ (S.length > D) := by omega
  cases b
  · have henc : RespValue.as_bytes (.Boolean false) = [35, 102, 13, 10] := by
      simp [RespValue.as_bytes]
    rw [hcost, henc]
    simp only [List.append_assoc, List.cons_append, List.nil_append,
      List.length_append, List.length_cons, List.length_nil]
    have hh := h_index_boolean_false A B
    have hd : dispatch ⟨A ++ 35 :: 102 :: 13 :: 10 :: B, c, .Index A.length, L, D, S⟩
        = (.Complete (some (.Boolean false, A.length + 4)), S) := by
      simp [dispatch, hh]
    rw [show n + 1 + 0 = n + 1 from rfl]
    have := try_parse_aux_step_congr n _ _
      (step_complete_eq _ c (.Index A.length) L D S (.Boolean false) (A.length + 4)
        hdep' hd hS)
    rw [this]
  · have henc : RespValue.as_bytes (.Boolean true) = [35, 116, 13, 10] := by
      simp [RespValue.as_bytes]
    rw [hcost, henc]
    simp only [List.append_assoc, List.cons_append, List.nil_append,
      List.length_append, List.length_cons, List.length_nil]
    have hh := h_index_boolean_true A B
    have hd : dispatch ⟨A ++ 35 :: 116 :: 13 :: 10 :: B, c, .Index A.length, L, D, S⟩
        = (.Complete (some (.Boolean true, A.length + 4)), S) := by
      simp [dispatch, hh]
    rw [show n + 1 + 0 = n + 1 from rfl]
    have := try_parse_aux_step_congr n _ _
      (step_complete_eq _ c (.Index A.length) L D S (.Boolean true) (A.length + 4)
        hdep' hd hS)
    rw [this]

theorem bn_bytes : ∀ (s : List Nat) (k : Nat),
    ((List.enumFrom k s).all
      (fun p => (48 ≤ p.2 && p.2 ≤ 57) || (p.1 == 0 && p.2 == 45))) = true →
    noCRLF s = true ∧ s.all (fun b => b < 128) = true := by
  intro s
  induction s with
  | nil => intro k _; exact ⟨rfl, rfl⟩
  | cons b rest ih =>
    intro k h
    rw [List.enumFrom_cons, List.all_cons, Bool.and_eq_true] at h
    have hb : (48 ≤ b ∧ b ≤ 57) ∨ b = 45 := by
      have := h.1
      simp at this
      rcases this with h1 | h1
      · exact Or.inl h1
      · exact Or.inr h1.2
    have hrest := ih (k + 1) h.2
    constructor
    · rw [noCRLF, List.all_cons, Bool.and_eq_true]
      refine ⟨?_, hrest.1⟩
      simp
      omega
    · rw [List.all_cons, Bool.and_eq_true]
      refine ⟨?_, hrest.2⟩
      simp
      omega

theorem vr_bignumber (s : List Nat) : ValueRun (.BigNumber s) := by
  intro L A B S c D n hwf hS hdep
  rw [wfv] at hwf
  have hbn : big_number_valid s = true := hwf
  have hbytes := bn_bytes s 0 (by rw [big_number_valid] at hbn; exact hbn)
  have hutf : utf8Valid s = true := utf8Valid_of_ascii s hbytes.2
  have hcost : costv (.BigNumber s) = 0 := by simp [costv]
  have henc : RespValue.as_bytes (.BigNumber s) = 40 :: (s ++ 13 :: 10 :: []) := by
    simp [RespValue.as_bytes, crlf]
  have hdep' : ¬ (S.length > D) := by omega
  rw [hcost, henc]
  simp only [List.append_assoc, List.cons_append, List.nil_append,
    List.length_append, List.length_cons, List.length_nil]
  have hh := h_index_bignumber A s B (noCRLF_no_pair s hbytes.1) hbn hutf
  have hd : dispatch ⟨A ++ 40 :: (s ++ 13 :: 10 :: B), c, .Index A.length, L, D, S⟩
      = (.Complete (some (.BigNumber s, A.length + 1 + s.length + CRLF_LEN)), S) := by
    simp [dispatch, hh]
  rw [show n + 1 + 0 = n + 1 from rfl]
  have := try_parse_aux_step_congr n _ _
    (step_complete_eq _ c (.Index A.length) L D S (.BigNumber s)
      (A.length + 1 + s.length + CRLF_LEN) hdep' hd hS)
  rw [this]
  congr 2
  simp [CRLF_LEN]
  omega

theorem vr_bulkerror_some (s : List Nat) : ValueRun (.BulkError (some s)) := by
  intro L A B S c D n hwf hS hdep
  rw [wfv] at hwf
  simp only [Bool.and_eq_true] at hwf
  have hutf : utf8Valid s = true := hwf.1.1
  have hcr : noCRLF s = true := hwf.1.2
  have hne : (s == [45, 49]) = false := by
    have := hwf.2
    simp at this ⊢
    exact this
  have hcost : costv (.BulkError (some s)) = 0 := by simp [costv]
  have henc : RespValue.as_bytes (.BulkError (some s)) = 33 :: (s ++ 13 :: 10 :: []) := by
    simp [RespValue.as_bytes, crlf]
  have hdep' : ¬ (S.length > D) := by omega
  rw [hcost, henc]
  simp only [List.append_assoc, List.cons_append, List.nil_append,
    List.length_append, List.length_cons, List.length_nil]
  have hh := h_index_bulkerror_some A s B (noCRLF_no_pair s hcr) hne hutf
  have hd : dispatch ⟨A ++ 33 :: (s ++ 13 :: 10 :: B), c, .Index A.length, L, D, S⟩
      = (.Complete (some (.BulkError (some s), A.length + 1 + s.length + CRLF_LEN)), S) := by
    simp [dispatch, hh]
  rw [show n + 1 + 0 = n + 1 from rfl]
  have := try_parse_aux_step_congr n _ _
    (step_complete_eq _ c (.Index A.length) L D S (.BulkError (some s))
      (A.length + 1 + s.length + CRLF_LEN) hdep' hd hS)
  rw [this]
  congr 2
  simp [CRLF_LEN]
  omega

theorem vr_bulkerror_none : ValueRun (.BulkError none) := by
  intro L A B S c D n hwf hS hdep
  have hcost : costv (.BulkError none) = 0 := by simp [costv]
  have henc : RespValue.as_bytes (.BulkError none) = [33, 45, 49, 13, 10] := by
    simp [RespValue.as_bytes]
  have hdep' : ¬ (S.length > D) := by omega
  rw [hcost, henc]
  simp only [List.append_assoc, List.cons_append, List.nil_append,
    List.length_append, List.length_cons, List.length_nil]
  have hh := h_index_bulkerror_none A B
  have hd : dispatch ⟨A ++ 33 :: 45 :: 49 :: 13 :: 10 :: B, c, .Index A.length, L, D, S⟩
      = (.Complete (some (.BulkError none, A.length + 5)), S) := by
    simp [dispatch, hh]
  rw [show n + 1 + 0 = n + 1 from rfl]
  have := try_parse_aux_step_congr n _ _
    (step_complete_eq _ c (.Index A.length) L D S (.BulkError none) (A.length + 5)
      hdep' hd hS)
  rw [this]

theorem vr_verbatim_some (s : List Nat) : ValueRun (.VerbatimString (some s)) := by
  intro L A B S c D n hwf hS hdep
  rw [wfv] at hwf
  simp only [Bool.and_eq_true] at hwf
  have hutf : utf8Valid s = true := hwf.1.1
  have hcr : noCRLF s = true := hwf.1.2
  have hne : (s == [45, 49]) = false := by
    have := hwf.2
    simp at this ⊢
    exact this
  have hcost : costv (.VerbatimString (some s)) = 0 := by simp [costv]
  have henc : RespValue.as_bytes (.VerbatimString (some s))
      = 61 :: (s ++ 13 :: 10 :: []) := by
    simp [RespValue.as_bytes, crlf]
  have hdep' : ¬ (S.length > D) := by omega
  rw [hcost, henc]
  simp only [List.append_assoc, List.cons_append, List.nil_append,
    List.length_append, List.length_cons, List.length_nil]
  have hh := h_index_verbatim_some A s B (noCRLF_no_pair s hcr) hne hutf
  have hd : dispatch ⟨A ++ 61 :: (s ++ 13 :: 10 :: B), c, .Index A.length, L, D, S⟩
      = (.Complete (some (.VerbatimString (some s),
          A.length + 1 + s.length + CRLF_LEN)), S) := by
    simp [dispatch, hh]
  rw [show n + 1 + 0 = n + 1 from rfl]
  have := try_parse_aux_step_congr n _ _
    (step_complete_eq _ c (.Index A.length) L D S (.VerbatimString (some s))
      (A.length + 1 + s.length + CRLF_LEN) hdep' hd hS)
  rw [this]
  congr 2
  simp [CRLF_LEN]
  omega

theorem vr_verbatim_none : ValueRun (.VerbatimString none) := by
  intro L A B S c D n hwf hS hdep
  have hcost : costv (.VerbatimString none) = 0 := by simp [costv]
  have henc : RespValue.as_bytes (.VerbatimString none) = [61, 45, 49, 13, 10] := by
    simp [RespValue.as_bytes]
  have hdep' : ¬ (S.length > D) := by omega
  rw [hcost, henc]
  simp only [List.append_assoc, List.cons_append, List.nil_append,
    List.length_append, List.length_cons, List.length_nil]
  have hh := h_index_verbatim_none A B
  have hd : dispatch ⟨A ++ 61 :: 45 :: 49 :: 13 :: 10 :: B, c, .Index A.length, L, D, S⟩
      = (.Complete (some (.VerbatimString none, A.length + 5)), S) := by
    simp [dispatch, hh]
  rw [show n + 1 + 0 = n + 1 from rfl]
  have := try_parse_aux_step_congr n _ _
    (step_complete_eq _ c (.Index A.length) L D S (.VerbatimString none) (A.length + 5)
      hdep' hd hS)
  rw [this]

theorem vr_bulkstring_none : ValueRun (.BulkString none) := by
  intro L A B S c D n hwf hS hdep
  have hcost : costv (.BulkString none) = 3 := by simp [costv]
  have henc : RespValue.as_bytes (.BulkString none) = [36, 45, 49, 13, 10] := by
    simp [RespValue.as_bytes]
  have hdep' : ¬ (S.length > D) := by omega
  rw [hcost, henc]
  simp only [List.append_assoc, List.cons_append, List.nil_append,
    List.length_append, List.length_cons, List.length_nil]
  have hfin : handle_length (A ++ 36 :: 45 :: 49 :: 13 :: 10 :: B) (A.length + 3)
      (-1) true 36 = .Complete (some (.BulkString none, A.length + 5)) := by
    have h := h_length_neg1 (A ++ [36, 45, 49]) B 36 (.BulkString none) (Or.inl ⟨rfl, rfl⟩)
    simp only [List.append_assoc, List.cons_append, List.nil_append,
      List.length_append, List.length_cons, List.length_nil, CRLF_LEN] at h
    rw [show A.length + (2 + 1) + 2 = A.length + 5 from by omega] at h
    simpa using h
  exact null_form_run A B S c L D n 36 (.BulkString none) (A.length + 5)
    (Or.inl rfl) hfin hS hdep'

theorem vr_array_none : ValueRun (.Array none) := by
  intro L A B S c D n hwf hS hdep
  have hcost : costv (.Array none) = 3 := by simp [costv]
  have henc : RespValue.as_bytes (.Array none) = [42, 45, 49, 13, 10] := by
    simp [RespValue.as_bytes]
  have hdep' : ¬ (S.length > D) := by omega
  rw [hcost, henc]
  simp only [List.append_assoc, List.cons_append, List.nil_append,
    List.length_append, List.length_cons, List.length_nil]
  have hfin : handle_length (A ++ 42 :: 45 :: 49 :: 13 :: 10 :: B) (A.length + 3)
      (-1) true 42 = .Complete (some (.Array none, A.length + 5)) := by
    have h := h_length_neg1 (A ++ [42, 45, 49]) B 42 (.Array none)
      (Or.inr (Or.inl ⟨rfl, rfl⟩))
    simp only [List.append_assoc, List.cons_append, List.nil_append,
      List.length_append, List.length_cons, List.length_nil, CRLF_LEN] at h
    rw [show A.length + (2 + 1) + 2 = A.length + 5 from by omega] at h
    simpa using h
  exact null_form_run A B S c L D n 42 (.Array none) (A.length + 5)
    (Or.inr (Or.inl rfl)) hfin hS hdep'

theorem vr_map_none : ValueRun (.Map none) := by
  intro L A B S c D n hwf hS hdep
  have hcost : costv (.Map none) = 3 := by simp [costv]
  have henc : RespValue.as_bytes (.Map none) = [37, 45, 49, 13, 10] := by
    simp [RespValue.as_bytes]
  have hdep' : ¬ (S.length > D) := by omega
  rw [hcost, henc]
  simp only [List.append_assoc, List.cons_append, List.nil_append,
    List.length_append, List.length_cons, List.length_nil]
  have hfin : handle_length (A ++ 37 :: 45 :: 49 :: 13 :: 10 :: B) (A.length + 3)
      (-1) true 37 = .Complete (some (.Map none, A.length + 5)) := by
    have h := h_length_neg1 (A ++ [37, 45, 49]) B 37 (.Map none)
      (Or.inr (Or.inr (Or.inl ⟨rfl, rfl⟩)))
    simp only [List.append_assoc, List.cons_append, List.nil_append,
      List.length_append, List.length_cons, List.length_nil, CRLF_LEN] at h
    rw [show A.length + (2 + 1) + 2 = A.length + 5 from by omega] at h
    simpa using h
  exact null_form_run A B S c L D n 37 (.Map none) (A.length + 5)
    (Or.inr (Or.inr (Or.inl rfl))) hfin hS hdep'

theorem vr_set_none : ValueRun (.Set none) := by
  intro L A B S c D n hwf hS hdep
  have hcost : costv (.Set none) = 3 := by simp [costv]
  have henc : RespValue.as_bytes (.Set none) = [126, 45, 49, 13, 10] := by
    simp [RespValue.as_bytes]
  have hdep' : ¬ (S.length > D) := by omega
  rw [hcost, henc]
  simp only [List.append_assoc, List.cons_append, List.nil_append,
    List.length_append, List.length_cons, List.length_nil]
  have hfin : handle_length (A ++ 126 :: 45 :: 49 :: 13 :: 10 :: B) (A.length + 3)
      (-1) true 126 = .Complete (some (.Set none, A.length + 5)) := by
    have h := h_length_neg1 (A ++ [126, 45, 49]) B 126 (.Set none)
      (Or.inr (Or.inr (Or.inr (Or.inl ⟨rfl, rfl⟩))))
    simp only [List.append_assoc, List.cons_append, List.nil_append,
      List.length_append, List.length_cons, List.length_nil, CRLF_LEN] at h
    rw [show A.length + (2 + 1) + 2 = A.length + 5 from by omega] at h
    simpa using h
  exact null_form_run A B S c L D n 126 (.Set none) (A.length + 5)
    (Or.inr (Or.inr (Or.inr (Or.inl rfl)))) hfin hS hdep'

theorem vr_push_none : ValueRun (.Push none) := by
  intro L A B S c D n hwf hS hdep
  have hcost : costv (.Push none) = 3 := by simp [costv]
  have henc : RespValue.as_bytes (.Push none) = [62, 45, 49, 13, 10] := by
    simp [RespValue.as_bytes]
  have hdep' : ¬ (S.length > D) := by omega
  rw [hcost, henc]
  simp only [List.append_assoc, List.cons_append, List.nil_append,
    List.length_append, List.length_cons, List.length_nil]
  have hfin : handle_length (A ++ 62 :: 45 :: 49 :: 13 :: 10 :: B) (A.length + 3)
      (-1) true 62 = .Complete (some (.Push none, A.length + 5)) := by
    have h := h_length_neg1 (A ++ [62, 45, 49]) B 62 (.Push none)
      (Or.inr (Or.inr (Or.inr (Or.inr ⟨rfl, rfl⟩))))
    simp only [List.append_assoc, List.cons_append, List.nil_append,
      List.length_append, List.length_cons, List.length_nil, CRLF_LEN] at h
    rw [show A.length + (2 + 1) + 2 = A.length + 5 from by omega] at h
    simpa using h
  exact null_form_run A B S c L D n 62 (.Push none) (A.length + 5)
    (Or.inr (Or.inr (Or.inr (Or.inr rfl)))) hfin hS hdep'

theorem vr_bulkstring_empty : ValueRun (.BulkString (some [])) := by
  intro L A B S c D n hwf hS hdep
  have hcost : costv (.BulkString (some [])) = 2 := by simp [costv]
  have henc : RespValue.as_bytes (.BulkString (some []))
      = [36, 48, 13, 10, 13, 10] := by
    simp [RespValue.as_bytes, natDecimal, crlf]
  have hdep' : ¬ (S.length > D) := by omega
  rw [hcost, henc]
  simp only [List.append_assoc, List.cons_append, List.nil_append,
    List.length_append, List.length_cons, List.length_nil]
  have hfin : handle_length (A ++ 36 :: 48 :: 13 :: 10 :: 13 :: 10 :: B) (A.length + 2)
      0 false 36 = .Complete (some (.BulkString (some []), A.length + 6)) := by
    have h := h_length_zero_bulk (A ++ [36, 48]) B
    simp only [List.append_assoc, List.cons_append, List.nil_append,
      List.length_append, List.length_cons, List.length_nil] at h
    rw [show A.length + (1 + 1) + 4 = A.length + 6 from by omega] at h
    simpa using h
  exact empty_form_run A (13 :: 10 :: 13 :: 10 :: B) S c L D n 36
    (.BulkString (some [])) (A.length + 6) (Or.inl rfl) hfin hS hdep'

theorem vr_array_empty : ValueRun (.Array (some [])) := by
  intro L A B S c D n hwf hS hdep
  have hcost : costv (.Array (some [])) = 2 := by simp [costv]
  have henc : RespValue.as_bytes (.Array (some [])) = [42, 48, 13, 10] := by
    simp [RespValue.as_bytes, natDecimal, crlf]
  have hdep' : ¬ (S.length > D) := by omega
  rw [hcost, henc]
  simp only [List.append_assoc, List.cons_append, List.nil_append,
    List.length_append, List.length_cons, List.length_nil]
  have hfin : handle_length (A ++ 42 :: 48 :: 13 :: 10 :: B) (A.length + 2)
      0 false 42 = .Complete (some (.Array (some []), A.length + 4)) := by
    have h := h_length_zero_agg (A ++ [42, 48]) B 42 (.Array (some [])) (Or.inl ⟨rfl, rfl⟩)
    simp only [List.append_assoc, List.cons_append, List.nil_append,
      List.length_append, List.length_cons, List.length_nil, CRLF_LEN] at h
    rw [show A.length + (1 + 1) + 2 = A.length + 4 from by omega] at h
    simpa using h
  exact empty_form_run A (13 :: 10 :: B) S c L D n 42
    (.Array (some [])) (A.length + 4) (Or.inr (Or.inl rfl)) hfin hS hdep'

theorem vr_map_empty : ValueRun (.Map (some [])) := by
  intro L A B S c D n hwf hS hdep
  have hcost : costv (.Map (some [])) = 2 := by simp [costv]
  have henc : RespValue.as_bytes (.Map (some [])) = [37, 48, 13, 10] := by
    simp [RespValue.as_bytes, natDecimal, crlf]
  have hdep' : ¬ (S.length > D) := by omega
  rw [hcost, henc]
  simp only [List.append_assoc, List.cons_append, List.nil_append,
    List.length_append, List.length_cons, List.length_nil]
  have hfin : handle_length (A ++ 37 :: 48 :: 13 :: 10 :: B) (A.length + 2)
      0 false 37 = .Complete (some (.Map (some []), A.length + 4)) := by
    have h := h_length_zero_agg (A ++ [37, 48]) B 37 (.Map (some []))
      (Or.inr (Or.inl ⟨rfl, rfl⟩))
    simp only [List.append_assoc, List.cons_append, List.nil_append,
      List.length_append, List.length_cons, List.length_nil, CRLF_LEN] at h
    rw [show A.length + (1 + 1) + 2 = A.length + 4 from by omega] at h
    simpa using h
  exact empty_form_run A (13 :: 10 :: B) S c L D n 37
    (.Map (some [])) (A.length + 4) (Or.inr (Or.inr (Or.inl rfl))) hfin hS hdep'

theorem vr_set_empty : ValueRun (.Set (some [])) := by
  intro L A B S c D n hwf hS hdep
  have hcost : costv (.Set (some [])) = 2 := by simp [costv]
  have henc : RespValue.as_bytes (.Set (some [])) = [126, 48, 13, 10] := by
    simp [RespValue.as_bytes, natDecimal, crlf]
  have hdep' : ¬ (S.length > D) := by omega
  rw [hcost, henc]
  simp only [List.append_assoc, List.cons_append, List.nil_append,
    List.length_append, List.length_cons, List.length_nil]
  have hfin : handle_length (A ++ 126 :: 48 :: 13 :: 10 :: B) (A.length + 2)
      0 false 126 = .Complete (some (.Set (some []), A.length + 4)) := by
    have h := h_length_zero_agg (A ++ [126, 48]) B 126 (.Set (some []))
      (Or.inr (Or.inr (Or.inl ⟨rfl, rfl⟩)))
    simp only [List.append_assoc, List.cons_append, List.nil_append,
      List.length_append, List.length_cons, List.length_nil, CRLF_LEN] at h
    rw [show A.length + (1 + 1) + 2 = A.length + 4 from by omega] at h
    simpa using h
  exact empty_form_run A (13 :: 10 :: B) S c L D n 126
    (.Set (some [])) (A.length + 4) (Or.inr (Or.inr (Or.inr (Or.inl rfl)))) hfin hS hdep'

theorem vr_push_empty : ValueRun (.Push (some [])) := by
  intro L A B S c D n hwf hS hdep
  have hcost : costv (.Push (some [])) = 2 := by simp [costv]
  have henc : RespValue.as_bytes (.Push (some [])) = [62, 48, 13, 10] := by
    simp [RespValue.as_bytes, natDecimal, crlf]
  have hdep' : ¬ (S.length > D) := by omega
  rw [hcost, henc]
  simp only [List.append_assoc, List.cons_append, List.nil_append,
    List.length_append, List.length_cons, List.length_nil]
  have hfin : handle_length (A ++ 62 :: 48 :: 13 :: 10 :: B) (A.length + 2)
      0 false 62 = .Complete (some (.Push (some []), A.length + 4)) := by
    have h := h_length_zero_agg (A ++ [62, 48]) B 62 (.Push (some []))
      (Or.inr (Or.inr (Or.inr ⟨rfl, rfl⟩)))
    simp only [List.append_assoc, List.cons_append, List.nil_append,
      List.length_append, List.length_cons, List.length_nil, CRLF_LEN] at h
    rw [show A.length + (1 + 1) + 2 = A.length + 4 from by omega] at h
    simpa using h
  exact empty_form_run A (13 :: 10 :: B) S c L D n 62
    (.Push (some [])) (A.length + 4) (Or.inr (Or.inr (Or.inr (Or.inr rfl)))) hfin hS hdep'

theorem vr_bulkstring_some (s : List Nat) (hne : s ≠ []) :
    ValueRun (.BulkString (some s)) := by
  intro L A B S c D n hwf hS hdep
  rw [wfv] at hwf
  simp only [Bool.and_eq_true, decide_eq_true_eq] at hwf
  have hutf : utf8Valid s = true := hwf.1.1
  have hlenL : s.length < L := hwf.1.2
  have hbound : (s.length : Int) ≤ i64Max := by
    have := hwf.2
    simp [i64Max]
    omega
  have hd19 : (natDecimal s.length).length ≤ 19 := natDecimal_length_le_19 _ hbound
  have hemp : s.isEmpty = false := by
    cases s with
    | nil => exact absurd rfl hne
    | cons a l => rfl
  have hcost : costv (.BulkString (some s)) = (natDecimal s.length).length + 2 := by
    simp [costv, hemp]
  have henc : RespValue.as_bytes (.BulkString (some s))
      = 36 :: (natDecimal s.length ++ crlf ++ s ++ crlf) := by
    simp [RespValue.as_bytes]
  have hdep' : ¬ (S.length > D) := by omega
  rw [hcost, henc]
  simp only [List.append_assoc, List.cons_append, List.nil_append,
    List.length_append, List.length_cons, List.length_nil, crlf]
  set d := (natDecimal s.length).length with hd_def
  -- step 1: marker
  have hmk := h_index_marker A (natDecimal s.length ++ 13 :: 10 :: (s ++ 13 :: 10 :: B))
    36 (Or.inl rfl)
  have h1 : parse_step (⟨A ++ 36 :: (natDecimal s.length ++ 13 :: 10 :: (s ++ 13 :: 10 :: B)),
      c, .Index A.length, L, D, S⟩ : Parser)
      = .inr ⟨A ++ 36 :: (natDecimal s.length ++ 13 :: 10 :: (s ++ 13 :: 10 :: B)), c,
          .ReadingLength (A.length + 1) 0 false 36, L, D, S⟩ := by
    simp [parse_step, dispatch, hmk, hdep']
  rw [show n + 1 + (d + 2) = ((n + 2) + d) + 1 from by omega]
  rw [try_parse_aux_cont _ _ _ h1]
  -- digit chain
  have hchain := read_length_digits_run (natDecimal s.length) (A ++ [36])
    (13 :: 10 :: (s ++ 13 :: 10 :: B)) c L D S 0 36 (n + 2)
    (natDecimal_digits _) (le_refl 0)
    (by rw [intValFrom_natDecimal]; exact hbound) (by omega)
  rw [intValFrom_natDecimal] at hchain
  simp only [List.append_assoc, List.cons_append, List.nil_append,
    List.length_append, List.length_cons, List.length_nil] at hchain
  rw [show A.length + (0 + 1) = A.length + 1 from by omega] at hchain
  rw [hchain]
  -- CR transition to ReadingBulkString
  have hcr0 := handle_length_crlf_bulk (A ++ 36 :: natDecimal s.length)
    (s ++ 13 :: 10 :: B) (s.length : Int)
    (by exact_mod_cast List.length_pos.mpr hne)
  simp only [List.append_assoc, List.cons_append, List.nil_append,
    List.length_append, List.length_cons, List.length_nil, Int.toNat_natCast] at hcr0
  rw [show A.length + (d + 1) = A.length + 1 + d from by omega] at hcr0
  have h2 : parse_step (⟨A ++ 36 :: (natDecimal s.length ++ 13 :: 10 :: (s ++ 13 :: 10 :: B)),
      c, .ReadingLength (A.length + 1 + d) (s.length : Int) false 36, L, D, S⟩ : Parser)
      = .inr ⟨A ++ 36 :: (natDecimal s.length ++ 13 :: 10 :: (s ++ 13 :: 10 :: B)), c,
          .ReadingBulkString (A.length + 1 + d + CRLF_LEN) s.length, L, D, S⟩ := by
    simp [parse_step, dispatch, hcr0, hdep']
  rw [show n + 2 = (n + 1) + 1 from rfl]
  rw [try_parse_aux_cont _ _ _ h2]
  -- bulk payload endpoint
  have hbulk0 := handle_bulk_ok (A ++ 36 :: (natDecimal s.length ++ [13, 10])) s B L
    (List.length_pos.mpr hne) hlenL hutf
  simp only [List.append_assoc, List.cons_append, List.nil_append,
    List.length_append, List.length_cons, List.length_nil] at hbulk0
  rw [show A.length + (d + (0 + 1 + 1) + 1) = A.length + 1 + d + CRLF_LEN
      from by simp [CRLF_LEN]; omega] at hbulk0
  have hd2 : dispatch ⟨A ++ 36 :: (natDecimal s.length ++ 13 :: 10 :: (s ++ 13 :: 10 :: B)),
      c, .ReadingBulkString (A.length + 1 + d + CRLF_LEN) s.length, L, D, S⟩
      = (.Complete (some (.BulkString (some s),
          A.length + 1 + d + CRLF_LEN + s.length + CRLF_LEN)), S) := by
    simp [dispatch, hbulk0]
  have := try_parse_aux_step_congr n _ _
    (step_complete_eq _ c (.ReadingBulkString (A.length + 1 + d + CRLF_LEN) s.length)
      L D S (.BulkString (some s))
      (A.length + 1 + d + CRLF_LEN + s.length + CRLF_LEN) hdep' hd2 hS)
  rw [this]
  congr 2
  simp [CRLF_LEN]
  omega

theorem vr_array_some (xs : List RespValue) (hne : xs ≠ [])
    (hIH : ∀ e ∈ xs, ValueRun e) : ValueRun (.Array (some xs)) := by
  intro L A B S c D n hwf hS hdep
  obtain ⟨hlen62, hwfmem⟩ := wfv_array_mem L xs hwf
  have hbound : (xs.length : Int) ≤ i64Max := by
    simp [i64Max]
    omega
  have hd19 : (natDecimal xs.length).length ≤ 19 := natDecimal_length_le_19 _ hbound
  have hkpos : 0 < xs.length := List.length_pos.mpr hne
  obtain ⟨e0, he0⟩ : ∃ e, e ∈ xs := by
    cases xs with
    | nil => exact absurd rfl hne
    | cons a l => exact ⟨a, List.mem_cons_self _ _⟩
  have hdep1 : S.length + 1 ≤ D := by
    have := depthv_array_mem xs e0 he0
    omega
  have hdepmem : ∀ e ∈ xs, S.length + 1 + depthv e ≤ D := by
    intro e he
    have := depthv_array_mem xs e he
    omega
  have hdep' : ¬ (S.length > D) := by omega
  rw [costv_array xs hne, as_bytes_array]
  simp only [List.append_assoc, List.cons_append, List.nil_append,
    List.length_append, List.length_cons, List.length_nil, crlf]
  set d := (natDecimal xs.length).length with hd_def
  set CL := costList xs with hCL_def
  set k := xs.length with hk_def
  -- step 1: marker
  have hmk := h_index_marker A (natDecimal k ++ 13 :: 10 :: (encList xs ++ B))
    42 (Or.inr (Or.inl rfl))
  have h1 : parse_step (⟨A ++ 42 :: (natDecimal k ++ 13 :: 10 :: (encList xs ++ B)),
      c, .Index A.length, L, D, S⟩ : Parser)
      = .inr ⟨A ++ 42 :: (natDecimal k ++ 13 :: 10 :: (encList xs ++ B)), c,
          .ReadingLength (A.length + 1) 0 false 42, L, D, S⟩ := by
    simp [parse_step, dispatch, hmk, hdep']
  rw [show n + 1 + (d + 3 + CL) = ((n + 3 + CL) + d) + 1 from by omega]
  rw [try_parse_aux_cont _ _ _ h1]
  -- digit chain
  have hchain := read_length_digits_run (natDecimal k) (A ++ [42])
    (13 :: 10 :: (encList xs ++ B)) c L D S 0 42 (n + 3 + CL)
    (natDecimal_digits _) (le_refl 0)
    (by rw [intValFrom_natDecimal]; exact hbound) (by omega)
  rw [intValFrom_natDecimal] at hchain
  simp only [List.append_assoc, List.cons_append, List.nil_append,
    List.length_append, List.length_cons, List.length_nil] at hchain
  rw [show A.length + (0 + 1) = A.length + 1 from by omega] at hchain
  rw [hchain]
  -- CR: transition to ReadingArray
  have hcr0 := h_length_crlf_agg (A ++ 42 :: natDecimal k) (encList xs ++ B)
    (k : Int) (by exact_mod_cast hkpos) 42 (Or.inl rfl)
  simp only [List.append_assoc, List.cons_append, List.nil_append,
    List.length_append, List.length_cons, List.length_nil, Int.toNat_natCast] at hcr0
  rw [show A.length + (d + 1) = A.length + 1 + d from by omega] at hcr0
  have h2 : parse_step (⟨A ++ 42 :: (natDecimal k ++ 13 :: 10 :: (encList xs ++ B)),
      c, .ReadingLength (A.length + 1 + d) (k : Int) false 42, L, D, S⟩ : Parser)
      = .inr ⟨A ++ 42 :: (natDecimal k ++ 13 :: 10 :: (encList xs ++ B)), c,
          .ReadingArray (A.length + 1 + d + CRLF_LEN) k 0 [] 42, L, D, S⟩ := by
    simp [parse_step, dispatch, hcr0, hdep']
  rw [show n + 3 + CL = ((n + 2 + CL)) + 1 from by omega]
  rw [try_parse_aux_cont _ _ _ h2]
  -- push the frame
  have h3 := h_push_frame (A ++ 42 :: (natDecimal k ++ 13 :: 10 :: (encList xs ++ B)))
    c (A.length + 1 + d + CRLF_LEN) k 42 L D S hkpos hdep'
  rw [show n + 2 + CL = ((n + 1 + CL)) + 1 from by omega]
  rw [try_parse_aux_cont _ _ _ h3]
  -- elements
  have hel := elements_run xs hIH hne [] 0 k
    (A ++ 42 :: (natDecimal k ++ [13, 10])) B S c D L n
    (A.length + 1 + d + CRLF_LEN) 42 rfl (by omega) hwfmem hS hdepmem hdep1
  simp only [List.append_assoc, List.cons_append, List.nil_append,
    List.length_append, List.length_cons, List.length_nil] at hel
  rw [show A.length + (d + (0 + 1 + 1) + 1) = A.length + 1 + d + CRLF_LEN
      from by simp [CRLF_LEN]; omega] at hel
  rw [hel]
  congr 2
  simp [build_completed, CRLF_LEN]
  omega

theorem vr_set_some (xs : List RespValue) (hne : xs ≠ [])
    (hIH : ∀ e ∈ xs, ValueRun e) : ValueRun (.Set (some xs)) := by
  intro L A B S c D n hwf hS hdep
  obtain ⟨hlen62, hwfmem⟩ := wfv_set_mem L xs hwf
  have hbound : (xs.length : Int) ≤ i64Max := by
    simp [i64Max]
    omega
  have hd19 : (natDecimal xs.length).length ≤ 19 := natDecimal_length_le_19 _ hbound
  have hkpos : 0 < xs.length := List.length_pos.mpr hne
  obtain ⟨e0, he0⟩ : ∃ e, e ∈ xs := by
    cases xs with
    | nil => exact absurd rfl hne
    | cons a l => exact ⟨a, List.mem_cons_self _ _⟩
  have hdep1 : S.length + 1 ≤ D := by
    have := depthv_set_mem xs e0 he0
    omega
  have hdepmem : ∀ e ∈ xs, S.length + 1 + depthv e ≤ D := by
    intro e he
    have := depthv_set_mem xs e he
    omega
  have hdep' : ¬ (S.length > D) := by omega
  rw [costv_set xs hne, as_bytes_set]
  simp only [List.append_assoc, List.cons_append, List.nil_append,
    List.length_append, List.length_cons, List.length_nil, crlf]
  set d := (natDecimal xs.length).length with hd_def
  set CL := costList xs with hCL_def
  set k := xs.length with hk_def
  -- step 1: marker
  have hmk := h_index_marker A (natDecimal k ++ 13 :: 10 :: (encList xs ++ B))
    126 (Or.inr (Or.inr (Or.inr (Or.inl rfl))))
  have h1 : parse_step (⟨A ++ 126 :: (natDecimal k ++ 13 :: 10 :: (encList xs ++ B)),
      c, .Index A.length, L, D, S⟩ : Parser)
      = .inr ⟨A ++ 126 :: (natDecimal k ++ 13 :: 10 :: (encList xs ++ B)), c,
          .ReadingLength (A.length + 1) 0 false 126, L, D, S⟩ := by
    simp [parse_step, dispatch, hmk, hdep']
  rw [show n + 1 + (d + 3 + CL) = ((n + 3 + CL) + d) + 1 from by omega]
  rw [try_parse_aux_cont _ _ _ h1]
  -- digit chain
  have hchain := read_length_digits_run (natDecimal k) (A ++ [126])
    (13 :: 10 :: (encList xs ++ B)) c L D S 0 126 (n + 3 + CL)
    (natDecimal_digits _) (le_refl 0)
    (by rw [intValFrom_natDecimal]; exact hbound) (by omega)
  rw [intValFrom_natDecimal] at hchain
  simp only [List.append_assoc, List.cons_append, List.nil_append,
    List.length_append, List.length_cons, List.length_nil] at hchain
  rw [show A.length + (0 + 1) = A.length + 1 from by omega] at hchain
  rw [hchain]
  -- CR: transition to ReadingArray
  have hcr0 := h_length_crlf_agg (A ++ 126 :: natDecimal k) (encList xs ++ B)
    (k : Int) (by exact_mod_cast hkpos) 126 (Or.inr (Or.inl rfl))
  simp only [List.append_assoc, List.cons_append, List.nil_append,
    List.length_append, List.length_cons, List.length_nil, Int.toNat_natCast] at hcr0
  rw [show A.length + (d + 1) = A.length + 1 + d from by omega] at hcr0
  have h2 : parse_step (⟨A ++ 126 :: (natDecimal k ++ 13 :: 10 :: (encList xs ++ B)),
      c, .ReadingLength (A.length + 1 + d) (k : Int) false 126, L, D, S⟩ : Parser)
      = .inr ⟨A ++ 126 :: (natDecimal k ++ 13 :: 10 :: (encList xs ++ B)), c,
          .ReadingArray (A.length + 1 + d + CRLF_LEN) k 0 [] 126, L, D, S⟩ := by
    simp [parse_step, dispatch, hcr0, hdep']
  rw [show n + 3 + CL = ((n + 2 + CL)) + 1 from by omega]
  rw [try_parse_aux_cont _ _ _ h2]
  -- push the frame
  have h3 := h_push_frame (A ++ 126 :: (natDecimal k ++ 13 :: 10 :: (encList xs ++ B)))
    c (A.length + 1 + d + CRLF_LEN) k 126 L D S hkpos hdep'
  rw [show n + 2 + CL = ((n + 1 + CL)) + 1 from by omega]
  rw [try_parse_aux_cont _ _ _ h3]
  -- elements
  have hel := elements_run xs hIH hne [] 0 k
    (A ++ 126 :: (natDecimal k ++ [13, 10])) B S c D L n
    (A.length + 1 + d + CRLF_LEN) 126 rfl (by omega) hwfmem hS hdepmem hdep1
  simp only [List.append_assoc, List.cons_append, List.nil_append,
    List.length_append, List.length_cons, List.length_nil] at hel
  rw [show A.length + (d + (0 + 1 + 1) + 1) = A.length + 1 + d + CRLF_LEN
      from by simp [CRLF_LEN]; omega] at hel
  rw [hel]
  congr 2
  simp [build_completed, CRLF_LEN]
  omega

theorem vr_push_some (xs : List RespValue) (hne : xs ≠ [])
    (hIH : ∀ e ∈ xs, ValueRun e) : ValueRun (.Push (some xs)) := by
  intro L A B S c D n hwf hS hdep
  obtain ⟨hlen62, hwfmem⟩ := wfv_push_mem L xs hwf
  have hbound : (xs.length : Int) ≤ i64Max := by
    simp [i64Max]
    omega
  have hd19 : (natDecimal xs.length).length ≤ 19 := natDecimal_length_le_19 _ hbound
  have hkpos : 0 < xs.length := List.length_pos.mpr hne
  obtain ⟨e0, he0⟩ : ∃ e, e ∈ xs := by
    cases xs with
    | nil => exact absurd rfl hne
    | cons a l => exact ⟨a, List.mem_cons_self _ _⟩
  have hdep1 : S.length + 1 ≤ D := by
    have := depthv_push_mem xs e0 he0
    omega
  have hdepmem : ∀ e ∈ xs, S.length + 1 + depthv e ≤ D := by
    intro e he
    have := depthv_push_mem xs e he
    omega
  have hdep' : ¬ (S.length > D) := by omega
  rw [costv_push xs hne, as_bytes_push]
  simp only [List.append_assoc, List.cons_append, List.nil_append,
    List.length_append, List.length_cons, List.length_nil, crlf]
  set d := (natDecimal xs.length).length with hd_def
  set CL := costList xs with hCL_def
  set k := xs.length with hk_def
  -- step 1: marker
  have hmk := h_index_marker A (natDecimal k ++ 13 :: 10 :: (encList xs ++ B))
    62 (Or.inr (Or.inr (Or.inr (Or.inr rfl))))
  have h1 : parse_step (⟨A ++ 62 :: (natDecimal k ++ 13 :: 10 :: (encList xs ++ B)),
      c, .Index A.length, L, D, S⟩ : Parser)
      = .inr ⟨A ++ 62 :: (natDecimal k ++ 13 :: 10 :: (encList xs ++ B)), c,
          .ReadingLength (A.length + 1) 0 false 62, L, D, S⟩ := by
    simp [parse_step, dispatch, hmk, hdep']
  rw [show n + 1 + (d + 3 + CL) = ((n + 3 + CL) + d) + 1 from by omega]
  rw [try_parse_aux_cont _ _ _ h1]
  -- digit chain
  have hchain := read_length_digits_run (natDecimal k) (A ++ [62])
    (13 :: 10 :: (encList xs ++ B)) c L D S 0 62 (n + 3 + CL)
    (natDecimal_digits _) (le_refl 0)
    (by rw [intValFrom_natDecimal]; exact hbound) (by omega)
  rw [intValFrom_natDecimal] at hchain
  simp only [List.append_assoc, List.cons_append, List.nil_append,
    List.length_append, List.length_cons, List.length_nil] at hchain
  rw [show A.length + (0 + 1) = A.length + 1 from by omega] at hchain
  rw [hchain]
  -- CR: transition to ReadingArray
  have hcr0 := h_length_crlf_agg (A ++ 62 :: natDecimal k) (encList xs ++ B)
    (k : Int) (by exact_mod_cast hkpos) 62 (Or.inr (Or.inr rfl))
  simp only [List.append_assoc, List.cons_append, List.nil_append,
    List.length_append, List.length_cons, List.length_nil, Int.toNat_natCast] at hcr0
  rw [show A.length + (d + 1) = A.length + 1 + d from by omega] at hcr0
  have h2 : parse_step (⟨A ++ 62 :: (natDecimal k ++ 13 :: 10 :: (encList xs ++ B)),
      c, .ReadingLength (A.length + 1 + d) (k : Int) false 62, L, D, S⟩ : Parser)
      = .inr ⟨A ++ 62 :: (natDecimal k ++ 13 :: 10 :: (encList xs ++ B)), c,
          .ReadingArray (A.length + 1 + d + CRLF_LEN) k 0 [] 62, L, D, S⟩ := by
    simp [parse_step, dispatch, hcr0, hdep']
  rw [show n + 3 + CL = ((n + 2 + CL)) + 1 from by omega]
  rw [try_parse_aux_cont _ _ _ h2]
  -- push the frame
  have h3 := h_push_frame (A ++ 62 :: (natDecimal k ++ 13 :: 10 :: (encList xs ++ B)))
    c (A.length + 1 + d + CRLF_LEN) k 62 L D S hkpos hdep'
  rw [show n + 2 + CL = ((n + 1 + CL)) + 1 from by omega]
  rw [try_parse_aux_cont _ _ _ h3]
  -- elements
  have hel := elements_run xs hIH hne [] 0 k
    (A ++ 62 :: (natDecimal k ++ [13, 10])) B S c D L n
    (A.length + 1 + d + CRLF_LEN) 62 rfl (by omega) hwfmem hS hdepmem hdep1
  simp only [List.append_assoc, List.cons_append, List.nil_append,
    List.length_append, List.length_cons, List.length_nil] at hel
  rw [show A.length + (d + (0 + 1 + 1) + 1) = A.length + 1 + d + CRLF_LEN
      from by simp [CRLF_LEN]; omega] at hel
  rw [hel]
  congr 2
  simp [build_completed, CRLF_LEN]
  omega

theorem vr_map_some (m : List (RespValue × RespValue)) (hne : m ≠ [])
    (hIH : ∀ e ∈ flatPairs m, ValueRun e) : ValueRun (.Map (some m)) := by
  intro L A B S c D n hwf hS hdep
  obtain ⟨hlen61, hwfmem⟩ := wfv_map_mem L m hwf
  have hbound : (m.length : Int) ≤ i64Max := by
    simp [i64Max]
    omega
  have hd19 : (natDecimal m.length).length ≤ 19 := natDecimal_length_le_19 _ hbound
  have hkpos : 0 < m.length := List.length_pos.mpr hne
  have hfne : flatPairs m ≠ [] := by
    cases m with
    | nil => exact absurd rfl hne
    | cons kv r =>
      obtain ⟨k1, v1⟩ := kv
      simp [flatPairs]
  obtain ⟨e0, he0⟩ : ∃ e, e ∈ flatPairs m := by
    cases hfp : flatPairs m with
    | nil => exact absurd hfp hfne
    | cons a l => exact ⟨a, List.mem_cons_self _ _⟩
  have hdep1 : S.length + 1 ≤ D := by
    have := depthv_map_mem m e0 he0
    omega
  have hdepmem : ∀ e ∈ flatPairs m, S.length + 1 + depthv e ≤ D := by
    intro e he
    have := depthv_map_mem m e he
    omega
  have hdep' : ¬ (S.length > D) := by omega
  rw [costv_map m hne, as_bytes_map]
  simp only [List.append_assoc, List.cons_append, List.nil_append,
    List.length_append, List.length_cons, List.length_nil, crlf]
  set d := (natDecimal m.length).length with hd_def
  set CL := costList (flatPairs m) with hCL_def
  set k := m.length with hk_def
  have hmk := h_index_marker A (natDecimal k ++ 13 :: 10 :: (encList (flatPairs m) ++ B))
    37 (Or.inr (Or.inr (Or.inl rfl)))
  have h1 : parse_step (⟨A ++ 37 :: (natDecimal k ++ 13 :: 10 :: (encList (flatPairs m) ++ B)),
      c, .Index A.length, L, D, S⟩ : Parser)
      = .inr ⟨A ++ 37 :: (natDecimal k ++ 13 :: 10 :: (encList (flatPairs m) ++ B)), c,
          .ReadingLength (A.length + 1) 0 false 37, L, D, S⟩ := by
    simp [parse_step, dispatch, hmk, hdep']
  rw [show n + 1 + (d + 3 + CL) = ((n + 3 + CL) + d) + 1 from by omega]
  rw [try_parse_aux_cont _ _ _ h1]
  have hchain := read_length_digits_run (natDecimal k) (A ++ [37])
    (13 :: 10 :: (encList (flatPairs m) ++ B)) c L D S 0 37 (n + 3 + CL)
    (natDecimal_digits _) (le_refl 0)
    (by rw [intValFrom_natDecimal]; exact hbound) (by omega)
  rw [intValFrom_natDecimal] at hchain
  simp only [List.append_assoc, List.cons_append, List.nil_append,
    List.length_append, List.length_cons, List.length_nil] at hchain
  rw [show A.length + (0 + 1) = A.length + 1 from by omega] at hchain
  rw [hchain]
  have hcr0 := h_length_crlf_map (A ++ 37 :: natDecimal k) (encList (flatPairs m) ++ B)
    (k : Int) (by exact_mod_cast hkpos) (by exact_mod_cast hlen61)
  have htn : ((2 : Int) * (k : Int)).toNat = 2 * k := by omega
  rw [htn] at hcr0
  simp only [List.append_assoc, List.cons_append, List.nil_append,
    List.length_append, List.length_cons, List.length_nil] at hcr0
  rw [show A.length + (d + 1) = A.length + 1 + d from by omega] at hcr0
  have h2 : parse_step (⟨A ++ 37 :: (natDecimal k ++ 13 :: 10 :: (encList (flatPairs m) ++ B)),
      c, .ReadingLength (A.length + 1 + d) (k : Int) false 37, L, D, S⟩ : Parser)
      = .inr ⟨A ++ 37 :: (natDecimal k ++ 13 :: 10 :: (encList (flatPairs m) ++ B)), c,
          .ReadingArray (A.length + 1 + d + CRLF_LEN) (2 * k) 0 [] 37, L, D, S⟩ := by
    simp [parse_step, dispatch, hcr0, hdep']
  rw [show n + 3 + CL = ((n + 2 + CL)) + 1 from by omega]
  rw [try_parse_aux_cont _ _ _ h2]
  have h3 := h_push_frame (A ++ 37 :: (natDecimal k ++ 13 :: 10 :: (encList (flatPairs m) ++ B)))
    c (A.length + 1 + d + CRLF_LEN) (2 * k) 37 L D S (by omega) hdep'
  rw [show n + 2 + CL = ((n + 1 + CL)) + 1 from by omega]
  rw [try_parse_aux_cont _ _ _ h3]
  have hel := elements_run (flatPairs m) hIH hfne [] 0 (2 * k)
    (A ++ 37 :: (natDecimal k ++ [13, 10])) B S c D L n
    (A.length + 1 + d + CRLF_LEN) 37 rfl
    (by rw [flatPairs_length]; omega) hwfmem hS hdepmem hdep1
  simp only [List.append_assoc, List.cons_append, List.nil_append,
    List.length_append, List.length_cons, List.length_nil] at hel
  rw [show A.length + (d + (0 + 1 + 1) + 1) = A.length + 1 + d + CRLF_LEN
      from by simp [CRLF_LEN]; omega] at hel
  rw [hel]
  congr 2
  simp [build_completed, pair_up_flatPairs, CRLF_LEN]
  omega

/-- Every value satisfies the parse-correctness statement `ValueRun`: strong
induction on the size of the value, dispatching to the per-variant run
lemmas; aggregate elements are handled by `elements_run`. -/
theorem value_run_all : ∀ (N : Nat) (v : RespValue), sizeOf v ≤ N → ValueRun v := by
  intro N
  induction N with
  | zero =>
    intro v hv
    cases v <;> simp at hv
  | succ N ih =>
    intro v hv
    cases v with
    | SimpleString s => exact vr_simple s
    | Error s => exact vr_error s
    | Integer i => exact vr_integer i
    | Null => exact vr_null
    | Boolean b => exact vr_boolean b
    | BigNumber s => exact vr_bignumber s
    | Double dd =>
      intro L A B S c D n hwf hS hdep
      rw [wfv] at hwf
      exact absurd hwf (by simp)
    | BulkString o =>
      cases o with
      | none => exact vr_bulkstring_none
      | some s =>
        by_cases hs : s = []
        · subst hs; exact vr_bulkstring_empty
        · exact vr_bulkstring_some s hs
    | BulkError o =>
      cases o with
      | none => exact vr_bulkerror_none
      | some s => exact vr_bulkerror_some s
    | VerbatimString o =>
      cases o with
      | none => exact vr_verbatim_none
      | some s => exact vr_verbatim_some s
    | Array o =>
      cases o with
      | none => exact vr_array_none
      | some xs =>
        by_cases hxe : xs = []
        · subst hxe; exact vr_array_empty
        · refine vr_array_some xs hxe ?_
          intro e he
          apply ih
          have h1 := List.sizeOf_lt_of_mem he
          simp at hv
          omega
    | Set o =>
      cases o with
      | none => exact vr_set_none
      | some xs =>
        by_cases hxe : xs = []
        · subst hxe; exact vr_set_empty
        · refine vr_set_some xs hxe ?_
          intro e he
          apply ih
          have h1 := List.sizeOf_lt_of_mem he
          simp at hv
          omega
    | Push o =>
      cases o with
      | none => exact vr_push_none
      | some xs =>
        by_cases hxe : xs = []
        · subst hxe; exact vr_push_empty
        · refine vr_push_some xs hxe ?_
          intro e he
          apply ih
          have h1 := List.sizeOf_lt_of_mem he
          simp at hv
          omega
    | Map o =>
      cases o with
      | none => exact vr_map_none
      | some m =>
        by_cases hme : m = []
        · subst hme; exact vr_map_empty
        · refine vr_map_some m hme ?_
          intro e he
          apply ih
          obtain ⟨kv, hm, hor⟩ := flatPairs_mem m e he
          have h1 := List.sizeOf_lt_of_mem hm
          obtain ⟨k1, v1⟩ := kv
          simp at h1 hv
          rcases hor with h2 | h2
          · simp at h2
            rw [h2]
            omega
          · simp at h2
            rw [h2]
            omega

/-- C1 (amended): round-trip holds on the well-formed domain `wfv` — text
variants valid UTF-8 with SimpleString/Error free of CR/LF, Integer in i64
range, BulkString payloads shorter than `max_length`, BulkError/VerbatimString
text distinct from the literal "-1" (the counterexample shows `-1` decodes to
the null form), Double excluded — provided the encoding costs at most the
per-call iteration budget (`costv v ≤ 1023`) and the nesting depth fits
`max_depth`: feeding `as_bytes v` to a fresh parser, `try_parse` returns
`Ok(Some(v))`, a value structurally equal to `v`. -/
theorem c1_roundtrip_amended (D L : Nat) (v : RespValue)
    (hwf : wfv L v = true) (hcost : costv v ≤ 1023) (hdepth : depthv v ≤ D) :
    (try_parse (read_buf (Parser.new D L) v.as_bytes)).1 = .ok (some v) := by
  rw [read_buf_new]
  have hvr := value_run_all (sizeOf v) v (le_refl _)
  have h := hvr L [] [] [] (if v.as_bytes.length ≤ 4096 then 4096 else v.as_bytes.length + 4096)
    D (1023 - costv v) hwf rfl (by simpa using hdepth)
  simp only [List.nil_append, List.append_nil, List.length_nil] at h
  show (try_parse_aux MAX_ITERATIONS _).1 = _
  rw [show MAX_ITERATIONS = (1023 - costv v) + 1 + costv v from by
    simp [MAX_ITERATIONS]; omega]
  simp only [Nat.zero_add] at h
  rw [h]
  have hfin : parse_step (⟨v.as_bytes,
      (if v.as_bytes.length ≤ 4096 then 4096 else v.as_bytes.length + 4096),
      .Complete (some (v, v.as_bytes.length)), L, D, []⟩ : Parser)
      = .inl (.ok (some v),
          ⟨v.as_bytes,
           (if v.as_bytes.length ≤ 4096 then 4096 else v.as_bytes.length + 4096),
           .Index v.as_bytes.length, L, D, []⟩) := by
    simp [parse_step, dispatch, complete_step, clear_buffer]
  rw [show (1023 - costv v) + 1 = (1023 - costv v) + 1 from rfl]
  rw [try_parse_aux_ret _ _ _ hfin]

/-- C1 witness: a nested map value round-trips through encode + decode. -/
theorem c1_witness :
    (try_parse (read_buf (Parser.new 3 10)
      (RespValue.as_bytes (.Map (some [(.SimpleString [107],
        .Array (some [.Integer (-5), .BulkString (some [104, 105])]))]))))).1
      = .ok (some (.Map (some [(.SimpleString [107],
          .Array (some [.Integer (-5), .BulkString (some [104, 105])]))]))) :=
  c1_roundtrip_amended 3 10 _
    (by simp [wfv]; decide)
    (by simp [costv, natDecimal, natDigitsRev])
    (by simp [depthv])
